import Mathlib

/-!
OECS: archetype storage, entity records and transitions.

A shallow embedding of `src/ecs/entity.c` and `src/ecs/ecs_world.c`.

* Pointers to archetypes (`entity_archetype_t*`) are indices into
  `world.archetypes`; a pointer into a column is an archetype index, a column
  index and a byte offset.  A byte is a natural number.
* Sizes, counts, rows and ids are natural numbers.  The one place where the
  unsigned arithmetic of the source wraps at a small value, `capacity - 1`
  at capacity `0`, is written with the wrap (`u64_pred`).  Everywhere else a
  wrap or a truncation to 32 bits needs a count of `2^31` or more (rows of one
  column, entities, components), and the embedding takes counts to be below
  that.
* The component argument of `entity_has_component`, `entity_get_component` and
  `entity_try_get_component` is a 64-bit `ecs_index` in the source, which
  narrows it to the 32-bit key of the component set.  The embedding does not
  narrow: the three functions are those of the source for arguments below
  `2^32`, and a theorem that would fail above that carries the bound.
* The containers (`darray`, `set`, `unordered_map`), the column helpers and
  the archetype constructors are declared in the headers but their bodies are
  not part of the source tree; they are modelled from the specification and
  marked as such.
* The capacity a fresh column is created with is not given anywhere; it is
  the parameter `cap0` of every definition that can create an archetype.
-/

namespace OECS

/-! ## Constants and small helpers -/

/-- Modelled from the spec: the sentinel `INVALID_ID` of the missing `defines.h`,
a 32-bit id with all bits set. -/
def INVALID_ID : Nat := 4294967295

/-- The growth factor `ECS_COLUMN_RESIZE_FACTOR` of `ecs.h`. -/
def ECS_COLUMN_RESIZE_FACTOR : Nat := 2

/-- The number of phases, `ECS_PHASE_ENUM_MAX` of `ecs.h`. -/
def ECS_PHASE_ENUM_MAX : Nat := 8

/-- The value of `n - 1` computed in unsigned 64-bit arithmetic (`ecs_index`),
for `n` a 64-bit value: `0 - 1` wraps to `2^64 - 1`. -/
def u64_pred (n : Nat) : Nat := if n = 0 then 18446744073709551615 else n - 1

/-- Apply `f` to the element at index `i`; an index past the end changes nothing. -/
def updAt {α : Type} (l : List α) (i : Nat) (f : α → α) : List α :=
  match l[i]? with
  | some x => l.set i (f x)
  | none => l

/-- Read `n` bytes at offset `off` of a buffer. -/
def read_bytes (data : List Nat) (off n : Nat) : List Nat :=
  (data.drop off).take n

/-- Copy `bytes` into a buffer at offset `off`.  A copy that would run past the
end of the buffer is outside the model and leaves the buffer as it is. -/
def write_bytes (data : List Nat) (off : Nat) (bytes : List Nat) : List Nat :=
  if off + bytes.length ≤ data.length then
    data.take off ++ bytes ++ data.drop (off + bytes.length)
  else data

/-! ## Containers -/

/-- Modelled from the spec: `darray_*_push` of the missing `containers/darray.h`
appends one element at the end of a dynamic array. -/
def darray_push {α : Type} (l : List α) (x : α) : List α := l ++ [x]

/-- Modelled from the spec: `darray_*_pop` of the missing `containers/darray.h`
is a swap-remove: when `row` is before the last slot the last element is moved
into slot `row`; the count is decremented. -/
def darray_pop {α : Type} [Inhabited α] (l : List α) (row : Nat) : List α :=
  if row < l.length - 1 then (l.set row (l.getD (l.length - 1) default)).dropLast
  else l.dropLast

/-- Modelled from the spec: the component set of the missing `containers/set.h`.
`data` lists the slots; a slot holds a component id or `INVALID_ID` when it is
empty.  Slots are never relocated, so the ordinal of an id is its slot. -/
structure ecs_component_set where
  data : List Nat
deriving DecidableEq, Repr, Inhabited

/-- Modelled from the spec: the field `capacity` of a component set, the number of
slots. -/
def ecs_component_set.capacity (s : ecs_component_set) : Nat := s.data.length

/-- Modelled from the spec: the field `count` of a component set, the number of
real ids. -/
def ecs_component_set.count (s : ecs_component_set) : Nat :=
  (s.data.filter (fun c => c != INVALID_ID)).length

/-- Modelled from the spec: `ecs_component_set_contains`, the membership test. -/
def ecs_component_set_contains (s : ecs_component_set) (c : Nat) : Bool :=
  c != INVALID_ID && s.data.contains c

/-- Modelled from the spec: `ecs_component_set_get_index`, the ordinal of an id
in the set, or `INVALID_ID` when the id is not in the set. -/
def ecs_component_set_get_index (s : ecs_component_set) (c : Nat) : Nat :=
  if ecs_component_set_contains s c then s.data.indexOf c else INVALID_ID

/-- Modelled from the spec: `ecs_component_set_insert`; an id already present
is not inserted twice and existing slots keep their position. -/
def ecs_component_set_insert (s : ecs_component_set) (c : Nat) : ecs_component_set :=
  if ecs_component_set_contains s c then s else { data := s.data ++ [c] }

/-- Modelled from the spec: the map of the missing `containers/unordered_map.h`
from component ids to archetype pointers, as a list of bindings. -/
abbrev entity_archetype_ptr_map := List (Nat × Nat)

/-- Modelled from the spec: `entity_archetype_ptr_map_try_get`, `none` when the
key has no binding. -/
def entity_archetype_ptr_map_try_get (m : entity_archetype_ptr_map) (key : Nat) : Option Nat :=
  match m with
  | [] => none
  | (k, v) :: rest => if k = key then some v else entity_archetype_ptr_map_try_get rest key

/-- Modelled from the spec: `entity_archetype_ptr_map_insert`; the binding of a
key already present is overwritten. -/
def entity_archetype_ptr_map_insert (m : entity_archetype_ptr_map) (key value : Nat) :
    entity_archetype_ptr_map :=
  match m with
  | [] => [(key, value)]
  | (k, v) :: rest =>
    if k = key then (key, value) :: rest
    else (k, v) :: entity_archetype_ptr_map_insert rest key value

/-! ## Columns -/

/-- The struct `ecs_column_t` of `ecs.h`; `data` is the byte buffer. -/
structure ecs_column where
  data : List Nat
  component_stride : Nat
  count : Nat
  capacity : Nat
deriving DecidableEq, Repr, Inhabited

/-- Modelled from the spec: `ecs_component_column_create` allocates
`initial_count * stride` bytes with count 0.  The spec does not say what the
fresh bytes hold; the buffer is written here with 0 in every byte, and nothing
proved about the source rests on that value. -/
def ecs_component_column_create (initial_count component_stride : Nat) : ecs_column :=
  { data := List.replicate (initial_count * component_stride) 0
    component_stride := component_stride
    count := 0
    capacity := initial_count }

/-- Modelled from the spec: `ecs_component_column_resize` reallocates to `size`
rows, keeps the bytes of the first `min count size` rows and clamps the count.
The spec does not say what the rest of the new buffer holds; it is written here
with 0 in every byte, and nothing proved about the source rests on that value. -/
def ecs_component_column_resize (column : ecs_column) (size : Nat) : ecs_column :=
  let keep := min column.count size
  { data := column.data.take (keep * column.component_stride) ++
      List.replicate (size * column.component_stride - keep * column.component_stride) 0
    component_stride := column.component_stride
    count := keep
    capacity := size }

/-- The guard and growth of `entity_add_component` (lines 78-80 and 143-145), which
the specification gives to `ecs_component_column_push` too: the column is resized
to `capacity * ECS_COLUMN_RESIZE_FACTOR` when `count >= capacity - 1` (unsigned). -/
def ecs_column_grow (column : ecs_column) : ecs_column :=
  if column.count ≥ u64_pred column.capacity then
    ecs_component_column_resize column (column.capacity * ECS_COLUMN_RESIZE_FACTOR)
  else column

/-- Modelled from the spec: `ecs_component_column_push` grows the column if
needed, copies `stride` bytes found at offset `off` of the buffer `src` into
slot `count` and increments the count. -/
def ecs_component_column_push (column : ecs_column) (src : List Nat) (off : Nat) : ecs_column :=
  let bytes := read_bytes src off column.component_stride
  let grown := ecs_column_grow column
  { grown with
    data := write_bytes grown.data (grown.count * grown.component_stride) bytes
    count := grown.count + 1 }

/-- Modelled from the spec: `ecs_component_column_pop` is a swap-remove: when
`row < count - 1` the bytes of slot `count - 1` are copied over slot `row`; the
count is decremented and the memory is not shrunk. -/
def ecs_component_column_pop (column : ecs_column) (row : Nat) : ecs_column :=
  if row < column.count - 1 then
    { column with
      data := write_bytes column.data (row * column.component_stride)
        (read_bytes column.data ((column.count - 1) * column.component_stride)
          column.component_stride)
      count := column.count - 1 }
  else { column with count := column.count - 1 }

/-! ## The world -/

/-- The struct `entity_record_t` of `ecs.h`. -/
structure entity_record where
  index : Nat
  archetype_index : Nat
deriving DecidableEq, Repr, Inhabited

/-- The struct `entity_archetype_edge_t` of `ecs.h`. -/
structure entity_archetype_edge where
  add_edges : entity_archetype_ptr_map
  remove_edges : entity_archetype_ptr_map
deriving DecidableEq, Repr, Inhabited

/-- The struct `entity_archetype_t` of `ecs.h`. -/
structure entity_archetype where
  component_set : ecs_component_set
  columns : List ecs_column
  entities : List Nat
  edges : entity_archetype_edge
  archetype_id : Nat
deriving DecidableEq, Repr, Inhabited

/-- The struct `ecs_component_t` of `ecs.h`; `archetypes` holds archetype
pointers. -/
structure ecs_component where
  archetypes : List Nat
  stride : Nat
  name : String
deriving DecidableEq, Repr, Inhabited

/-- The struct `ecs_query_t` of `ecs.h`. -/
structure ecs_query where
  archetype_indices : List Nat
  components : List Nat
  without_components : List Nat
  hash : Nat
deriving DecidableEq, Repr, Inhabited

/-- The struct `ecs_system_t` of `ecs.h`: a query pointer and a callback,
the callback named by a number. -/
structure ecs_system where
  query : Nat
  callback : Nat
deriving DecidableEq, Repr, Inhabited

/-- The struct `ecs_world_t` of `ecs_world.h`. -/
structure ecs_world where
  entity_count : Nat
  records : List entity_record
  components : List ecs_component
  archetypes : List entity_archetype
  queries : List ecs_query
  systems : List (List ecs_system)
deriving DecidableEq, Repr, Inhabited

/-- The archetype a pointer names: `world->archetypes.data[a]`. -/
def ecs_world.archetype (w : ecs_world) (a : Nat) : entity_archetype :=
  w.archetypes.getD a default

/-- The record of an entity: `world->records.data[entity]`. -/
def ecs_world.record (w : ecs_world) (entity : Nat) : entity_record :=
  w.records.getD entity default

/-- Update through an archetype pointer. -/
def modify_archetype (w : ecs_world) (a : Nat) (f : entity_archetype → entity_archetype) :
    ecs_world :=
  { w with archetypes := updAt w.archetypes a f }

/-- Update through a pointer to a column of an archetype. -/
def modify_column (w : ecs_world) (a i : Nat) (f : ecs_column → ecs_column) : ecs_world :=
  modify_archetype w a (fun arch => { arch with columns := updAt arch.columns i f })

/-! ## Archetype construction and queries -/

/-- Modelled from the spec: `entity_archetype_create` (its body is not in the
source tree) builds the component set from the ids, one column per slot with
the registered stride and the initial capacity `cap0`, empty entities and
edges, the id `archetypes.count`, and registers the archetype with each of its
components.  It returns the world with the updated registry and the archetype. -/
def entity_archetype_create (cap0 : Nat) (w : ecs_world) (components : List Nat) :
    ecs_world × entity_archetype :=
  let set := components.foldl ecs_component_set_insert { data := [] }
  let id := w.archetypes.length
  ({ w with
      components := set.data.foldl
        (fun cs c => updAt cs c (fun m => { m with archetypes := darray_push m.archetypes id }))
        w.components },
   { component_set := set
     columns := set.data.map
       (fun c => ecs_component_column_create cap0 (w.components.getD c default).stride)
     entities := []
     edges := { add_edges := [], remove_edges := [] }
     archetype_id := id })

/-- Modelled from the spec: `entity_archetype_create_from_base` (its body is not
in the source tree) creates the archetype whose set is the set of `base`
united with `components`, appends it to `world.archetypes` and returns the
pointer to it. -/
def entity_archetype_create_from_base (cap0 : Nat) (w : ecs_world) (base : Nat)
    (components : List Nat) : ecs_world × Nat :=
  let ids := (w.archetype base).component_set.data.filter (fun c => c != INVALID_ID) ++ components
  let r := entity_archetype_create cap0 w ids
  ({ r.1 with archetypes := darray_push r.1.archetypes r.2 }, w.archetypes.length)

/-- Modelled from the spec: `ecs_query_matches_archetype` is true iff every
include is in the set and no exclude is. -/
def ecs_query_matches_archetype (q : ecs_query) (a : entity_archetype) : Bool :=
  q.components.all (fun c => ecs_component_set_contains a.component_set c) &&
  q.without_components.all (fun c => !ecs_component_set_contains a.component_set c)

/-- Modelled from the spec: `entity_archetype_match_queryies` (its body is not in
the source tree) appends the archetype index to the match list of every query
of the world that matches the archetype. -/
def entity_archetype_match_queryies (archetype : Nat) (w : ecs_world) : ecs_world :=
  { w with
    queries := w.queries.map (fun q =>
      if ecs_query_matches_archetype q (w.archetype archetype) then
        { q with archetype_indices := darray_push q.archetype_indices archetype }
      else q) }

/-! ## `ecs_world.c` -/

/-- The function `ecs_world_component_define`: appends the component and
returns its id, the old `components.count`. -/
def ecs_world_component_define (w : ecs_world) (name : String) (stride : Nat) :
    ecs_world × Nat :=
  let component : ecs_component := { stride := stride, name := name, archetypes := [] }
  let component_id := w.components.length
  ({ w with components := darray_push w.components component }, component_id)

/-- The function `ecs_world_initialize`: empty arrays, one empty system list
per phase, the empty archetype at index 0 and the component `Null` of stride 0. -/
def ecs_world_initialize (cap0 : Nat) : ecs_world :=
  let w0 : ecs_world :=
    { entity_count := 0
      records := []
      components := []
      archetypes := []
      queries := []
      systems := List.replicate ECS_PHASE_ENUM_MAX [] }
  let r := entity_archetype_create cap0 w0 []
  let w1 : ecs_world := { r.1 with archetypes := [r.2] }
  ( ecs_world_component_define w1 "Null" 0).1

/-! ## `entity.c` -/

/-- The function `entity_create`.  The row stored in the record is
`archetypes.data[0].columns.count`, as in the source. -/
def entity_create (w : ecs_world) : ecs_world × Nat :=
  let entity := w.entity_count
  let record : entity_record :=
    { archetype_index := 0
      index := (w.archetype 0).columns.length }
  ({ w with
      entity_count := w.entity_count + 1
      archetypes := updAt w.archetypes 0
        (fun a => { a with entities := darray_push a.entities entity })
      records := darray_push w.records record },
   entity)

/-- The function `entity_has_component`, for a component id below `2^32`: the
source narrows its 64-bit argument to the 32-bit key of the set. -/
def entity_has_component (w : ecs_world) (entity component : Nat) : Bool :=
  let record := w.record entity
  let archetype := w.archetype record.archetype_index
  ecs_component_set_contains archetype.component_set component

/-- A pointer into a column buffer: which archetype, which column, and the
byte offset from `column.data`. -/
structure component_ptr where
  archetype : Nat
  column : Nat
  offset : Nat
deriving DecidableEq, Repr, Inhabited

/-- The function `entity_get_component`, for a component id below `2^32` (the
source narrows its 64-bit argument to the 32-bit key of the set); `none` is the
null pointer. -/
def entity_get_component (w : ecs_world) (entity component : Nat) : Option component_ptr :=
  let record := w.record entity
  let archetype := w.archetype record.archetype_index
  if !ecs_component_set_contains archetype.component_set component then none
  else
    let component_column_index := ecs_component_set_get_index archetype.component_set component
    let column := archetype.columns.getD component_column_index default
    some { archetype := record.archetype_index
           column := component_column_index
           offset := record.index * column.component_stride }

/-- The function `entity_try_get_component`, for a component id below `2^32`
(the source narrows its 64-bit argument to the 32-bit key of the set): the flag
returned and the value of `*out_data` after the call, given its value
`out_data` before. -/
def entity_try_get_component (w : ecs_world) (entity component : Nat)
    (out_data : Option component_ptr) : Bool × Option component_ptr :=
  let record := w.record entity
  let archetype := w.archetype record.archetype_index
  if !ecs_component_set_contains archetype.component_set component then (false, out_data)
  else
    let component_column_index := ecs_component_set_get_index archetype.component_set component
    let column := archetype.columns.getD component_column_index default
    (true, some { archetype := record.archetype_index
                  column := component_column_index
                  offset := record.index * column.component_stride })

/-- The `n` bytes a component pointer points at. -/
def component_bytes (w : ecs_world) (p : component_ptr) (n : Nat) : List Nat :=
  read_bytes ((w.archetype p.archetype).columns.getD p.column default).data p.offset n

/-- The bytes `entity_get_component` resolves to: `stride` bytes of the column,
the stride being the registered one of the component; `none` for null. -/
def entity_get_component_bytes (w : ecs_world) (entity component : Nat) : Option (List Nat) :=
  (entity_get_component w entity component).map
    (fun p => component_bytes w p (w.components.getD component default).stride)

/-- One iteration of the loop of `entity_transition_archetype`: the bytes of
the component at `entity_row` are pushed onto the destination column, then
popped from the source column. -/
def entity_transition_step (source dest entity_row : Nat) (w : ecs_world) (component : Nat) :
    ecs_world :=
  if component = INVALID_ID then w
  else
    let source_column_index :=
      ecs_component_set_get_index (w.archetype source).component_set component
    let dest_column_index :=
      ecs_component_set_get_index (w.archetype dest).component_set component
    let source_column := (w.archetype source).columns.getD source_column_index default
    let w1 := modify_column w dest dest_column_index
      (fun column => ecs_component_column_push column source_column.data
        (entity_row * source_column.component_stride))
    modify_column w1 source source_column_index
      (fun column => ecs_component_column_pop column entity_row)

/-- The function `entity_transition_archetype`. -/
def entity_transition_archetype (w : ecs_world) (entity dest_archetype : Nat) : ecs_world :=
  let record := w.record entity
  let source_archetype := record.archetype_index
  let entity_row := record.index
  let w1 := modify_archetype w source_archetype
    (fun a => { a with entities := darray_pop a.entities entity_row })
  let future_index := (w1.archetype dest_archetype).entities.length
  let w2 := modify_archetype w1 dest_archetype
    (fun a => { a with entities := darray_push a.entities entity })
  let w3 := (w2.archetype source_archetype).component_set.data.foldl
    (entity_transition_step source_archetype dest_archetype entity_row) w2
  { w3 with
    records := updAt w3.records entity
      (fun _ => { index := future_index
                  archetype_index := (w3.archetype dest_archetype).archetype_id }) }

/-- The slot reservation that ends both paths of `entity_add_component`: the
column of the new component grows when `count >= capacity - 1` and its count
is incremented; no byte is written. -/
def entity_add_component_reserve (w : ecs_world) (new_archetype component_id : Nat) : ecs_world :=
  let column_index :=
    ecs_component_set_get_index (w.archetype new_archetype).component_set component_id
  modify_column w new_archetype column_index
    (fun column =>
      let grown := ecs_column_grow column
      { grown with count := grown.count + 1 })

/-- The test the search loop of `entity_add_component` applies to one candidate
of `component.archetypes`: the size check, then either the empty-source
shortcut or the type check. -/
def entity_add_component_candidate (w : ecs_world) (current component_id : Nat)
    (archetype : Nat) : Bool :=
  let target_component_count := (w.archetype current).component_set.count + 1
  if (w.archetype archetype).component_set.count != target_component_count ||
      !ecs_component_set_contains (w.archetype archetype).component_set component_id then false
  else if (w.archetype current).archetype_id = 0 then true
  else (w.archetype current).component_set.data.all (fun component =>
    component == INVALID_ID ||
      ecs_component_set_contains (w.archetype archetype).component_set component)

/-- The function `entity_add_component`. -/
def entity_add_component (cap0 : Nat) (w : ecs_world) (entity component_id : Nat) : ecs_world :=
  if entity_has_component w entity component_id then w
  else
    let record := w.record entity
    let current_archetype := record.archetype_index
    match entity_archetype_ptr_map_try_get (w.archetype current_archetype).edges.add_edges
        component_id with
    | some new_archetype =>
      entity_add_component_reserve
        (entity_transition_archetype w entity new_archetype) new_archetype component_id
    | none =>
      let component := w.components.getD component_id default
      let found := component.archetypes.find?
        (entity_add_component_candidate w current_archetype component_id)
      let r : ecs_world × Nat :=
        match found with
        | some archetype => (w, archetype)
        | none =>
          let c := entity_archetype_create_from_base cap0 w record.archetype_index [component_id]
          (entity_archetype_match_queryies c.2 c.1, c.2)
      let new_archetype := r.2
      let w1 := modify_archetype r.1 record.archetype_index (fun a =>
        { a with edges := { a.edges with
            add_edges := entity_archetype_ptr_map_insert a.edges.add_edges component_id
              new_archetype } })
      let w2 := modify_archetype w1 new_archetype (fun a =>
        { a with edges := { a.edges with
            remove_edges := entity_archetype_ptr_map_insert a.edges.remove_edges component_id
              current_archetype } })
      entity_add_component_reserve
        (entity_transition_archetype w2 entity new_archetype) new_archetype component_id

/-- The function `entity_set_component`. -/
def entity_set_component (cap0 : Nat) (w : ecs_world) (entity component : Nat)
    (data : List Nat) (stride : Nat) : ecs_world :=
  let w1 :=
    if !entity_has_component w entity component then entity_add_component cap0 w entity component
    else w
  let record := w1.record entity
  let column_index :=
    ecs_component_set_get_index (w1.archetype record.archetype_index).component_set component
  modify_column w1 record.archetype_index column_index
    (fun column =>
      { column with
        data := write_bytes column.data (record.index * stride) (read_bytes data 0 stride) })

/-! ## Valid calls, reachable worlds and the storage invariant -/

/-- The registered stride of a component: `world->components.data[c].stride`. -/
def ecs_world.stride (w : ecs_world) (c : Nat) : Nat :=
  (w.components.getD c default).stride

/-- A component id the world has registered.  Ids are 32-bit and `INVALID_ID`
is the sentinel, so a registered id is below it. -/
abbrev registered (w : ecs_world) (c : Nat) : Prop :=
  c < w.components.length ∧ c < INVALID_ID

/-- The worlds reachable from `ecs_world_initialize` by `ecs_world_component_define`,
`entity_create`, and `entity_add_component` / `entity_set_component` on a created
entity and a registered component, the bytes set having the registered stride. -/
inductive Reachable (cap0 : Nat) : ecs_world → Prop where
  | init : Reachable cap0 ( ecs_world_initialize cap0)
  | define (w : ecs_world) (name : String) (stride : Nat) :
      Reachable cap0 w → Reachable cap0 ( ecs_world_component_define w name stride).1
  | create (w : ecs_world) : Reachable cap0 w → Reachable cap0 (entity_create w).1
  | add (w : ecs_world) (e c : Nat) :
      Reachable cap0 w → e < w.entity_count → registered w c →
      Reachable cap0 (entity_add_component cap0 w e c)
  | set (w : ecs_world) (e c : Nat) (data : List Nat) :
      Reachable cap0 w → e < w.entity_count → registered w c → data.length = w.stride c →
      Reachable cap0 (entity_set_component cap0 w e c data (w.stride c))

/-- A column is sound for stride `stride` and `n` rows: it has that stride, a
buffer of `capacity * stride` bytes, `n` rows and room for one more. -/
def column_ok (col : ecs_column) (stride n : Nat) : Prop :=
  col.component_stride = stride ∧ col.data.length = col.capacity * col.component_stride ∧
  col.count < col.capacity ∧ col.count = n

/-- An archetype stored at index `idx` is sound: its id is its index, its set
has no duplicate and only registered ids, and it has one sound column per slot
with as many rows as the archetype has entities. -/
def archetype_ok (w : ecs_world) (a : entity_archetype) (idx : Nat) : Prop :=
  a.archetype_id = idx ∧ a.component_set.data.Nodup ∧
  (∀ c ∈ a.component_set.data, registered w c) ∧
  a.columns.length = a.component_set.data.length ∧
  ∀ i, i < a.columns.length →
    column_ok (a.columns.getD i default) (w.stride (a.component_set.data.getD i 0))
      a.entities.length

/-- The storage invariant of a world. -/
structure WF (w : ecs_world) : Prop where
  rec_len : w.records.length = w.entity_count
  arch_pos : 0 < w.archetypes.length
  arch0 : (w.archetype 0).component_set.data = []
  arch_ok : ∀ a, a < w.archetypes.length → archetype_ok w (w.archetype a) a
  rec_arch : ∀ e, e < w.entity_count → (w.record e).archetype_index < w.archetypes.length
  rec_row : ∀ e, e < w.entity_count →
    ∀ col ∈ (w.archetype (w.record e).archetype_index).columns, (w.record e).index < col.capacity
  edge_ok : ∀ a, a < w.archetypes.length → ∀ c b,
    entity_archetype_ptr_map_try_get (w.archetype a).edges.add_edges c = some b →
    b < w.archetypes.length ∧
    ∀ x, x ∈ (w.archetype b).component_set.data ↔ (x ∈ (w.archetype a).component_set.data ∨ x = c)

/-! ## Proof devices for the transition loop -/

/-- One iteration of the transition loop seen on the two column arrays it
touches: the columns of the source archetype (set `sa`) and of the destination
archetype (set `sb`). -/
def pair_step (sa sb : ecs_component_set) (row : Nat)
    (p : List ecs_column × List ecs_column) (component : Nat) :
    List ecs_column × List ecs_column :=
  if component = INVALID_ID then p
  else
    let source_column := p.1.getD (ecs_component_set_get_index sa component) default
    (updAt p.1 (ecs_component_set_get_index sa component)
        (fun column => ecs_component_column_pop column row),
     updAt p.2 (ecs_component_set_get_index sb component)
        (fun column => ecs_component_column_push column source_column.data
          (row * source_column.component_stride)))

/-- Store column arrays back into the archetypes `a` and `b` of a world. -/
def put_columns (w : ecs_world) (a b : Nat) (p : List ecs_column × List ecs_column) :
    ecs_world :=
  modify_archetype (modify_archetype w b (fun arch => { arch with columns := p.2 })) a
    (fun arch => { arch with columns := p.1 })

/-- The slot reservation applied to one column. -/
def reserve_column (column : ecs_column) : ecs_column :=
  { (ecs_column_grow column) with count := (ecs_column_grow column).count + 1 }

/-- The world `w2` is the world `w` after entity `e` was moved to archetype `b`
for the new component `c`: what each part of the storage has become. -/
structure Moved (w w2 : ecs_world) (e b c : Nat) : Prop where
  entity_count : w2.entity_count = w.entity_count
  components : w2.components = w.components
  queries : w2.queries = w.queries
  systems : w2.systems = w.systems
  length : w2.archetypes.length = w.archetypes.length
  records : w2.records = updAt w.records e
    (fun _ => { index := (w.archetype b).entities.length, archetype_index := b })
  other : ∀ k, k ≠ (w.record e).archetype_index → k ≠ b → w2.archetype k = w.archetype k
  source : w2.archetype (w.record e).archetype_index =
    { w.archetype (w.record e).archetype_index with
      entities := darray_pop (w.archetype (w.record e).archetype_index).entities (w.record e).index
      columns := (w.archetype (w.record e).archetype_index).columns.map
        (fun column => ecs_component_column_pop column (w.record e).index) }
  dest_set : (w2.archetype b).component_set = (w.archetype b).component_set
  dest_edges : (w2.archetype b).edges = (w.archetype b).edges
  dest_id : (w2.archetype b).archetype_id = (w.archetype b).archetype_id
  dest_entities : (w2.archetype b).entities = darray_push (w.archetype b).entities e
  dest_length : (w2.archetype b).columns.length = (w.archetype b).columns.length
  dest_new : ∀ j : Nat, (w.archetype b).component_set.data[j]? = some c →
    (w2.archetype b).columns[j]? = ((w.archetype b).columns[j]?).map reserve_column
  dest_old : ∀ (j : Nat) (x : Nat), (w.archetype b).component_set.data[j]? = some x → x ≠ c →
    (w2.archetype b).columns[j]? = ((w.archetype b).columns[j]?).map
      (fun column => ecs_component_column_push column
        ((w.archetype (w.record e).archetype_index).columns.getD
          ((w.archetype (w.record e).archetype_index).component_set.data.indexOf x) default).data
        ((w.record e).index *
          ((w.archetype (w.record e).archetype_index).columns.getD
            ((w.archetype (w.record e).archetype_index).component_set.data.indexOf x)
              default).component_stride))

/-- The world `w1` holds the same storage as `w`: the records, the registered
strides and every archetype of `w` are as in `w` up to the edge maps; `w1` may
hold more archetypes, each of them without entities. -/
structure Prepared (w w1 : ecs_world) : Prop where
  entity_count : w1.entity_count = w.entity_count
  records : w1.records = w.records
  comp_len : w1.components.length = w.components.length
  stride : ∀ x, w1.stride x = w.stride x
  len_le : w.archetypes.length ≤ w1.archetypes.length
  old_set : ∀ k, k < w.archetypes.length →
    (w1.archetype k).component_set = (w.archetype k).component_set
  old_columns : ∀ k, k < w.archetypes.length → (w1.archetype k).columns = (w.archetype k).columns
  old_entities : ∀ k, k < w.archetypes.length →
    (w1.archetype k).entities = (w.archetype k).entities
  old_id : ∀ k, k < w.archetypes.length →
    (w1.archetype k).archetype_id = (w.archetype k).archetype_id
  fresh : ∀ k, w.archetypes.length ≤ k → k < w1.archetypes.length →
    (w1.archetype k).entities = []

/-- The search of `entity_add_component` for the destination archetype and, when
it finds none, the creation of one: the world and the pointer it leaves. -/
def select_archetype (cap0 : Nat) (w : ecs_world) (current component_id : Nat) :
    ecs_world × Nat :=
  match (w.components.getD component_id default).archetypes.find?
      (entity_add_component_candidate w current component_id) with
  | some archetype => (w, archetype)
  | none =>
    let c := entity_archetype_create_from_base cap0 w current [component_id]
    (entity_archetype_match_queryies c.2 c.1, c.2)

/-- The two edge insertions of the slow path of `entity_add_component`. -/
def install_edges (w : ecs_world) (current component_id new_archetype : Nat) : ecs_world :=
  modify_archetype
    (modify_archetype w current (fun a =>
      { a with edges := { a.edges with
          add_edges := entity_archetype_ptr_map_insert a.edges.add_edges component_id
            new_archetype } }))
    new_archetype (fun a =>
      { a with edges := { a.edges with
          remove_edges := entity_archetype_ptr_map_insert a.edges.remove_edges component_id
            current } })

/-- The number of records that name archetype `a`. -/
def records_naming (w : ecs_world) (a : Nat) : Nat :=
  w.records.countP (fun r => r.archetype_index == a)

/-! ## Sequences of calls -/

/-- A call of the public interface that changes the world. -/
inductive ecs_call where
  | component_define (name : String) (stride : Nat)
  | create
  | add (entity component : Nat)
  | set (entity component : Nat) (data : List Nat) (stride : Nat)
deriving DecidableEq, Repr

/-- The world after one call. -/
def ecs_call.apply (cap0 : Nat) (w : ecs_world) : ecs_call → ecs_world
  | .component_define name stride => ( ecs_world_component_define w name stride).1
  | .create => (entity_create w).1
  | .add entity component => entity_add_component cap0 w entity component
  | .set entity component data stride => entity_set_component cap0 w entity component data stride

/-- The world after a sequence of calls, first call first. -/
def run_calls (cap0 : Nat) (w : ecs_world) (calls : List ecs_call) : ecs_world :=
  calls.foldl (ecs_call.apply cap0) w

/-- A call is valid in a world: `add` and `set` name a created entity and a
registered component, and `set` passes the registered stride and as many bytes. -/
def ecs_call.ok (w : ecs_world) : ecs_call → Prop
  | .component_define _ _ => True
  | .create => True
  | .add entity component => entity < w.entity_count ∧ registered w component
  | .set entity component data stride =>
    entity < w.entity_count ∧ registered w component ∧ stride = w.stride component ∧
      data.length = stride

instance ecs_call.decidable_ok (w : ecs_world) : (call : ecs_call) → Decidable (call.ok w)
  | .component_define _ _ => isTrue trivial
  | .create => isTrue trivial
  | .add entity component =>
    inferInstanceAs (Decidable (entity < w.entity_count ∧ registered w component))
  | .set entity component data stride =>
    inferInstanceAs (Decidable (entity < w.entity_count ∧ registered w component ∧
      stride = w.stride component ∧ data.length = stride))

/-- Every call of the sequence is valid in the world it is made in. -/
def calls_ok (cap0 : Nat) (w : ecs_world) : List ecs_call → Prop
  | [] => True
  | call :: rest => call.ok w ∧ calls_ok cap0 (call.apply cap0 w) rest

instance calls_ok.decidable (cap0 : Nat) :
    (w : ecs_world) → (calls : List ecs_call) → Decidable (calls_ok cap0 w calls)
  | _, [] => isTrue trivial
  | w, call :: rest =>
    have := calls_ok.decidable cap0 (call.apply cap0 w) rest
    inferInstanceAs (Decidable (call.ok w ∧ calls_ok cap0 (call.apply cap0 w) rest))

/-- The call adds or sets component `c` on entity `e`. -/
def ecs_call.touches (e c : Nat) : ecs_call → Bool
  | .component_define _ _ => false
  | .create => false
  | .add entity component => entity == e && component == c
  | .set entity component _ _ => entity == e && component == c

/-! ## Concrete worlds

Small programs against the interface, with initial column capacity 4.
Component 1 is `counter` (4 bytes), 2 is `marker` and 3 is `flag` (1 byte). -/

/-- The world after `ecs_world_initialize`. -/
def demo0 : ecs_world := ecs_world_initialize 4

/-- Then `counter` is defined, with id 1 and stride 4. -/
def demo1 : ecs_world := ( ecs_world_component_define demo0 "counter" 4).1

/-- Then `marker` is defined, with id 2 and stride 1. -/
def demo2 : ecs_world := ( ecs_world_component_define demo1 "marker" 1).1

/-- Then `flag` is defined, with id 3 and stride 1. -/
def demo3 : ecs_world := ( ecs_world_component_define demo2 "flag" 1).1

/-- Then entity 0 is created. -/
def demo4 : ecs_world := (entity_create demo3).1

/-- Then entity 0 gets `counter = 2`. -/
def demo5 : ecs_world := entity_set_component 4 demo4 0 1 [2, 0, 0, 0] 4

/-- Two entities are created one after the other and nothing else happens. -/
def two_created : ecs_world := (entity_create demo4).1

/-- Entity 0 is created and gets `marker = 10`, then entity 1 is created and
gets `marker = 11`: both sit in the archetype of `marker`, at rows 0 and 1. -/
def pair_in_marker : ecs_world :=
  entity_set_component 4
    (entity_create (entity_set_component 4 demo4 0 2 [10] 1)).1 1 2 [11] 1

/-- Entities 0 and 1 get `marker` (10 and 11) and `flag`, entity 0 then gets
`counter` and leaves their archetype, and a third entity gets `marker = 12`. -/
def three_before : ecs_world :=
  entity_set_component 4
    (entity_create
      (entity_add_component 4
        (entity_add_component 4
          (entity_set_component 4
            (entity_create
              (entity_set_component 4 (entity_set_component 4 demo4 0 2 [10] 1) 0 3 [20] 1)).1
            1 2 [11] 1)
          1 3)
        0 1)).1
    2 2 [12] 1

/-! ## The registry, the archetype graph and the tick -/

/-- The name and the stride of every registered component, by id. -/
def ecs_world.registry (w : ecs_world) : List (String × Nat) :=
  w.components.map (fun m => (m.name, m.stride))

/-- The call is an `entity_create`. -/
def ecs_call.creates : ecs_call → Bool
  | .create => true
  | _ => false

/-- The name and stride an `ecs_world_component_define` call registers. -/
def ecs_call.defined : ecs_call → Option (String × Nat)
  | .component_define name stride => some (name, stride)
  | _ => none

/-- No two archetypes of the world hold the same components. -/
def archetypes_unique (w : ecs_world) : Prop :=
  ∀ a b, a < w.archetypes.length → b < w.archetypes.length →
    (∀ x, x ∈ (w.archetype a).component_set.data ↔ x ∈ (w.archetype b).component_set.data) →
    a = b

/-- Every archetype is listed by each of its components in the registry. -/
def registry_complete (w : ecs_world) : Prop :=
  ∀ a, a < w.archetypes.length → ∀ c ∈ (w.archetype a).component_set.data,
    a ∈ (w.components.getD c default).archetypes

/-- The phases of `ecs_phase_t`, by their value in the enum. -/
def ECS_PHASE_PHYSICS : Nat := 0

/-- The phase `ECS_PHASE_PRE_UPDATE`. -/
def ECS_PHASE_PRE_UPDATE : Nat := 1

/-- The phase `ECS_PHASE_UPDATE`. -/
def ECS_PHASE_UPDATE : Nat := 2

/-- The phase `ECS_PHASE_POST_UPDATE`. -/
def ECS_PHASE_POST_UPDATE : Nat := 3

/-- The phase `ECS_PHASE_TRANSFORM`. -/
def ECS_PHASE_TRANSFORM : Nat := 4

/-- The phase `ECS_PHASE_PRE_RENDER`. -/
def ECS_PHASE_PRE_RENDER : Nat := 5

/-- The phase `ECS_PHASE_RENDER`. -/
def ECS_PHASE_RENDER : Nat := 6

/-- The phase `ECS_PHASE_POST_RENDER`. -/
def ECS_PHASE_POST_RENDER : Nat := 7

/-- The inner loop of `ecs_world_progress` for one phase, from index `i`.
`iterate w query callback` stands for the call
`ecs_query_iterate(system->query, system->callback)`, whose body and whose
callbacks are not part of the source tree: it may change the world.  The loop
re-reads `world->systems[phase].count` on every round, so it is run with fuel;
`none` means the fuel ran out before the loop ended.  The trace lists the
systems `ecs_query_iterate` was called for, in order.  The timing fields of a
debug build are left out. -/
def ecs_world_progress_phase (iterate : ecs_world → Nat → Nat → ecs_world) (phase : Nat) :
    Nat → Nat → ecs_world → List ecs_system → Option (ecs_world × List ecs_system)
  | 0, i, w, trace =>
    if i < (w.systems.getD phase []).length then none else some (w, trace)
  | fuel + 1, i, w, trace =>
    if i < (w.systems.getD phase []).length then
      let system := (w.systems.getD phase []).getD i default
      ecs_world_progress_phase iterate phase fuel (i + 1)
        (iterate w system.query system.callback) (trace ++ [system])
    else some (w, trace)

/-- The function `ecs_world_progress`: the phases from 0 to
`ECS_PHASE_ENUM_MAX - 1`, each with the inner loop from index 0.  It returns the
world after the tick and the trace of the calls of `ecs_query_iterate`. -/
def ecs_world_progress (iterate : ecs_world → Nat → Nat → ecs_world) (fuel : Nat)
    (w : ecs_world) : Option (ecs_world × List ecs_system) :=
  (List.range ECS_PHASE_ENUM_MAX).foldl
    (fun state phase =>
      state.bind (fun p => ecs_world_progress_phase iterate phase fuel 0 p.1 p.2))
    (some (w, []))

/-! ## More concrete worlds -/

/-- The world `demo3` with four systems registered in three phases; systems are
written query first, callback second. -/
def ticking : ecs_world :=
  { demo3 with
    systems :=
      [[{ query := 0, callback := 10 }], [],
       [{ query := 1, callback := 11 }, { query := 0, callback := 12 }], [], [], [], [],
       [{ query := 1, callback := 13 }]] }


/-! ## The archetype graph, the two paths of `entity_add_component`, and shutdown -/

/-- Every add edge has its inverse: when `A.add_edges[c] = B`, the component `c`
is not in the set of `A` and `B.remove_edges[c] = A`. -/
def edges_paired (w : ecs_world) : Prop :=
  ∀ a, a < w.archetypes.length → ∀ c b,
    entity_archetype_ptr_map_try_get (w.archetype a).edges.add_edges c = some b →
    c ∉ (w.archetype a).component_set.data ∧
    entity_archetype_ptr_map_try_get (w.archetype b).edges.remove_edges c = some a

/-- The match list of every query names archetypes of the world only. -/
def queries_in_range (w : ecs_world) : Prop :=
  ∀ q ∈ w.queries, ∀ i ∈ q.archetype_indices, i < w.archetypes.length

/-- The cached-edge path of `entity_add_component` (lines 70 to 84), taken when
`add_edges` of the current archetype holds `new_archetype` for the component. -/
def entity_add_component_cached (w : ecs_world) (entity component_id new_archetype : Nat) :
    ecs_world :=
  entity_add_component_reserve
    (entity_transition_archetype w entity new_archetype) new_archetype component_id

/-- The search path of `entity_add_component` (lines 86 to 148): the search of
`component.archetypes`, the creation when nothing is found, the two edge
insertions, the transition and the reservation. -/
def entity_add_component_search (cap0 : Nat) (w : ecs_world) (entity component_id : Nat) :
    ecs_world :=
  let record := w.record entity
  let current_archetype := record.archetype_index
  let component := w.components.getD component_id default
  let found := component.archetypes.find?
    (entity_add_component_candidate w current_archetype component_id)
  let r : ecs_world × Nat :=
    match found with
    | some archetype => (w, archetype)
    | none =>
      let c := entity_archetype_create_from_base cap0 w record.archetype_index [component_id]
      (entity_archetype_match_queryies c.2 c.1, c.2)
  let new_archetype := r.2
  let w1 := modify_archetype r.1 record.archetype_index (fun a =>
    { a with edges := { a.edges with
        add_edges := entity_archetype_ptr_map_insert a.edges.add_edges component_id
          new_archetype } })
  let w2 := modify_archetype w1 new_archetype (fun a =>
    { a with edges := { a.edges with
        remove_edges := entity_archetype_ptr_map_insert a.edges.remove_edges component_id
          current_archetype } })
  entity_add_component_reserve
    (entity_transition_archetype w2 entity new_archetype) new_archetype component_id

/-- The worlds of a process, a world pointer being an index into `worlds`, and
the file-level variable `pvt_ecs_world` of `ecs_world.c`. -/
structure ecs_process where
  worlds : List ecs_world
  pvt_ecs_world : Nat
deriving DecidableEq, Repr, Inhabited

/-- A structure that `ecs_world_shutdown` destroys, named by the world that owns
it: the archetype, the archetype list of a component and the query at an index,
the system list of a phase, and the four arrays of the world. -/
inductive ecs_destroyed where
  | archetype (world index : Nat)
  | component_archetypes (world index : Nat)
  | query (world index : Nat)
  | systems (world phase : Nat)
  | queries_array (world : Nat)
  | records_array (world : Nat)
  | components_array (world : Nat)
  | archetypes_array (world : Nat)
deriving DecidableEq, Repr

/-- The world that owns a destroyed structure. -/
def ecs_destroyed.owner : ecs_destroyed → Nat
  | .archetype world _ => world
  | .component_archetypes world _ => world
  | .query world _ => world
  | .systems world _ => world
  | .queries_array world => world
  | .records_array world => world
  | .components_array world => world
  | .archetypes_array world => world

/-- The function `ecs_world_initialize` seen from the process: the world is
allocated, `pvt_ecs_world` is set to it, and the pointer is returned. -/
def ecs_world_initialize_in (cap0 : Nat) (p : ecs_process) : ecs_process × Nat :=
  ({ worlds := p.worlds ++ [ ecs_world_initialize cap0], pvt_ecs_world := p.worlds.length },
   p.worlds.length)

/-- The function `ecs_world_shutdown`: the destroy calls it makes, in order.  The
loop bounds are read through the argument `world`; every structure destroyed is
reached through `pvt_ecs_world`, as in the source. -/
def ecs_world_shutdown (p : ecs_process) (world : Nat) : List ecs_destroyed :=
  let w := p.worlds.getD world default
  (List.range w.archetypes.length).map (ecs_destroyed.archetype p.pvt_ecs_world) ++
  (List.range w.components.length).map (ecs_destroyed.component_archetypes p.pvt_ecs_world) ++
  (List.range w.queries.length).map (ecs_destroyed.query p.pvt_ecs_world) ++
  (List.range ECS_PHASE_ENUM_MAX).map (ecs_destroyed.systems p.pvt_ecs_world) ++
  [ecs_destroyed.queries_array p.pvt_ecs_world, ecs_destroyed.records_array p.pvt_ecs_world,
    ecs_destroyed.components_array p.pvt_ecs_world,
    ecs_destroyed.archetypes_array p.pvt_ecs_world]

/-- Two worlds are initialized one after the other in a fresh process: the first
is at address 0, the second at address 1, and `pvt_ecs_world` is the second. -/
def twice_initialized : ecs_process :=
  ( ecs_world_initialize_in 4 ( ecs_world_initialize_in 4 { worlds := [], pvt_ecs_world := 0 }).1).1

/-- Entities 0 and 1 of `two_created`: entity 0 gets `counter` then `marker`,
entity 1 gets `marker`; the archetypes are 1 `{counter}`, 2 `{counter, marker}`
and 3 `{marker}`. -/
def searching : ecs_world :=
  entity_add_component 4 (entity_add_component 4 (entity_add_component 4 two_created 0 1) 0 2) 1 2

/-- The world `demo4` with two queries: the first includes `counter`, the second
excludes it. -/
def queried : ecs_world :=
  { demo4 with
    queries :=
      [{ archetype_indices := [], components := [1], without_components := [], hash := 0 },
       { archetype_indices := [0], components := [], without_components := [1], hash := 0 }] }

/-- Entity 0 of `two_created` gets `counter`: the empty archetype now holds the
add edge for `counter`, and entity 1 is still in the empty archetype. -/
def edge_cached : ecs_world := entity_add_component 4 two_created 0 1

/-! ## Aliased records, the assertions of add and set, and the iterator -/

/-- Entities 0 and 1 sit in the archetype of `marker` (values 10 and 11); entity 0
is given `counter` and leaves, which moves entity 1 to row 0 while its record
still says row 1; then entity 2 is created and gets `marker = 12`, at row 1. -/
def aliased : ecs_world :=
  entity_set_component 4 (entity_create (entity_add_component 4 pair_in_marker 0 1)).1 2 2 [12] 1

/-- The condition of the `SASSERT` of `entity_add_component` (line 141) in the
state in which it is evaluated, after the transition; `true` on the paths that do
not reach it. -/
def entity_add_component_sassert (cap0 : Nat) (w : ecs_world) (entity component_id : Nat) :
    Bool :=
  if entity_has_component w entity component_id then true
  else
    let record := w.record entity
    let current_archetype := record.archetype_index
    match entity_archetype_ptr_map_try_get (w.archetype current_archetype).edges.add_edges
        component_id with
    | some _ => true
    | none =>
      let component := w.components.getD component_id default
      let found := component.archetypes.find?
        (entity_add_component_candidate w current_archetype component_id)
      let r : ecs_world × Nat :=
        match found with
        | some archetype => (w, archetype)
        | none =>
          let c := entity_archetype_create_from_base cap0 w record.archetype_index [component_id]
          (entity_archetype_match_queryies c.2 c.1, c.2)
      let new_archetype := r.2
      let w1 := modify_archetype r.1 record.archetype_index (fun a =>
        { a with edges := { a.edges with
            add_edges := entity_archetype_ptr_map_insert a.edges.add_edges component_id
              new_archetype } })
      let w2 := modify_archetype w1 new_archetype (fun a =>
        { a with edges := { a.edges with
            remove_edges := entity_archetype_ptr_map_insert a.edges.remove_edges component_id
              current_archetype } })
      let w3 := entity_transition_archetype w2 entity new_archetype
      let new_column_index :=
        ecs_component_set_get_index (w3.archetype new_archetype).component_set component_id
      new_column_index != INVALID_ID

/-- The condition of the `SASSERT` of `entity_set_component` (line 191), evaluated
after the component was added when the entity lacked it. -/
def entity_set_component_sassert (cap0 : Nat) (w : ecs_world) (entity component : Nat) : Bool :=
  let w1 :=
    if !entity_has_component w entity component then entity_add_component cap0 w entity component
    else w
  let record := w1.record entity
  let column_index :=
    ecs_component_set_get_index (w1.archetype record.archetype_index).component_set component
  column_index != INVALID_ID

/-- The struct `ecs_iterator_t` of `ecs.h`, without the world pointer:
`component_data` holds one column pointer per slot. -/
structure ecs_iterator where
  component_data : List component_ptr
  archetype : Nat
  component_count : Nat
  entity_count : Nat
deriving DecidableEq, Repr, Inhabited

/-- The macro `ECS_ITERATOR_GET_COMPONENTS` of `ecs.h`: `component_data[index]` is
read first, then `SASSERT(index < component_count)` is evaluated; `none` is the
assertion failing.  A read past the end of the array gives an arbitrary pointer,
here the default one. -/
def ECS_ITERATOR_GET_COMPONENTS (iterator : ecs_iterator) (index : Nat) :
    Option component_ptr :=
  let value := iterator.component_data.getD index default
  if index < iterator.component_count then some value else none

/-- Modelled from the spec: the iterator `ecs_query_iterate` (its body is not in
the source tree) hands to the callback for a matching archetype:
`component_data[i]` is the base pointer of the column of `includes[i]` in that
archetype, in the order given at query creation, `entity_count` is the number of
entities of the archetype and `component_count` the number of includes. -/
def ecs_query_iterator (w : ecs_world) (q : ecs_query) (archetype : Nat) : ecs_iterator :=
  { component_data := q.components.map (fun c =>
      { archetype := archetype
        column := ecs_component_set_get_index (w.archetype archetype).component_set c
        offset := 0 })
    archetype := archetype
    component_count := q.components.length
    entity_count := (w.archetype archetype).entities.length }

/-- The world `demo4` built with initial column capacity 0, after entity 0 was
given `counter`: the column of `counter` in archetype 1 has capacity 0. -/
def no_capacity : ecs_world := entity_add_component 0 demo4 0 1
/-! ## Lists, buffers and containers -/

theorem updAt_length {α : Type} (l : List α) (i : Nat) (f : α → α) :
    (updAt l i f).length = l.length := by
  unfold updAt; split <;> simp

theorem getElem?_updAt {α : Type} (l : List α) (i j : Nat) (f : α → α) :
    (updAt l i f)[j]? = if i = j then l[j]?.map f else l[j]? := by
  unfold updAt
  split
  · rename_i x hx
    by_cases h : i = j
    · subst h
      obtain ⟨hl, _⟩ := List.getElem?_eq_some.1 hx
      simp [List.getElem?_set, hx, hl]
    · simp [List.getElem?_set, h]
  · rename_i hx
    by_cases h : i = j
    · subst h; simp [hx]
    · simp [h]

theorem getD_updAt {α : Type} (l : List α) (i j : Nat) (f : α → α) (d : α) :
    (updAt l i f).getD j d = if i = j ∧ i < l.length then f (l.getD j d) else l.getD j d := by
  simp only [List.getD_eq_getElem?_getD, getElem?_updAt]
  by_cases h : i = j
  · subst h
    by_cases hl : i < l.length
    · simp [hl]
    · simp [hl, List.getElem?_eq_none (Nat.le_of_not_lt hl)]
  · simp [h]

theorem getD_updAt_self {α : Type} (l : List α) (i : Nat) (f : α → α) (d : α)
    (h : i < l.length) : (updAt l i f).getD i d = f (l.getD i d) := by
  rw [getD_updAt, if_pos ⟨rfl, h⟩]

theorem getD_updAt_ne {α : Type} (l : List α) (i j : Nat) (f : α → α) (d : α)
    (h : i ≠ j) : (updAt l i f).getD j d = l.getD j d := by
  rw [getD_updAt, if_neg (fun hh => h hh.1)]

theorem updAt_of_le {α : Type} (l : List α) (i : Nat) (f : α → α) (h : l.length ≤ i) :
    updAt l i f = l := by
  unfold updAt; simp [List.getElem?_eq_none h]

theorem mem_updAt {α : Type} (l : List α) (i : Nat) (f : α → α) (x : α)
    (h : x ∈ updAt l i f) : x ∈ l ∨ ∃ y ∈ l, x = f y := by
  obtain ⟨j, hj⟩ := List.mem_iff_getElem?.1 h
  rw [getElem?_updAt] at hj
  by_cases hij : i = j
  · simp only [hij, if_true] at hj
    cases hy : l[j]? with
    | none => simp [hy] at hj
    | some y =>
      simp [hy] at hj
      exact Or.inr ⟨y, List.mem_iff_getElem?.2 ⟨j, hy⟩, hj.symm⟩
  · simp only [hij, if_false] at hj
    exact Or.inl (List.mem_iff_getElem?.2 ⟨j, hj⟩)

theorem getD_darray_push_lt {α : Type} (l : List α) (x d : α) (i : Nat) (h : i < l.length) :
    (darray_push l x).getD i d = l.getD i d := by
  simp [darray_push, List.getD_eq_getElem?_getD, List.getElem?_append_left h]

theorem getD_darray_push_length {α : Type} (l : List α) (x d : α) :
    (darray_push l x).getD l.length d = x := by
  simp [darray_push, List.getD_eq_getElem?_getD]

theorem darray_push_length {α : Type} (l : List α) (x : α) :
    (darray_push l x).length = l.length + 1 := by
  simp [darray_push]

theorem darray_pop_length {α : Type} [Inhabited α] (l : List α) (row : Nat) :
    (darray_pop l row).length = l.length - 1 := by
  unfold darray_pop; split <;> simp

theorem write_bytes_length (data : List Nat) (off : Nat) (bytes : List Nat) :
    (write_bytes data off bytes).length = data.length := by
  unfold write_bytes
  split
  · rename_i h
    simp only [List.length_append, List.length_take, List.length_drop]
    omega
  · rfl

theorem read_bytes_length (data : List Nat) (off n : Nat) (h : off + n ≤ data.length) :
    (read_bytes data off n).length = n := by
  unfold read_bytes
  simp only [List.length_take, List.length_drop]
  omega

theorem read_write_bytes (data : List Nat) (off : Nat) (bytes : List Nat)
    (h : off + bytes.length ≤ data.length) :
    read_bytes (write_bytes data off bytes) off bytes.length = bytes := by
  unfold read_bytes write_bytes
  rw [if_pos h, List.append_assoc]
  have h1 : (data.take off).length = off := by
    simp only [List.length_take]; omega
  rw [List.drop_append_eq_append_drop, h1]
  simp [List.drop_of_length_le (Nat.le_of_eq h1)]

theorem read_bytes_append_left (a b : List Nat) (off n : Nat) (h : off + n ≤ a.length) :
    read_bytes (a ++ b) off n = read_bytes a off n := by
  unfold read_bytes
  rw [List.drop_append_of_le_length (by omega)]
  rw [List.take_append_of_le_length]
  simp only [List.length_drop]; omega

theorem read_bytes_take (a : List Nat) (k off n : Nat) (h : off + n ≤ k) :
    read_bytes (a.take k) off n = read_bytes a off n := by
  unfold read_bytes
  rw [List.drop_take, List.take_take]
  congr 1
  omega

/-! ### Component sets -/

theorem contains_iff (s : ecs_component_set) (c : Nat) :
    ecs_component_set_contains s c = true ↔ c ≠ INVALID_ID ∧ c ∈ s.data := by
  simp [ecs_component_set_contains]

theorem contains_eq_false_iff (s : ecs_component_set) (c : Nat) (hc : c ≠ INVALID_ID) :
    ecs_component_set_contains s c = false ↔ c ∉ s.data := by
  simp [ecs_component_set_contains, hc]

theorem get_index_of_mem (s : ecs_component_set) (c : Nat) (hc : c ≠ INVALID_ID)
    (h : c ∈ s.data) : ecs_component_set_get_index s c = s.data.indexOf c := by
  have : ecs_component_set_contains s c = true := (contains_iff s c).2 ⟨hc, h⟩
  simp [ecs_component_set_get_index, this]

theorem count_eq_length (s : ecs_component_set) (h : ∀ c ∈ s.data, c ≠ INVALID_ID) :
    s.count = s.data.length := by
  unfold ecs_component_set.count
  rw [List.filter_eq_self.2]
  intro c hc
  simpa using h c hc

theorem foldl_insert_eq (l : List Nat) :
    ∀ acc : List Nat, (acc ++ l).Nodup → (∀ c ∈ l, c ≠ INVALID_ID) →
      l.foldl ecs_component_set_insert { data := acc } = { data := acc ++ l } := by
  induction l with
  | nil => intro acc _ _; simp
  | cons x rest ih =>
    intro acc hnd hv
    have hx : x ∉ acc := by
      intro hmem
      have := List.nodup_append.1 hnd
      exact this.2.2 hmem (List.mem_cons_self x rest)
    have hstep : ecs_component_set_insert { data := acc } x = { data := acc ++ [x] } := by
      have : ecs_component_set_contains { data := acc } x = false := by
        rw [contains_eq_false_iff _ _ (hv x (List.mem_cons_self x rest))]
        exact hx
      simp [ecs_component_set_insert, this]
    rw [List.foldl_cons, hstep, ih (acc ++ [x])]
    · simp
    · simpa using hnd
    · intro c hc; exact hv c (List.mem_cons_of_mem x hc)

/-! ### Edge maps -/

theorem try_get_insert_self (m : entity_archetype_ptr_map) (k v : Nat) :
    entity_archetype_ptr_map_try_get (entity_archetype_ptr_map_insert m k v) k = some v := by
  induction m with
  | nil => simp [entity_archetype_ptr_map_insert, entity_archetype_ptr_map_try_get]
  | cons p rest ih =>
    obtain ⟨k1, v1⟩ := p
    by_cases h : k1 = k
    · simp [entity_archetype_ptr_map_insert, entity_archetype_ptr_map_try_get, h]
    · simp [entity_archetype_ptr_map_insert, entity_archetype_ptr_map_try_get, h, ih]

theorem try_get_insert_ne (m : entity_archetype_ptr_map) (k v k2 : Nat) (hne : k2 ≠ k) :
    entity_archetype_ptr_map_try_get (entity_archetype_ptr_map_insert m k v) k2 =
      entity_archetype_ptr_map_try_get m k2 := by
  induction m with
  | nil =>
    simp [entity_archetype_ptr_map_insert, entity_archetype_ptr_map_try_get, Ne.symm hne]
  | cons p rest ih =>
    obtain ⟨k1, v1⟩ := p
    by_cases h : k1 = k
    · subst h
      simp [entity_archetype_ptr_map_insert, entity_archetype_ptr_map_try_get, Ne.symm hne]
    · by_cases h2 : k1 = k2
      · subst h2
        simp [entity_archetype_ptr_map_insert, entity_archetype_ptr_map_try_get, h]
      · simp [entity_archetype_ptr_map_insert, entity_archetype_ptr_map_try_get, h, h2, ih]

/-! ## Columns -/

theorem u64_pred_le (n : Nat) (h : 0 < n) : u64_pred n ≤ n - 1 := by
  unfold u64_pred
  rw [if_neg (by omega)]

theorem grow_stride (col : ecs_column) :
    (ecs_column_grow col).component_stride = col.component_stride := by
  unfold ecs_column_grow ecs_component_column_resize
  split <;> rfl

theorem grow_capacity_le (col : ecs_column) :
    col.capacity ≤ (ecs_column_grow col).capacity := by
  unfold ecs_column_grow ecs_component_column_resize ECS_COLUMN_RESIZE_FACTOR
  split
  · simp only; omega
  · exact Nat.le_refl _

theorem grow_ok (col : ecs_column) (s n : Nat) (h : column_ok col s n) :
    (ecs_column_grow col).component_stride = s ∧
    (ecs_column_grow col).data.length =
      (ecs_column_grow col).capacity * (ecs_column_grow col).component_stride ∧
    (ecs_column_grow col).count = n ∧ n + 1 < (ecs_column_grow col).capacity := by
  obtain ⟨hs, hlen, hlt, hn⟩ := h
  unfold ecs_column_grow
  split
  · rename_i hge
    unfold ecs_component_column_resize ECS_COLUMN_RESIZE_FACTOR
    have hmin : min col.count (col.capacity * 2) = col.count := by
      apply Nat.min_eq_left; omega
    simp only [hmin]
    refine ⟨hs, ?_, hn, by omega⟩
    have hle : col.count * col.component_stride ≤ col.capacity * col.component_stride :=
      Nat.mul_le_mul_right _ (Nat.le_of_lt hlt)
    have hle2 : col.count * col.component_stride ≤ col.capacity * 2 * col.component_stride :=
      Nat.mul_le_mul_right _ (by omega)
    simp only [List.length_append, List.length_take, List.length_replicate, hlen]
    omega
  · rename_i hge
    have := u64_pred_le col.capacity (by omega)
    exact ⟨hs, hlen, hn, by omega⟩

theorem grow_read (col : ecs_column) (s n off len : Nat) (h : column_ok col s n)
    (hb : off + len ≤ n * s) :
    read_bytes (ecs_column_grow col).data off len = read_bytes col.data off len := by
  obtain ⟨hs, hlen, hlt, hn⟩ := h
  unfold ecs_column_grow
  split
  · unfold ecs_component_column_resize ECS_COLUMN_RESIZE_FACTOR
    have hmin : min col.count (col.capacity * 2) = col.count := by
      apply Nat.min_eq_left; omega
    simp only [hmin]
    have hle : col.count * col.component_stride ≤ col.capacity * col.component_stride :=
      Nat.mul_le_mul_right _ (Nat.le_of_lt hlt)
    rw [read_bytes_append_left, read_bytes_take]
    · rw [hn, hs]; exact hb
    · rw [List.length_take, hlen, Nat.min_eq_left hle, hn, hs]
      exact hb
  · rfl

theorem push_stride (col : ecs_column) (src : List Nat) (off : Nat) :
    (ecs_component_column_push col src off).component_stride = col.component_stride := by
  simp [ecs_component_column_push, grow_stride]

theorem push_capacity (col : ecs_column) (src : List Nat) (off : Nat) :
    (ecs_component_column_push col src off).capacity = (ecs_column_grow col).capacity := rfl

theorem push_capacity_le (col : ecs_column) (src : List Nat) (off : Nat) :
    col.capacity ≤ (ecs_component_column_push col src off).capacity := by
  rw [push_capacity]
  exact grow_capacity_le col

theorem push_ok (col : ecs_column) (s n : Nat) (src : List Nat) (off : Nat)
    (h : column_ok col s n) : column_ok (ecs_component_column_push col src off) s (n + 1) := by
  obtain ⟨g1, g2, g3, g4⟩ := grow_ok col s n h
  unfold column_ok ecs_component_column_push
  simp only [write_bytes_length]
  exact ⟨g1, g2, by omega, by omega⟩

theorem push_read (col : ecs_column) (s n : Nat) (src : List Nat) (off : Nat)
    (h : column_ok col s n) (hsrc : off + s ≤ src.length) :
    read_bytes (ecs_component_column_push col src off).data (n * s) s = read_bytes src off s := by
  obtain ⟨g1, g2, g3, g4⟩ := grow_ok col s n h
  have hs : col.component_stride = s := h.1
  unfold ecs_component_column_push
  simp only [g3, g1, hs]
  have hl : (read_bytes src off s).length = s := read_bytes_length src off s hsrc
  have hb : n * s + (read_bytes src off s).length ≤ (ecs_column_grow col).data.length := by
    rw [hl, g2, g1]
    have : (n + 1) * s ≤ (ecs_column_grow col).capacity * s :=
      Nat.mul_le_mul_right _ (by omega)
    rw [Nat.add_mul] at this
    omega
  have := read_write_bytes (ecs_column_grow col).data (n * s) (read_bytes src off s) hb
  rw [hl] at this
  exact this

theorem reserve_ok (col : ecs_column) (s n : Nat) (h : column_ok col s n) :
    column_ok { (ecs_column_grow col) with count := (ecs_column_grow col).count + 1 } s (n + 1) := by
  obtain ⟨g1, g2, g3, g4⟩ := grow_ok col s n h
  unfold column_ok
  exact ⟨g1, g2, by simp only; omega, by simp only; omega⟩

theorem pop_stride (col : ecs_column) (row : Nat) :
    (ecs_component_column_pop col row).component_stride = col.component_stride := by
  unfold ecs_component_column_pop; split <;> rfl

theorem pop_capacity (col : ecs_column) (row : Nat) :
    (ecs_component_column_pop col row).capacity = col.capacity := by
  unfold ecs_component_column_pop; split <;> rfl

theorem pop_ok (col : ecs_column) (s n row : Nat) (h : column_ok col s n) :
    column_ok (ecs_component_column_pop col row) s (n - 1) := by
  obtain ⟨hs, hlen, hlt, hn⟩ := h
  unfold column_ok ecs_component_column_pop
  split
  · simp only [write_bytes_length]
    exact ⟨hs, hlen, by omega, by omega⟩
  · exact ⟨hs, hlen, by simp only; omega, by simp only; omega⟩

theorem write_ok (col : ecs_column) (s n off : Nat) (bytes : List Nat) (h : column_ok col s n) :
    column_ok { col with data := write_bytes col.data off bytes } s n := by
  obtain ⟨hs, hlen, hlt, hn⟩ := h
  unfold column_ok
  simp only [write_bytes_length]
  exact ⟨hs, hlen, hlt, hn⟩

theorem create_ok (cap0 s : Nat) (h : 0 < cap0) :
    column_ok (ecs_component_column_create cap0 s) s 0 := by
  unfold column_ok ecs_component_column_create
  simp [h]

/-! ## Updates of a world through pointers -/

theorem archetype_eq (w : ecs_world) (a : Nat) :
    w.archetype a = (w.archetypes[a]?).getD default := by
  simp [ecs_world.archetype, List.getD_eq_getElem?_getD]

theorem archetype_modify (w : ecs_world) (a b : Nat) (f : entity_archetype → entity_archetype) :
    (modify_archetype w a f).archetype b =
      if a = b ∧ a < w.archetypes.length then f (w.archetype b) else w.archetype b := by
  unfold modify_archetype ecs_world.archetype
  exact getD_updAt _ _ _ _ _

theorem archetype_modify_self (w : ecs_world) (a : Nat) (f : entity_archetype → entity_archetype)
    (h : a < w.archetypes.length) : (modify_archetype w a f).archetype a = f (w.archetype a) := by
  rw [archetype_modify, if_pos ⟨rfl, h⟩]

theorem archetype_modify_ne (w : ecs_world) (a b : Nat) (f : entity_archetype → entity_archetype)
    (h : a ≠ b) : (modify_archetype w a f).archetype b = w.archetype b := by
  rw [archetype_modify, if_neg (fun hh => h hh.1)]

@[simp] theorem modify_archetype_length (w : ecs_world) (a : Nat)
    (f : entity_archetype → entity_archetype) :
    (modify_archetype w a f).archetypes.length = w.archetypes.length := by
  simp [modify_archetype, updAt_length]

@[simp] theorem modify_archetype_records (w : ecs_world) (a : Nat)
    (f : entity_archetype → entity_archetype) :
    (modify_archetype w a f).records = w.records := rfl

@[simp] theorem modify_archetype_entity_count (w : ecs_world) (a : Nat)
    (f : entity_archetype → entity_archetype) :
    (modify_archetype w a f).entity_count = w.entity_count := rfl

@[simp] theorem modify_archetype_components (w : ecs_world) (a : Nat)
    (f : entity_archetype → entity_archetype) :
    (modify_archetype w a f).components = w.components := rfl

@[simp] theorem modify_archetype_record (w : ecs_world) (a : Nat)
    (f : entity_archetype → entity_archetype) (e : Nat) :
    (modify_archetype w a f).record e = w.record e := rfl

@[simp] theorem modify_archetype_stride (w : ecs_world) (a : Nat)
    (f : entity_archetype → entity_archetype) (c : Nat) :
    (modify_archetype w a f).stride c = w.stride c := rfl

theorem modify_archetype_comm (w : ecs_world) (a b : Nat)
    (f g : entity_archetype → entity_archetype) (h : a ≠ b) :
    modify_archetype (modify_archetype w a f) b g =
      modify_archetype (modify_archetype w b g) a f := by
  unfold modify_archetype
  simp only [ecs_world.mk.injEq, true_and, and_true]
  apply List.ext_getElem?
  intro k
  simp only [getElem?_updAt]
  by_cases h1 : a = k <;> by_cases h2 : b = k <;> simp [h1, h2]
  omega

theorem modify_archetype_twice (w : ecs_world) (a : Nat)
    (f g : entity_archetype → entity_archetype) :
    modify_archetype (modify_archetype w a f) a g = modify_archetype w a (fun x => g (f x)) := by
  unfold modify_archetype
  simp only [ecs_world.mk.injEq, true_and, and_true]
  apply List.ext_getElem?
  intro k
  simp only [getElem?_updAt]
  by_cases h1 : a = k
  · simp only [h1, if_true, Option.map_map]; rfl
  · simp [h1]

theorem modify_archetype_id (w : ecs_world) (a : Nat) (f : entity_archetype → entity_archetype)
    (h : f (w.archetype a) = w.archetype a) : modify_archetype w a f = w := by
  unfold modify_archetype
  have : updAt w.archetypes a f = w.archetypes := by
    apply List.ext_getElem?
    intro k
    simp only [getElem?_updAt]
    by_cases h1 : a = k
    · subst h1
      simp only [if_true]
      cases hk : w.archetypes[a]? with
      | none => rfl
      | some x =>
        have : w.archetype a = x := by simp [archetype_eq, hk]
        rw [this] at h
        simp [h]
    · simp [h1]
  rw [this]

theorem modify_archetype_congr (w : ecs_world) (a : Nat) (f g : entity_archetype → entity_archetype)
    (h : f (w.archetype a) = g (w.archetype a)) : modify_archetype w a f = modify_archetype w a g := by
  unfold modify_archetype
  have : updAt w.archetypes a f = updAt w.archetypes a g := by
    apply List.ext_getElem?
    intro k
    simp only [getElem?_updAt]
    by_cases h1 : a = k
    · subst h1
      simp only [if_true]
      cases hk : w.archetypes[a]? with
      | none => rfl
      | some x =>
        have : w.archetype a = x := by simp [archetype_eq, hk]
        rw [this] at h
        simp [h]
    · simp [h1]
  rw [this]

/-! ## The transition loop as a fold over two column arrays -/

theorem put_columns_src (w : ecs_world) (a b : Nat) (p : List ecs_column × List ecs_column)
    (hab : a ≠ b) (ha : a < w.archetypes.length) :
    (put_columns w a b p).archetype a = { w.archetype a with columns := p.1 } := by
  unfold put_columns
  rw [archetype_modify_self _ _ _ (by simpa using ha), archetype_modify_ne _ _ _ _ (Ne.symm hab)]

theorem put_columns_dst (w : ecs_world) (a b : Nat) (p : List ecs_column × List ecs_column)
    (hab : a ≠ b) (hb : b < w.archetypes.length) :
    (put_columns w a b p).archetype b = { w.archetype b with columns := p.2 } := by
  unfold put_columns
  rw [archetype_modify_ne _ _ _ _ hab, archetype_modify_self _ _ _ hb]

theorem put_columns_other (w : ecs_world) (a b k : Nat) (p : List ecs_column × List ecs_column)
    (hka : a ≠ k) (hkb : b ≠ k) : (put_columns w a b p).archetype k = w.archetype k := by
  unfold put_columns
  rw [archetype_modify_ne _ _ _ _ hka, archetype_modify_ne _ _ _ _ hkb]

@[simp] theorem put_columns_length (w : ecs_world) (a b : Nat)
    (p : List ecs_column × List ecs_column) :
    (put_columns w a b p).archetypes.length = w.archetypes.length := by
  simp [put_columns]

@[simp] theorem put_columns_records (w : ecs_world) (a b : Nat)
    (p : List ecs_column × List ecs_column) : (put_columns w a b p).records = w.records := rfl

@[simp] theorem put_columns_entity_count (w : ecs_world) (a b : Nat)
    (p : List ecs_column × List ecs_column) :
    (put_columns w a b p).entity_count = w.entity_count := rfl

@[simp] theorem put_columns_components (w : ecs_world) (a b : Nat)
    (p : List ecs_column × List ecs_column) :
    (put_columns w a b p).components = w.components := rfl

@[simp] theorem put_columns_queries (w : ecs_world) (a b : Nat)
    (p : List ecs_column × List ecs_column) :
    (put_columns w a b p).queries = w.queries := rfl

@[simp] theorem put_columns_systems (w : ecs_world) (a b : Nat)
    (p : List ecs_column × List ecs_column) :
    (put_columns w a b p).systems = w.systems := rfl

theorem modify_archetype_getElem? (w : ecs_world) (a k : Nat)
    (f : entity_archetype → entity_archetype) :
    (modify_archetype w a f).archetypes[k]? =
      if a = k then (w.archetypes[k]?).map f else w.archetypes[k]? := by
  unfold modify_archetype
  exact getElem?_updAt _ _ _ _

theorem world_ext (w1 w2 : ecs_world) (h1 : w1.entity_count = w2.entity_count)
    (h2 : w1.records = w2.records) (h3 : w1.components = w2.components)
    (h4 : w1.queries = w2.queries) (h5 : w1.systems = w2.systems)
    (h : ∀ k : Nat, w1.archetypes[k]? = w2.archetypes[k]?) : w1 = w2 := by
  cases w1; cases w2
  simp only [ecs_world.mk.injEq]
  simp only at h1 h2 h3 h4 h5 h
  exact ⟨h1, h2, h3, List.ext_getElem? h, h4, h5⟩

theorem put_columns_getElem? (w : ecs_world) (a b k : Nat)
    (p : List ecs_column × List ecs_column) (hab : a ≠ b) :
    (put_columns w a b p).archetypes[k]? =
      if a = k then (w.archetypes[k]?).map (fun arch => { arch with columns := p.1 })
      else if b = k then (w.archetypes[k]?).map (fun arch => { arch with columns := p.2 })
      else w.archetypes[k]? := by
  unfold put_columns
  rw [modify_archetype_getElem?, modify_archetype_getElem?]
  by_cases h1 : a = k
  · have h2 : b ≠ k := fun h => hab (h1.trans h.symm)
    simp [h1, h2]
  · simp [h1]

theorem put_columns_put (w : ecs_world) (a b : Nat) (p q : List ecs_column × List ecs_column)
    (hab : a ≠ b) : put_columns (put_columns w a b p) a b q = put_columns w a b q := by
  apply world_ext <;> try rfl
  intro k
  rw [put_columns_getElem? _ _ _ _ _ hab, put_columns_getElem? _ _ _ _ _ hab,
    put_columns_getElem? _ _ _ _ _ hab]
  by_cases h1 : a = k
  · simp only [h1, if_true, Option.map_map]; rfl
  · by_cases h2 : b = k
    · simp only [h1, h2, if_true, if_false, Option.map_map]; rfl
    · simp [h1, h2]

theorem put_columns_self (w : ecs_world) (a b : Nat) :
    put_columns w a b ((w.archetype a).columns, (w.archetype b).columns) = w := by
  unfold put_columns
  by_cases hab : a = b
  · subst hab
    rw [modify_archetype_twice]
    exact modify_archetype_id _ _ _ rfl
  · rw [modify_archetype_id w b _ rfl]
    exact modify_archetype_id _ _ _ rfl

theorem transition_step_eq (w : ecs_world) (a b row x : Nat) (hab : a ≠ b) :
    entity_transition_step a b row w x =
      put_columns w a b
        (pair_step (w.archetype a).component_set (w.archetype b).component_set row
          ((w.archetype a).columns, (w.archetype b).columns) x) := by
  unfold entity_transition_step pair_step
  by_cases hx : x = INVALID_ID
  · rw [if_pos hx, if_pos hx, put_columns_self]
  · rw [if_neg hx, if_neg hx]
    apply world_ext <;> try rfl
    intro k
    rw [put_columns_getElem? _ _ _ _ _ hab]
    unfold modify_column
    rw [modify_archetype_getElem?, modify_archetype_getElem?]
    by_cases h1 : a = k
    · have h2 : b ≠ k := fun h => hab (h1.trans h.symm)
      simp only [h1, h2, if_true, if_false]
      cases hk : w.archetypes[k]? with
      | none => rfl
      | some arch =>
        have : w.archetype k = arch := by simp [archetype_eq, hk]
        simp [this]
    · simp only [h1, if_false]
      by_cases h2 : b = k
      · simp only [h2, if_true]
        cases hk : w.archetypes[k]? with
        | none => rfl
        | some arch =>
          have : w.archetype k = arch := by simp [archetype_eq, hk]
          simp [this]
      · simp only [h2, if_false]

theorem transition_fold_eq (a b row : Nat) (hab : a ≠ b) (xs : List Nat) :
    ∀ w : ecs_world, a < w.archetypes.length → b < w.archetypes.length →
      xs.foldl (entity_transition_step a b row) w =
        put_columns w a b
          (xs.foldl (pair_step (w.archetype a).component_set (w.archetype b).component_set row)
            ((w.archetype a).columns, (w.archetype b).columns)) := by
  induction xs with
  | nil => intro w _ _; simp [put_columns_self]
  | cons x rest ih =>
    intro w ha hb
    rw [List.foldl_cons, List.foldl_cons, transition_step_eq w a b row x hab]
    rw [ih _ (by simpa using ha) (by simpa using hb)]
    rw [put_columns_put _ _ _ _ _ hab]
    rw [put_columns_src _ _ _ _ hab ha, put_columns_dst _ _ _ _ hab hb]

/-! ## What the loop does to each column -/

theorem indexOf_of_getElem? (l : List Nat) (i x : Nat) (hn : l.Nodup) (h : l[i]? = some x) :
    l.indexOf x = i := by
  obtain ⟨hi, hx⟩ := List.getElem?_eq_some.1 h
  rw [← hx]
  exact List.indexOf_getElem hn i hi

theorem pair_step_fst (sa sb : ecs_component_set) (row x : Nat)
    (p : List ecs_column × List ecs_column) (hx : x ≠ INVALID_ID) (hxa : x ∈ sa.data) :
    (pair_step sa sb row p x).1 =
      updAt p.1 (sa.data.indexOf x) (fun column => ecs_component_column_pop column row) := by
  unfold pair_step
  rw [if_neg hx, get_index_of_mem sa x hx hxa]

theorem pair_step_snd (sa sb : ecs_component_set) (row x : Nat)
    (p : List ecs_column × List ecs_column) (hx : x ≠ INVALID_ID) (hxa : x ∈ sa.data)
    (hxb : x ∈ sb.data) :
    (pair_step sa sb row p x).2 =
      updAt p.2 (sb.data.indexOf x) (fun column => ecs_component_column_push column
        (p.1.getD (sa.data.indexOf x) default).data
        (row * (p.1.getD (sa.data.indexOf x) default).component_stride)) := by
  unfold pair_step
  rw [if_neg hx, get_index_of_mem sa x hx hxa, get_index_of_mem sb x hx hxb]

theorem pair_fold_fst (sa sb : ecs_component_set) (row : Nat) (hsa : sa.data.Nodup)
    (xs : List Nat) :
    ∀ p : List ecs_column × List ecs_column, xs.Nodup →
      (∀ x ∈ xs, x ≠ INVALID_ID ∧ x ∈ sa.data) → ∀ i : Nat,
      (∀ x, sa.data[i]? = some x → x ∈ xs →
        (xs.foldl (pair_step sa sb row) p).1[i]? =
          (p.1[i]?).map (fun column => ecs_component_column_pop column row)) ∧
      ((∀ x ∈ xs, sa.data[i]? ≠ some x) →
        (xs.foldl (pair_step sa sb row) p).1[i]? = p.1[i]?) := by
  induction xs with
  | nil =>
    intro p _ _ i
    exact ⟨fun x _ hx => absurd hx (List.not_mem_nil x), fun _ => rfl⟩
  | cons x rest ih =>
    intro p hnd hsub i
    have hx := hsub x (List.mem_cons_self x rest)
    have hrest : rest.Nodup := (List.nodup_cons.1 hnd).2
    have hxr : x ∉ rest := (List.nodup_cons.1 hnd).1
    have hsub2 : ∀ y ∈ rest, y ≠ INVALID_ID ∧ y ∈ sa.data :=
      fun y hy => hsub y (List.mem_cons_of_mem x hy)
    have hih := ih (pair_step sa sb row p x) hrest hsub2 i
    rw [List.foldl_cons]
    constructor
    · intro y hy hmem
      by_cases hyx : y = x
      · subst hyx
        have hidx : sa.data.indexOf y = i := indexOf_of_getElem? _ _ _ hsa hy
        rw [hih.2 (fun z hz hzz => hxr (by
          have : z = y := by rw [hy] at hzz; exact (Option.some.inj hzz).symm
          rw [← this]; exact hz))]
        rw [pair_step_fst sa sb row y p hx.1 hx.2, hidx, getElem?_updAt, if_pos rfl]
      · have hyr : y ∈ rest := by
          rcases List.mem_cons.1 hmem with h | h
          · exact absurd h hyx
          · exact h
        rw [hih.1 y hy hyr, pair_step_fst sa sb row x p hx.1 hx.2, getElem?_updAt]
        have hne : sa.data.indexOf x ≠ i := by
          intro h
          have h2 := List.getElem?_indexOf hx.2
          rw [h, hy] at h2
          exact hyx (Option.some.inj h2)
        rw [if_neg hne]
    · intro hnone
      rw [hih.2 (fun z hz => hnone z (List.mem_cons_of_mem x hz)),
        pair_step_fst sa sb row x p hx.1 hx.2, getElem?_updAt]
      have hne : sa.data.indexOf x ≠ i := by
        intro h
        have h2 := List.getElem?_indexOf hx.2
        rw [h] at h2
        exact hnone x (List.mem_cons_self x rest) h2
      rw [if_neg hne]

theorem pair_fold_length (sa sb : ecs_component_set) (row : Nat) (xs : List Nat) :
    ∀ p : List ecs_column × List ecs_column,
      (xs.foldl (pair_step sa sb row) p).1.length = p.1.length ∧
      (xs.foldl (pair_step sa sb row) p).2.length = p.2.length := by
  induction xs with
  | nil => intro p; exact ⟨rfl, rfl⟩
  | cons x rest ih =>
    intro p
    rw [List.foldl_cons]
    obtain ⟨h1, h2⟩ := ih (pair_step sa sb row p x)
    rw [h1, h2]
    unfold pair_step
    split
    · exact ⟨rfl, rfl⟩
    · exact ⟨updAt_length _ _ _, updAt_length _ _ _⟩

theorem pair_fold_snd (sa sb : ecs_component_set) (row : Nat)
    (hsb : sb.data.Nodup) (xs : List Nat) :
    ∀ p : List ecs_column × List ecs_column, xs.Nodup →
      (∀ x ∈ xs, x ≠ INVALID_ID ∧ x ∈ sa.data ∧ x ∈ sb.data) → ∀ j : Nat,
      (∀ x, sb.data[j]? = some x → x ∈ xs →
        (xs.foldl (pair_step sa sb row) p).2[j]? =
          (p.2[j]?).map (fun column => ecs_component_column_push column
            (p.1.getD (sa.data.indexOf x) default).data
            (row * (p.1.getD (sa.data.indexOf x) default).component_stride))) ∧
      ((∀ x ∈ xs, sb.data[j]? ≠ some x) →
        (xs.foldl (pair_step sa sb row) p).2[j]? = p.2[j]?) := by
  induction xs with
  | nil =>
    intro p _ _ j
    exact ⟨fun x _ hx => absurd hx (List.not_mem_nil x), fun _ => rfl⟩
  | cons x rest ih =>
    intro p hnd hsub j
    have hx := hsub x (List.mem_cons_self x rest)
    have hrest : rest.Nodup := (List.nodup_cons.1 hnd).2
    have hxr : x ∉ rest := (List.nodup_cons.1 hnd).1
    have hsub2 : ∀ y ∈ rest, y ≠ INVALID_ID ∧ y ∈ sa.data ∧ y ∈ sb.data :=
      fun y hy => hsub y (List.mem_cons_of_mem x hy)
    have hih := ih (pair_step sa sb row p x) hrest hsub2 j
    rw [List.foldl_cons]
    constructor
    · intro y hy hmem
      by_cases hyx : y = x
      · subst hyx
        have hidx : sb.data.indexOf y = j := indexOf_of_getElem? _ _ _ hsb hy
        rw [hih.2 (fun z hz hzz => hxr (by
          have : z = y := by rw [hy] at hzz; exact (Option.some.inj hzz).symm
          rw [← this]; exact hz))]
        rw [pair_step_snd sa sb row y p hx.1 hx.2.1 hx.2.2, hidx, getElem?_updAt, if_pos rfl]
      · have hyr : y ∈ rest := by
          rcases List.mem_cons.1 hmem with h | h
          · exact absurd h hyx
          · exact h
        have hy2 := hsub2 y hyr
        rw [hih.1 y hy hyr, pair_step_snd sa sb row x p hx.1 hx.2.1 hx.2.2, getElem?_updAt]
        have hne : sb.data.indexOf x ≠ j := by
          intro h
          have h2 := List.getElem?_indexOf hx.2.2
          rw [h, hy] at h2
          exact hyx (Option.some.inj h2)
        rw [if_neg hne, pair_step_fst sa sb row x p hx.1 hx.2.1]
        have hne2 : sa.data.indexOf x ≠ sa.data.indexOf y := by
          intro h
          exact hyx ((List.indexOf_inj hx.2.1 hy2.2.1).1 h).symm
        rw [getD_updAt_ne _ _ _ _ _ hne2]
    · intro hnone
      rw [hih.2 (fun z hz => hnone z (List.mem_cons_of_mem x hz)),
        pair_step_snd sa sb row x p hx.1 hx.2.1 hx.2.2, getElem?_updAt]
      have hne : sb.data.indexOf x ≠ j := by
        intro h
        have h2 := List.getElem?_indexOf hx.2.2
        rw [h] at h2
        exact hnone x (List.mem_cons_self x rest) h2
      rw [if_neg hne]

theorem registered_ne {w : ecs_world} {c : Nat} (h : registered w c) : c ≠ INVALID_ID :=
  Nat.ne_of_lt h.2

theorem archetype_set_records (w : ecs_world) (rs : List entity_record) (k : Nat) :
    ecs_world.archetype { w with records := rs } k = w.archetype k := rfl

/-- The world after `entity_transition_archetype`, with the loop replaced by the
fold over the two column arrays. -/
theorem transition_eq (w : ecs_world) (e b : Nat)
    (ha : (w.record e).archetype_index < w.archetypes.length) (hb : b < w.archetypes.length)
    (hab : (w.record e).archetype_index ≠ b) :
    entity_transition_archetype w e b =
      { put_columns
          (modify_archetype
            (modify_archetype w (w.record e).archetype_index
              (fun a => { a with entities := darray_pop a.entities (w.record e).index }))
            b (fun a => { a with entities := darray_push a.entities e }))
          (w.record e).archetype_index b
          ((w.archetype (w.record e).archetype_index).component_set.data.foldl
            (pair_step (w.archetype (w.record e).archetype_index).component_set
              (w.archetype b).component_set (w.record e).index)
            ((w.archetype (w.record e).archetype_index).columns, (w.archetype b).columns)) with
        records := updAt w.records e
          (fun _ => { index := (w.archetype b).entities.length
                      archetype_index := (w.archetype b).archetype_id }) } := by
  unfold entity_transition_archetype
  simp only []
  have h2a : (modify_archetype
      (modify_archetype w (w.record e).archetype_index
        (fun a => { a with entities := darray_pop a.entities (w.record e).index }))
      b (fun a => { a with entities := darray_push a.entities e })).archetype
        (w.record e).archetype_index =
      { w.archetype (w.record e).archetype_index with
        entities := darray_pop (w.archetype (w.record e).archetype_index).entities
          (w.record e).index } := by
    rw [archetype_modify_ne _ _ _ _ (Ne.symm hab), archetype_modify_self _ _ _ ha]
  have h1b : (modify_archetype w (w.record e).archetype_index
        (fun a => { a with entities := darray_pop a.entities (w.record e).index })).archetype b =
      w.archetype b := archetype_modify_ne _ _ _ _ hab
  have h2b : (modify_archetype
      (modify_archetype w (w.record e).archetype_index
        (fun a => { a with entities := darray_pop a.entities (w.record e).index }))
      b (fun a => { a with entities := darray_push a.entities e })).archetype b =
      { w.archetype b with entities := darray_push (w.archetype b).entities e } := by
    rw [archetype_modify_self _ _ _ (by simpa using hb), h1b]
  rw [transition_fold_eq _ _ _ hab _ _ (by simpa using ha) (by simpa using hb)]
  rw [h2a, h2b, h1b]
  simp only [archetype_set_records]
  rw [put_columns_dst _ _ _ _ hab (by simpa using hb), h2b]
  rfl
theorem reserve_archetype (w : ecs_world) (b c k : Nat) :
    (entity_add_component_reserve w b c).archetype k =
      if b = k ∧ b < w.archetypes.length then
        { w.archetype k with
          columns := updAt (w.archetype k).columns
            (ecs_component_set_get_index (w.archetype b).component_set c) reserve_column }
      else w.archetype k := by
  unfold entity_add_component_reserve modify_column
  rw [archetype_modify]
  rfl

theorem move_spec (w : ecs_world) (e b c : Nat) (hwf : WF w) (he : e < w.entity_count)
    (hb : b < w.archetypes.length)
    (hset : ∀ x, x ∈ (w.archetype b).component_set.data ↔
      (x ∈ (w.archetype (w.record e).archetype_index).component_set.data ∨ x = c))
    (hc : c ∉ (w.archetype (w.record e).archetype_index).component_set.data) :
    Moved w (entity_add_component_reserve (entity_transition_archetype w e b) b c) e b c := by
  have ha := hwf.rec_arch e he
  have hAok := hwf.arch_ok _ ha
  have hBok := hwf.arch_ok _ hb
  have hcb : c ∈ (w.archetype b).component_set.data := (hset c).2 (Or.inr rfl)
  have hab : (w.record e).archetype_index ≠ b := by
    intro h
    rw [h] at hc
    exact hc hcb
  have hcI : c ≠ INVALID_ID := registered_ne (hBok.2.2.1 c hcb)
  have hsub : ∀ x ∈ (w.archetype (w.record e).archetype_index).component_set.data,
      x ≠ INVALID_ID ∧ x ∈ (w.archetype (w.record e).archetype_index).component_set.data ∧
        x ∈ (w.archetype b).component_set.data :=
    fun x hx => ⟨registered_ne (hAok.2.2.1 x hx), hx, (hset x).2 (Or.inl hx)⟩
  have hT := transition_eq w e b ha hb hab
  have hfst := pair_fold_fst (w.archetype (w.record e).archetype_index).component_set
    (w.archetype b).component_set (w.record e).index hAok.2.1
    (w.archetype (w.record e).archetype_index).component_set.data
    ((w.archetype (w.record e).archetype_index).columns, (w.archetype b).columns) hAok.2.1
    (fun x hx => ⟨(hsub x hx).1, (hsub x hx).2.1⟩)
  have hsnd := pair_fold_snd (w.archetype (w.record e).archetype_index).component_set
    (w.archetype b).component_set (w.record e).index hBok.2.1
    (w.archetype (w.record e).archetype_index).component_set.data
    ((w.archetype (w.record e).archetype_index).columns, (w.archetype b).columns) hAok.2.1 hsub
  have hlen := pair_fold_length (w.archetype (w.record e).archetype_index).component_set
    (w.archetype b).component_set (w.record e).index
    (w.archetype (w.record e).archetype_index).component_set.data
    ((w.archetype (w.record e).archetype_index).columns, (w.archetype b).columns)
  generalize hP : (w.archetype (w.record e).archetype_index).component_set.data.foldl
      (pair_step (w.archetype (w.record e).archetype_index).component_set
        (w.archetype b).component_set (w.record e).index)
      ((w.archetype (w.record e).archetype_index).columns, (w.archetype b).columns) = P
    at hT hfst hsnd hlen
  -- the archetypes of the world after the transition
  have hTa : (entity_transition_archetype w e b).archetype (w.record e).archetype_index =
      { w.archetype (w.record e).archetype_index with
        entities := darray_pop (w.archetype (w.record e).archetype_index).entities
          (w.record e).index
        columns := P.1 } := by
    rw [hT, archetype_set_records, put_columns_src _ _ _ _ hab (by simpa using ha),
      archetype_modify_ne _ _ _ _ (Ne.symm hab), archetype_modify_self _ _ _ ha]
  have hTb : (entity_transition_archetype w e b).archetype b =
      { w.archetype b with
        entities := darray_push (w.archetype b).entities e
        columns := P.2 } := by
    rw [hT, archetype_set_records, put_columns_dst _ _ _ _ hab (by simpa using hb),
      archetype_modify_self _ _ _ (by simpa using hb), archetype_modify_ne _ _ _ _ hab]
  have hTk : ∀ k, k ≠ (w.record e).archetype_index → k ≠ b →
      (entity_transition_archetype w e b).archetype k = w.archetype k := by
    intro k hka hkb
    rw [hT, archetype_set_records, put_columns_other _ _ _ _ _ (Ne.symm hka) (Ne.symm hkb),
      archetype_modify_ne _ _ _ _ (Ne.symm hkb), archetype_modify_ne _ _ _ _ (Ne.symm hka)]
  have hTlen : (entity_transition_archetype w e b).archetypes.length = w.archetypes.length := by
    rw [hT]; simp
  have hRb : (entity_add_component_reserve (entity_transition_archetype w e b) b c).archetype b =
      { w.archetype b with
        entities := darray_push (w.archetype b).entities e
        columns := updAt P.2 ((w.archetype b).component_set.data.indexOf c) reserve_column } := by
    rw [reserve_archetype, if_pos ⟨rfl, by rw [hTlen]; exact hb⟩, hTb]
    simp only []
    rw [get_index_of_mem _ _ hcI hcb]
  refine
    { entity_count := by rw [hT]; rfl
      components := by rw [hT]; rfl
      queries := by rw [hT]; rfl
      systems := by rw [hT]; rfl
      length := ?_
      records := ?_
      other := ?_
      source := ?_
      dest_set := by rw [hRb]
      dest_edges := by rw [hRb]
      dest_id := by rw [hRb]
      dest_entities := by rw [hRb]
      dest_length := by rw [hRb]; simp only [updAt_length]; exact hlen.2
      dest_new := ?_
      dest_old := ?_ }
  · unfold entity_add_component_reserve modify_column
    rw [modify_archetype_length, hTlen]
  · unfold entity_add_component_reserve modify_column
    rw [modify_archetype_records, hT, hBok.1]
  · intro k hka hkb
    rw [reserve_archetype, if_neg (fun h => hkb h.1.symm), hTk k hka hkb]
  · rw [reserve_archetype, if_neg (fun h => hab h.1.symm), hTa]
    have : P.1 = (w.archetype (w.record e).archetype_index).columns.map
        (fun column => ecs_component_column_pop column (w.record e).index) := by
      apply List.ext_getElem?
      intro i
      rw [List.getElem?_map]
      cases hx : (w.archetype (w.record e).archetype_index).component_set.data[i]? with
      | some x =>
        exact (hfst i).1 x hx (List.mem_iff_getElem?.2 ⟨i, hx⟩)
      | none =>
        rw [(hfst i).2 (fun x _ h => by rw [hx] at h; exact absurd h (by simp))]
        have hi : (w.archetype (w.record e).archetype_index).columns.length ≤ i := by
          rw [hAok.2.2.2.1]
          exact List.getElem?_eq_none_iff.1 hx
        simp [List.getElem?_eq_none hi]
    rw [this]
  · intro j hj
    rw [hRb]
    simp only []
    have hidx := indexOf_of_getElem? _ _ _ hBok.2.1 hj
    rw [hidx, getElem?_updAt, if_pos rfl]
    rw [(hsnd j).2 (fun x hx h => by
      rw [hj] at h
      exact hc (by rw [Option.some.inj h]; exact hx))]
  · intro j x hj hxc
    rw [hRb]
    simp only []
    have hxb : x ∈ (w.archetype b).component_set.data := List.mem_iff_getElem?.2 ⟨j, hj⟩
    have hxa : x ∈ (w.archetype (w.record e).archetype_index).component_set.data := by
      rcases (hset x).1 hxb with h | h
      · exact h
      · exact absurd h hxc
    have hne : (w.archetype b).component_set.data.indexOf c ≠ j := by
      intro h
      have h2 := List.getElem?_indexOf hcb
      rw [h, hj] at h2
      exact hxc (Option.some.inj h2)
    rw [getElem?_updAt, if_neg hne]
    exact (hsnd j).1 x hj hxa
/-! ## Consequences of a move -/

theorem Moved.set_eq {w w2 : ecs_world} {e b c : Nat} (h : Moved w w2 e b c) (k : Nat) :
    (w2.archetype k).component_set = (w.archetype k).component_set := by
  by_cases hkb : k = b
  · rw [hkb]; exact h.dest_set
  · by_cases hka : k = (w.record e).archetype_index
    · rw [hka, h.source]
    · rw [h.other k hka hkb]

theorem Moved.edges_eq {w w2 : ecs_world} {e b c : Nat} (h : Moved w w2 e b c) (k : Nat) :
    (w2.archetype k).edges = (w.archetype k).edges := by
  by_cases hkb : k = b
  · rw [hkb]; exact h.dest_edges
  · by_cases hka : k = (w.record e).archetype_index
    · rw [hka, h.source]
    · rw [h.other k hka hkb]

theorem Moved.id_eq {w w2 : ecs_world} {e b c : Nat} (h : Moved w w2 e b c) (k : Nat) :
    (w2.archetype k).archetype_id = (w.archetype k).archetype_id := by
  by_cases hkb : k = b
  · rw [hkb]; exact h.dest_id
  · by_cases hka : k = (w.record e).archetype_index
    · rw [hka, h.source]
    · rw [h.other k hka hkb]

theorem Moved.record_self {w w2 : ecs_world} {e b c : Nat} (h : Moved w w2 e b c)
    (he : e < w.records.length) :
    w2.record e = { index := (w.archetype b).entities.length, archetype_index := b } := by
  unfold ecs_world.record
  rw [h.records, getD_updAt_self _ _ _ _ he]

theorem Moved.record_ne {w w2 : ecs_world} {e b c : Nat} (h : Moved w w2 e b c) (e2 : Nat)
    (hne : e2 ≠ e) : w2.record e2 = w.record e2 := by
  unfold ecs_world.record
  rw [h.records, getD_updAt_ne _ _ _ _ _ (Ne.symm hne)]

theorem Moved.stride_eq {w w2 : ecs_world} {e b c : Nat} (h : Moved w w2 e b c) (x : Nat) :
    w2.stride x = w.stride x := by
  unfold ecs_world.stride
  rw [h.components]

theorem getD_of_getElem? {α : Type} (l : List α) (i : Nat) (x d : α) (h : l[i]? = some x) :
    l.getD i d = x := by
  simp [List.getD_eq_getElem?_getD, h]

theorem getElem?_of_lt_getD {α : Type} (l : List α) (i : Nat) (d : α) (h : i < l.length) :
    l[i]? = some (l.getD i d) := by
  simp [List.getD_eq_getElem?_getD, List.getElem?_eq_getElem h]

/-- Every column of the destination after a move is a column of the destination
before it, grown by one row. -/
theorem Moved.dest_column {w w2 : ecs_world} {e b c : Nat} (h : Moved w w2 e b c)
    (hok : archetype_ok w (w.archetype b) b) (j : Nat)
    (hj : j < (w.archetype b).columns.length) :
    column_ok ((w2.archetype b).columns.getD j default)
      (w.stride ((w.archetype b).component_set.data.getD j 0))
      ((w.archetype b).entities.length + 1) ∧
    ((w.archetype b).columns.getD j default).capacity ≤
      ((w2.archetype b).columns.getD j default).capacity := by
  have hj2 : j < (w.archetype b).component_set.data.length := by rw [← hok.2.2.2.1]; exact hj
  have hx := getElem?_of_lt_getD _ j 0 hj2
  have hcol := getElem?_of_lt_getD _ j default hj
  have hcok := hok.2.2.2.2 j hj
  by_cases hxc : (w.archetype b).component_set.data.getD j 0 = c
  · rw [hxc] at hx
    have := h.dest_new j hx
    rw [hcol, Option.map_some'] at this
    rw [getD_of_getElem? _ _ _ _ this]
    exact ⟨reserve_ok _ _ _ hcok, grow_capacity_le _⟩
  · have := h.dest_old j _ hx hxc
    rw [hcol, Option.map_some'] at this
    rw [getD_of_getElem? _ _ _ _ this]
    exact ⟨push_ok _ _ _ _ _ hcok, push_capacity_le _ _ _⟩

theorem archetype_ok_congr {w w2 : ecs_world} (h : w2.components = w.components)
    (a : entity_archetype) (k : Nat) (hok : archetype_ok w a k) : archetype_ok w2 a k := by
  unfold archetype_ok registered ecs_world.stride at *
  rw [h]
  exact hok

theorem Moved.wf {w w2 : ecs_world} {e b c : Nat} (h : Moved w w2 e b c) (hwf : WF w)
    (he : e < w.entity_count) (hb : b < w.archetypes.length)
    (hab : (w.record e).archetype_index ≠ b) : WF w2 := by
  have hel : e < w.records.length := by rw [hwf.rec_len]; exact he
  have ha := hwf.rec_arch e he
  have hAok := hwf.arch_ok _ ha
  have hBok := hwf.arch_ok _ hb
  refine
    { rec_len := by rw [h.records, updAt_length, h.entity_count]; exact hwf.rec_len
      arch_pos := by rw [h.length]; exact hwf.arch_pos
      arch0 := by rw [h.set_eq]; exact hwf.arch0
      arch_ok := ?_
      rec_arch := ?_
      rec_row := ?_
      edge_ok := ?_ }
  · intro k hk
    rw [h.length] at hk
    by_cases hkb : k = b
    · subst hkb
      refine ⟨by rw [h.dest_id]; exact hBok.1, by rw [h.dest_set]; exact hBok.2.1, ?_, ?_, ?_⟩
      · intro x hx
        rw [h.dest_set] at hx
        have := hBok.2.2.1 x hx
        unfold registered at *
        rw [h.components]; exact this
      · rw [h.dest_length, h.dest_set]; exact hBok.2.2.2.1
      · intro i hi
        rw [h.dest_length] at hi
        rw [h.dest_set, h.dest_entities, darray_push_length, h.stride_eq]
        exact (h.dest_column hBok i hi).1
    · by_cases hka : k = (w.record e).archetype_index
      · subst hka
        rw [h.source]
        refine ⟨hAok.1, hAok.2.1, ?_, ?_, ?_⟩
        · intro x hx
          have := hAok.2.2.1 x hx
          unfold registered at *
          rw [h.components]; exact this
        · simp only [List.length_map]; exact hAok.2.2.2.1
        · intro i hi
          simp only [List.length_map] at hi
          simp only [darray_pop_length, h.stride_eq]
          have hcol := getElem?_of_lt_getD _ i (default : ecs_column) hi
          have : ((w.archetype (w.record e).archetype_index).columns.map
              (fun column => ecs_component_column_pop column (w.record e).index))[i]? =
              some (ecs_component_column_pop
                ((w.archetype (w.record e).archetype_index).columns.getD i default)
                (w.record e).index) := by
            rw [List.getElem?_map, hcol]; rfl
          rw [getD_of_getElem? _ _ _ _ this]
          exact pop_ok _ _ _ _ (hAok.2.2.2.2 i hi)
      · rw [h.other k hka hkb]
        exact archetype_ok_congr h.components _ _ (hwf.arch_ok k hk)
  · intro e2 he2
    rw [h.entity_count] at he2
    rw [h.length]
    by_cases hee : e2 = e
    · subst hee
      rw [h.record_self hel]; exact hb
    · rw [h.record_ne e2 hee]; exact hwf.rec_arch e2 he2
  · intro e2 he2 col hcol
    rw [h.entity_count] at he2
    by_cases hee : e2 = e
    · subst hee
      rw [h.record_self hel] at hcol ⊢
      simp only at hcol ⊢
      obtain ⟨j, hj⟩ := List.mem_iff_getElem?.1 hcol
      have hjl : j < (w.archetype b).columns.length := by
        rw [← h.dest_length]
        exact (List.getElem?_eq_some.1 hj).1
      have := (h.dest_column hBok j hjl).1
      rw [getD_of_getElem? _ _ _ _ hj] at this
      obtain ⟨_, _, h3, h4⟩ := this
      omega
    · rw [h.record_ne e2 hee] at hcol ⊢
      have hold := hwf.rec_row e2 he2
      by_cases hkb : (w.record e2).archetype_index = b
      · rw [hkb] at hcol hold
        obtain ⟨j, hj⟩ := List.mem_iff_getElem?.1 hcol
        have hjl : j < (w.archetype b).columns.length := by
          rw [← h.dest_length]
          exact (List.getElem?_eq_some.1 hj).1
        have := (h.dest_column hBok j hjl).2
        rw [getD_of_getElem? _ _ _ _ hj] at this
        have hmem : (w.archetype b).columns.getD j default ∈ (w.archetype b).columns :=
          List.mem_iff_getElem?.2 ⟨j, getElem?_of_lt_getD _ j default hjl⟩
        have := hold _ hmem
        omega
      · by_cases hka : (w.record e2).archetype_index = (w.record e).archetype_index
        · rw [hka] at hcol hold
          rw [h.source] at hcol
          simp only [List.mem_map] at hcol
          obtain ⟨col0, hmem, hpop⟩ := hcol
          rw [← hpop, pop_capacity]
          exact hold col0 hmem
        · rw [h.other _ hka hkb] at hcol
          exact hold col hcol
  · intro k hk x y hxy
    rw [h.length] at hk ⊢
    rw [h.edges_eq] at hxy
    have := hwf.edge_ok k hk x y hxy
    rw [h.set_eq, h.set_eq]
    exact this
/-! ## Choosing the destination archetype -/

theorem archetype_default (w : ecs_world) (k : Nat) (h : w.archetypes.length ≤ k) :
    w.archetype k = default := by
  unfold ecs_world.archetype
  rw [List.getD_eq_getElem?_getD, List.getElem?_eq_none h]
  rfl

theorem archetype_ok_count {w : ecs_world} {a : entity_archetype} {k : Nat}
    (h : archetype_ok w a k) : a.component_set.count = a.component_set.data.length :=
  count_eq_length _ (fun c hc => registered_ne (h.2.2.1 c hc))

/-- A candidate accepted by the search has exactly the set of the current
archetype united with the new component. -/
theorem candidate_spec (w : ecs_world) (a c b : Nat) (hwf : WF w) (ha : a < w.archetypes.length)
    (hc : c ∉ (w.archetype a).component_set.data)
    (h : entity_add_component_candidate w a c b = true) :
    b < w.archetypes.length ∧
    ∀ x, x ∈ (w.archetype b).component_set.data ↔
      (x ∈ (w.archetype a).component_set.data ∨ x = c) := by
  unfold entity_add_component_candidate at h
  simp only [] at h
  split at h
  · exact absurd h (by simp)
  · rename_i h1
    simp only [Bool.or_eq_true, bne_iff_ne, ne_eq, Bool.not_eq_true', not_or, Decidable.not_not,
      Bool.not_eq_false] at h1
    obtain ⟨hcount, hcont⟩ := h1
    have hcb := ((contains_iff _ _).1 hcont).2
    have hb : b < w.archetypes.length := by
      by_contra hlt
      rw [archetype_default w b (Nat.le_of_not_lt hlt)] at hcb
      exact absurd hcb (by simp [default, instInhabitedEntity_archetype, instInhabitedEcs_component_set])
    refine ⟨hb, ?_⟩
    have hAok := hwf.arch_ok a ha
    have hBok := hwf.arch_ok b hb
    rw [archetype_ok_count hAok, archetype_ok_count hBok] at hcount
    have hsub : (w.archetype a).component_set.data ⊆ (w.archetype b).component_set.data := by
      split at h
      · rename_i hid
        rw [hAok.1] at hid
        subst hid
        rw [hwf.arch0]
        exact List.nil_subset _
      · intro x hx
        rw [List.all_eq_true] at h
        have := h x hx
        simp only [Bool.or_eq_true, beq_iff_eq] at this
        rcases this with h2 | h2
        · exact absurd h2 (registered_ne (hAok.2.2.1 x hx))
        · exact ((contains_iff _ _).1 h2).2
    have hnd : (c :: (w.archetype a).component_set.data).Nodup :=
      List.nodup_cons.2 ⟨hc, hAok.2.1⟩
    have hsub2 : (c :: (w.archetype a).component_set.data) ⊆ (w.archetype b).component_set.data :=
      List.cons_subset.2 ⟨hcb, hsub⟩
    have hperm := (List.subperm_of_subset hnd hsub2).perm_of_length_le
      (by simp only [List.length_cons]; omega)
    intro x
    rw [← hperm.mem_iff, List.mem_cons]
    tauto
theorem register_fold (id : Nat) (l : List Nat) :
    ∀ cs : List ecs_component,
      (l.foldl (fun cs c => updAt cs c
        (fun m => { m with archetypes := darray_push m.archetypes id })) cs).length = cs.length ∧
      ∀ k, ((l.foldl (fun cs c => updAt cs c
        (fun m => { m with archetypes := darray_push m.archetypes id })) cs).getD k default).stride =
        (cs.getD k default).stride := by
  induction l with
  | nil => intro cs; exact ⟨rfl, fun _ => rfl⟩
  | cons x rest ih =>
    intro cs
    rw [List.foldl_cons]
    obtain ⟨h1, h2⟩ := ih (updAt cs x (fun m => { m with archetypes := darray_push m.archetypes id }))
    refine ⟨by rw [h1, updAt_length], ?_⟩
    intro k
    rw [h2 k, getD_updAt]
    split <;> rfl

/-- The world after the slow path created a new archetype for `a` and `c`. -/
theorem create_spec (cap0 : Nat) (w : ecs_world) (a c : Nat) (hwf : WF w)
    (ha : a < w.archetypes.length) (hc : c ∉ (w.archetype a).component_set.data)
    (hcI : c ≠ INVALID_ID) :
    (entity_archetype_create_from_base cap0 w a [c]).2 = w.archetypes.length ∧
    (entity_archetype_match_queryies (entity_archetype_create_from_base cap0 w a [c]).2
      (entity_archetype_create_from_base cap0 w a [c]).1).archetypes =
      w.archetypes ++
        [{ component_set := { data := (w.archetype a).component_set.data ++ [c] }
           columns := ((w.archetype a).component_set.data ++ [c]).map
             (fun x => ecs_component_column_create cap0 (w.stride x))
           entities := []
           edges := { add_edges := [], remove_edges := [] }
           archetype_id := w.archetypes.length }] ∧
    (entity_archetype_match_queryies (entity_archetype_create_from_base cap0 w a [c]).2
      (entity_archetype_create_from_base cap0 w a [c]).1).records = w.records ∧
    (entity_archetype_match_queryies (entity_archetype_create_from_base cap0 w a [c]).2
      (entity_archetype_create_from_base cap0 w a [c]).1).entity_count = w.entity_count ∧
    (entity_archetype_match_queryies (entity_archetype_create_from_base cap0 w a [c]).2
      (entity_archetype_create_from_base cap0 w a [c]).1).components.length =
        w.components.length ∧
    ∀ x, (entity_archetype_match_queryies (entity_archetype_create_from_base cap0 w a [c]).2
      (entity_archetype_create_from_base cap0 w a [c]).1).stride x = w.stride x := by
  have hAok := hwf.arch_ok a ha
  have hfilter : (w.archetype a).component_set.data.filter (fun x => x != INVALID_ID) =
      (w.archetype a).component_set.data := by
    rw [List.filter_eq_self]
    intro x hx
    simpa using registered_ne (hAok.2.2.1 x hx)
  have hset : (((w.archetype a).component_set.data.filter (fun x => x != INVALID_ID)) ++ [c]).foldl
      ecs_component_set_insert { data := [] } =
      { data := (w.archetype a).component_set.data ++ [c] } := by
    rw [hfilter]
    have := foldl_insert_eq ((w.archetype a).component_set.data ++ [c]) []
      (by
        simp only [List.nil_append]
        exact List.nodup_append.2 ⟨hAok.2.1, List.nodup_singleton c, by
          intro x hx hx2
          rw [List.mem_singleton] at hx2
          subst hx2
          exact hc hx⟩)
      (by
        intro x hx
        rcases List.mem_append.1 hx with h | h
        · exact registered_ne (hAok.2.2.1 x h)
        · rw [List.mem_singleton] at h; rw [h]; exact hcI)
    simpa using this
  unfold entity_archetype_match_queryies entity_archetype_create_from_base entity_archetype_create
  simp only [hset]
  refine ⟨trivial, rfl, trivial, trivial, ?_, ?_⟩
  · exact (register_fold _ _ _).1
  · intro x
    exact (register_fold _ _ _).2 x
theorem add_slow_eq (cap0 : Nat) (w : ecs_world) (e c : Nat)
    (h1 : entity_has_component w e c = false)
    (h2 : entity_archetype_ptr_map_try_get
      (w.archetype (w.record e).archetype_index).edges.add_edges c = none) :
    entity_add_component cap0 w e c =
      entity_add_component_reserve
        (entity_transition_archetype
          (install_edges (select_archetype cap0 w (w.record e).archetype_index c).1
            (w.record e).archetype_index c
            (select_archetype cap0 w (w.record e).archetype_index c).2) e
          (select_archetype cap0 w (w.record e).archetype_index c).2)
        (select_archetype cap0 w (w.record e).archetype_index c).2 c := by
  unfold entity_add_component
  rw [if_neg (by rw [h1]; simp)]
  simp only [h2]
  rfl

theorem add_fast_eq (cap0 : Nat) (w : ecs_world) (e c b : Nat)
    (h1 : entity_has_component w e c = false)
    (h2 : entity_archetype_ptr_map_try_get
      (w.archetype (w.record e).archetype_index).edges.add_edges c = some b) :
    entity_add_component cap0 w e c =
      entity_add_component_reserve (entity_transition_archetype w e b) b c := by
  unfold entity_add_component
  rw [if_neg (by rw [h1]; simp)]
  simp only [h2]

theorem archetype_ok_congr2 {w w2 : ecs_world} (hl : w2.components.length = w.components.length)
    (hs : ∀ x, w2.stride x = w.stride x)
    (a : entity_archetype) (k : Nat) (hok : archetype_ok w a k) : archetype_ok w2 a k := by
  obtain ⟨h1, h2, h3, h4, h5⟩ := hok
  refine ⟨h1, h2, ?_, h4, ?_⟩
  · intro x hx
    have := h3 x hx
    unfold registered at *
    rw [hl]; exact this
  · intro i hi
    rw [hs]; exact h5 i hi

theorem Prepared.refl (w : ecs_world) : Prepared w w :=
  { entity_count := rfl, records := rfl, comp_len := rfl, stride := fun _ => rfl
    len_le := Nat.le_refl _, old_set := fun _ _ => rfl, old_columns := fun _ _ => rfl
    old_entities := fun _ _ => rfl, old_id := fun _ _ => rfl
    fresh := fun k h1 h2 => absurd h2 (by omega) }

theorem Prepared.trans {w w1 w2 : ecs_world} (h1 : Prepared w w1) (h2 : Prepared w1 w2) :
    Prepared w w2 :=
  { entity_count := h2.entity_count.trans h1.entity_count
    records := h2.records.trans h1.records
    comp_len := h2.comp_len.trans h1.comp_len
    stride := fun x => (h2.stride x).trans (h1.stride x)
    len_le := Nat.le_trans h1.len_le h2.len_le
    old_set := fun k hk =>
      (h2.old_set k (Nat.lt_of_lt_of_le hk h1.len_le)).trans (h1.old_set k hk)
    old_columns := fun k hk =>
      (h2.old_columns k (Nat.lt_of_lt_of_le hk h1.len_le)).trans (h1.old_columns k hk)
    old_entities := fun k hk =>
      (h2.old_entities k (Nat.lt_of_lt_of_le hk h1.len_le)).trans (h1.old_entities k hk)
    old_id := fun k hk =>
      (h2.old_id k (Nat.lt_of_lt_of_le hk h1.len_le)).trans (h1.old_id k hk)
    fresh := fun k hk1 hk2 => by
      by_cases hk : k < w1.archetypes.length
      · rw [h2.old_entities k hk]; exact h1.fresh k hk1 hk
      · exact h2.fresh k (Nat.le_of_not_lt hk) hk2 }

theorem Prepared.record {w w1 : ecs_world} (h : Prepared w w1) (e : Nat) :
    w1.record e = w.record e := by
  unfold ecs_world.record; rw [h.records]

/-- Appending one sound, empty archetype keeps the invariant. -/
theorem wf_append (w w1 : ecs_world) (n : entity_archetype) (hwf : WF w)
    (harch : w1.archetypes = w.archetypes ++ [n]) (hrec : w1.records = w.records)
    (hcount : w1.entity_count = w.entity_count)
    (hlen : w1.components.length = w.components.length)
    (hstride : ∀ x, w1.stride x = w.stride x)
    (hn : archetype_ok w n w.archetypes.length) (hne : n.entities = [])
    (hedges : n.edges.add_edges = []) : WF w1 ∧ Prepared w w1 := by
  have hold : ∀ k, k < w.archetypes.length → w1.archetype k = w.archetype k := by
    intro k hk
    unfold ecs_world.archetype
    rw [harch, List.getD_eq_getElem?_getD, List.getD_eq_getElem?_getD,
      List.getElem?_append_left hk]
  have hnew : w1.archetype w.archetypes.length = n := by
    unfold ecs_world.archetype
    rw [harch, List.getD_eq_getElem?_getD]
    simp
  have hl : w1.archetypes.length = w.archetypes.length + 1 := by rw [harch]; simp
  have hrecord : ∀ e, w1.record e = w.record e := by
    intro e; unfold ecs_world.record; rw [hrec]
  constructor
  · refine
      { rec_len := by rw [hrec, hcount]; exact hwf.rec_len
        arch_pos := by rw [hl]; omega
        arch0 := by rw [hold 0 hwf.arch_pos]; exact hwf.arch0
        arch_ok := ?_
        rec_arch := ?_
        rec_row := ?_
        edge_ok := ?_ }
    · intro k hk
      by_cases hk2 : k < w.archetypes.length
      · rw [hold k hk2]
        exact archetype_ok_congr2 hlen hstride _ _ (hwf.arch_ok k hk2)
      · have : k = w.archetypes.length := by omega
        subst this
        rw [hnew]
        exact archetype_ok_congr2 hlen hstride _ _ hn
    · intro e he
      rw [hcount] at he
      rw [hrecord, hl]
      exact Nat.lt_succ_of_lt (hwf.rec_arch e he)
    · intro e he
      rw [hcount] at he
      rw [hrecord, hold _ (hwf.rec_arch e he)]
      exact hwf.rec_row e he
    · intro k hk x y hxy
      by_cases hk2 : k < w.archetypes.length
      · rw [hold k hk2] at hxy ⊢
        obtain ⟨hy, hset⟩ := hwf.edge_ok k hk2 x y hxy
        rw [hold y hy, hl]
        exact ⟨Nat.lt_succ_of_lt hy, hset⟩
      · have : k = w.archetypes.length := by omega
        subst this
        rw [hnew, hedges] at hxy
        simp [entity_archetype_ptr_map_try_get] at hxy
  · exact
      { entity_count := hcount, records := hrec, comp_len := hlen, stride := hstride
        len_le := by rw [hl]; omega
        old_set := fun k hk => by rw [hold k hk]
        old_columns := fun k hk => by rw [hold k hk]
        old_entities := fun k hk => by rw [hold k hk]
        old_id := fun k hk => by rw [hold k hk]
        fresh := fun k hk1 hk2 => by
          have : k = w.archetypes.length := by omega
          subst this
          rw [hnew]; exact hne }
theorem select_spec (cap0 : Nat) (w : ecs_world) (a c : Nat) (hwf : WF w) (h0 : 0 < cap0)
    (ha : a < w.archetypes.length) (hc : c ∉ (w.archetype a).component_set.data)
    (hreg : registered w c) :
    WF (select_archetype cap0 w a c).1 ∧ Prepared w (select_archetype cap0 w a c).1 ∧
    (select_archetype cap0 w a c).2 < (select_archetype cap0 w a c).1.archetypes.length ∧
    ∀ x, x ∈ ((select_archetype cap0 w a c).1.archetype
        (select_archetype cap0 w a c).2).component_set.data ↔
      (x ∈ (w.archetype a).component_set.data ∨ x = c) := by
  unfold select_archetype
  cases hf : (w.components.getD c default).archetypes.find?
      (entity_add_component_candidate w a c) with
  | some b =>
    simp only []
    have hcand := List.find?_some hf
    obtain ⟨hb, hset⟩ := candidate_spec w a c b hwf ha hc hcand
    exact ⟨hwf, Prepared.refl w, hb, hset⟩
  | none =>
    simp only []
    have hAok := hwf.arch_ok a ha
    obtain ⟨h1, h2, h3, h4, h5, h6⟩ := create_spec cap0 w a c hwf ha hc (registered_ne hreg)
    have hn : archetype_ok w
        { component_set := { data := (w.archetype a).component_set.data ++ [c] }
          columns := ((w.archetype a).component_set.data ++ [c]).map
            (fun x => ecs_component_column_create cap0 (w.stride x))
          entities := []
          edges := { add_edges := [], remove_edges := [] }
          archetype_id := w.archetypes.length } w.archetypes.length := by
      refine ⟨rfl, ?_, ?_, by simp, ?_⟩
      · exact List.nodup_append.2 ⟨hAok.2.1, List.nodup_singleton c, by
          intro x hx hx2
          rw [List.mem_singleton] at hx2
          subst hx2
          exact hc hx⟩
      · intro x hx
        rcases List.mem_append.1 hx with h | h
        · exact hAok.2.2.1 x h
        · rw [List.mem_singleton] at h; rw [h]; exact hreg
      · intro i hi
        simp only [List.length_map] at hi
        have hx := getElem?_of_lt_getD ((w.archetype a).component_set.data ++ [c]) i 0 hi
        have : (((w.archetype a).component_set.data ++ [c]).map
            (fun x => ecs_component_column_create cap0 (w.stride x)))[i]? =
            some (ecs_component_column_create cap0
              (w.stride (((w.archetype a).component_set.data ++ [c]).getD i 0))) := by
          rw [List.getElem?_map, hx]; rfl
        simp only []
        rw [getD_of_getElem? _ _ _ _ this]
        exact create_ok cap0 _ h0
    obtain ⟨hwf1, hprep⟩ := wf_append w _ _ hwf h2 h3 h4 h5 h6 hn rfl rfl
    refine ⟨hwf1, hprep, ?_, ?_⟩
    · rw [h2, h1]; simp
    · intro x
      have : ecs_world.archetype (entity_archetype_match_queryies
          (entity_archetype_create_from_base cap0 w a [c]).2
          (entity_archetype_create_from_base cap0 w a [c]).1)
          (entity_archetype_create_from_base cap0 w a [c]).2 =
          { component_set := { data := (w.archetype a).component_set.data ++ [c] }
            columns := ((w.archetype a).component_set.data ++ [c]).map
              (fun x => ecs_component_column_create cap0 (w.stride x))
            entities := []
            edges := { add_edges := [], remove_edges := [] }
            archetype_id := w.archetypes.length } := by
        rw [archetype_eq, h2, h1]
        simp
      rw [this]
      simp

theorem install_archetype (w : ecs_world) (a c b k : Nat) :
    ((install_edges w a c b).archetype k).component_set = (w.archetype k).component_set ∧
    ((install_edges w a c b).archetype k).columns = (w.archetype k).columns ∧
    ((install_edges w a c b).archetype k).entities = (w.archetype k).entities ∧
    ((install_edges w a c b).archetype k).archetype_id = (w.archetype k).archetype_id ∧
    ((install_edges w a c b).archetype k).edges.add_edges =
      if a = k ∧ a < w.archetypes.length then
        entity_archetype_ptr_map_insert (w.archetype k).edges.add_edges c b
      else (w.archetype k).edges.add_edges := by
  unfold install_edges
  rw [archetype_modify, archetype_modify, modify_archetype_length]
  by_cases h1 : b = k ∧ b < w.archetypes.length
  · by_cases h2 : a = k ∧ a < w.archetypes.length
    · simp only [if_pos h1, if_pos h2]; simp
    · simp only [if_pos h1, if_neg h2]; simp
  · by_cases h2 : a = k ∧ a < w.archetypes.length
    · simp only [if_neg h1, if_pos h2]; simp
    · simp only [if_neg h1, if_neg h2]; simp

theorem install_spec (w : ecs_world) (a c b : Nat) (hwf : WF w)
    (hb : b < w.archetypes.length)
    (hset : ∀ x, x ∈ (w.archetype b).component_set.data ↔
      (x ∈ (w.archetype a).component_set.data ∨ x = c)) :
    WF (install_edges w a c b) ∧ Prepared w (install_edges w a c b) := by
  have hl : (install_edges w a c b).archetypes.length = w.archetypes.length := by
    simp [install_edges]
  have hI := install_archetype w a c b
  constructor
  · refine
      { rec_len := hwf.rec_len
        arch_pos := by rw [hl]; exact hwf.arch_pos
        arch0 := by rw [(hI 0).1]; exact hwf.arch0
        arch_ok := ?_
        rec_arch := ?_
        rec_row := ?_
        edge_ok := ?_ }
    · intro k hk
      rw [hl] at hk
      obtain ⟨h1, h2, h3, h4, h5⟩ := hwf.arch_ok k hk
      obtain ⟨i1, i2, i3, i4, _⟩ := hI k
      refine ⟨by rw [i4]; exact h1, by rw [i1]; exact h2, ?_, by rw [i1, i2]; exact h4, ?_⟩
      · intro x hx; rw [i1] at hx; exact h3 x hx
      · intro i hi
        rw [i2] at hi ⊢
        rw [i1, i3]
        exact h5 i hi
    · intro e he
      rw [hl]; exact hwf.rec_arch e he
    · intro e he col hcol
      have : (install_edges w a c b).record e = w.record e := rfl
      rw [this] at hcol ⊢
      rw [(hI _).2.1] at hcol
      exact hwf.rec_row e he col hcol
    · intro k hk x y hxy
      rw [hl] at hk ⊢
      rw [(hI k).2.2.2.2] at hxy
      rw [(hI y).1, (hI k).1]
      by_cases h2 : a = k ∧ a < w.archetypes.length
      · rw [if_pos h2] at hxy
        by_cases hxc : x = c
        · subst hxc
          rw [try_get_insert_self] at hxy
          have : b = y := Option.some.inj hxy
          subst this
          rw [← h2.1]
          exact ⟨hb, hset⟩
        · rw [try_get_insert_ne _ _ _ _ hxc] at hxy
          exact hwf.edge_ok k hk x y hxy
      · rw [if_neg h2] at hxy
        exact hwf.edge_ok k hk x y hxy
  · exact
      { entity_count := rfl, records := rfl, comp_len := rfl, stride := fun _ => rfl
        len_le := by rw [hl]
        old_set := fun k _ => (hI k).1
        old_columns := fun k _ => (hI k).2.1
        old_entities := fun k _ => (hI k).2.2.1
        old_id := fun k _ => (hI k).2.2.2.1
        fresh := fun k h1 h2 => by rw [hl] at h2; omega }
/-! ## `entity_add_component` as a preparation followed by a move -/

theorem has_false_iff (w : ecs_world) (e c : Nat) (hc : c ≠ INVALID_ID) :
    entity_has_component w e c = false ↔
      c ∉ (w.archetype (w.record e).archetype_index).component_set.data := by
  unfold entity_has_component
  exact contains_eq_false_iff _ _ hc

theorem has_true_iff (w : ecs_world) (e c : Nat) (hc : c ≠ INVALID_ID) :
    entity_has_component w e c = true ↔
      c ∈ (w.archetype (w.record e).archetype_index).component_set.data := by
  unfold entity_has_component
  rw [contains_iff]
  exact ⟨fun h => h.2, fun h => ⟨hc, h⟩⟩

theorem add_spec (cap0 : Nat) (w : ecs_world) (e c : Nat) (hwf : WF w) (h0 : 0 < cap0)
    (he : e < w.entity_count) (hreg : registered w c)
    (hhas : entity_has_component w e c = false) :
    ∃ w1 b, Prepared w w1 ∧ WF w1 ∧ b < w1.archetypes.length ∧
      (w.record e).archetype_index ≠ b ∧
      (∀ x, x ∈ (w1.archetype b).component_set.data ↔
        (x ∈ (w.archetype (w.record e).archetype_index).component_set.data ∨ x = c)) ∧
      Moved w1 (entity_add_component cap0 w e c) e b c := by
  have hcI := registered_ne hreg
  have hc := (has_false_iff w e c hcI).1 hhas
  have ha := hwf.rec_arch e he
  cases hedge : entity_archetype_ptr_map_try_get
      (w.archetype (w.record e).archetype_index).edges.add_edges c with
  | some b =>
    obtain ⟨hb, hset⟩ := hwf.edge_ok _ ha c b hedge
    have hab : (w.record e).archetype_index ≠ b := by
      intro h
      exact hc (by rw [h]; exact (hset c).2 (Or.inr rfl))
    refine ⟨w, b, Prepared.refl w, hwf, hb, hab, hset, ?_⟩
    rw [add_fast_eq cap0 w e c b hhas hedge]
    exact move_spec w e b c hwf he hb hset hc
  | none =>
    obtain ⟨hwf1, hprep1, hb1, hset1⟩ :=
      select_spec cap0 w (w.record e).archetype_index c hwf h0 ha hc hreg
    generalize hs : select_archetype cap0 w (w.record e).archetype_index c = s
      at hwf1 hprep1 hb1 hset1
    have hseta : (s.1.archetype (w.record e).archetype_index).component_set =
        (w.archetype (w.record e).archetype_index).component_set := hprep1.old_set _ ha
    obtain ⟨hwf2, hprep2⟩ := install_spec s.1 (w.record e).archetype_index c s.2 hwf1 hb1
      (by rw [hseta]; exact hset1)
    have hI := install_archetype s.1 (w.record e).archetype_index c s.2
    have hl : (install_edges s.1 (w.record e).archetype_index c s.2).archetypes.length =
        s.1.archetypes.length := by simp [install_edges]
    have hrec : (install_edges s.1 (w.record e).archetype_index c s.2).record e = w.record e := by
      rw [hprep2.record, hprep1.record]
    have hset2 : ∀ x,
        x ∈ ((install_edges s.1 (w.record e).archetype_index c s.2).archetype s.2).component_set.data ↔
        (x ∈ (w.archetype (w.record e).archetype_index).component_set.data ∨ x = c) := by
      intro x
      rw [(hI s.2).1]
      exact hset1 x
    have hab : (w.record e).archetype_index ≠ s.2 := by
      intro h
      exact hc (by rw [← hseta, h]; exact (hset1 c).2 (Or.inr rfl))
    refine ⟨install_edges s.1 (w.record e).archetype_index c s.2, s.2,
      hprep1.trans hprep2, hwf2, by rw [hl]; exact hb1, hab, hset2, ?_⟩
    rw [add_slow_eq cap0 w e c hhas hedge, hs]
    apply move_spec _ e s.2 c hwf2 (by rw [hprep2.entity_count, hprep1.entity_count]; exact he)
      (by rw [hl]; exact hb1)
    · intro x
      rw [hrec, (hI (w.record e).archetype_index).1, hseta]
      exact hset2 x
    · rw [hrec, (hI (w.record e).archetype_index).1, hseta]
      exact hc

theorem add_wf (cap0 : Nat) (w : ecs_world) (e c : Nat) (hwf : WF w) (h0 : 0 < cap0)
    (he : e < w.entity_count) (hreg : registered w c) :
    WF (entity_add_component cap0 w e c) := by
  cases hhas : entity_has_component w e c with
  | true =>
    unfold entity_add_component
    rw [if_pos hhas]; exact hwf
  | false =>
    obtain ⟨w1, b, hprep, hwf1, hb, hab, hset, hmv⟩ := add_spec cap0 w e c hwf h0 he hreg hhas
    exact hmv.wf hwf1 (by rw [hprep.entity_count]; exact he) hb
      (by rw [hprep.record]; exact hab)
/-! ## The invariant holds in every reachable world -/

theorem wf_init (cap0 : Nat) : WF ( ecs_world_initialize cap0) := by
  have harch : ( ecs_world_initialize cap0).archetypes =
      [{ component_set := { data := [] }, columns := [], entities := []
         edges := { add_edges := [], remove_edges := [] }, archetype_id := 0 }] := rfl
  have h0 : ( ecs_world_initialize cap0).archetype 0 =
      { component_set := { data := [] }, columns := [], entities := []
        edges := { add_edges := [], remove_edges := [] }, archetype_id := 0 } := rfl
  refine
    { rec_len := rfl
      arch_pos := by rw [harch]; simp
      arch0 := by rw [h0]
      arch_ok := ?_
      rec_arch := fun e he => absurd he (Nat.not_lt_zero e)
      rec_row := fun e he => absurd he (Nat.not_lt_zero e)
      edge_ok := ?_ }
  · intro a ha
    rw [harch] at ha
    simp only [List.length_singleton, Nat.lt_one_iff] at ha
    subst ha
    rw [h0]
    refine ⟨rfl, List.nodup_nil, ?_, rfl, ?_⟩
    · intro c hc; exact absurd hc (List.not_mem_nil c)
    · intro i hi; exact absurd hi (Nat.not_lt_zero i)
  · intro a ha c b hcb
    rw [harch] at ha
    simp only [List.length_singleton, Nat.lt_one_iff] at ha
    subst ha
    rw [h0] at hcb
    simp [entity_archetype_ptr_map_try_get] at hcb

theorem archetype_ok_mono {w w2 : ecs_world}
    (h : ∀ x, registered w x → registered w2 x ∧ w2.stride x = w.stride x)
    (a : entity_archetype) (k : Nat) (hok : archetype_ok w a k) : archetype_ok w2 a k := by
  obtain ⟨h1, h2, h3, h4, h5⟩ := hok
  refine ⟨h1, h2, fun x hx => (h x (h3 x hx)).1, h4, ?_⟩
  intro i hi
  have hmem : a.component_set.data.getD i 0 ∈ a.component_set.data := by
    rw [h4] at hi
    exact List.mem_iff_getElem?.2 ⟨i, getElem?_of_lt_getD _ i 0 hi⟩
  rw [(h _ (h3 _ hmem)).2]
  exact h5 i hi

theorem wf_define (w : ecs_world) (name : String) (stride : Nat) (hwf : WF w) :
    WF ( ecs_world_component_define w name stride).1 := by
  have hmono : ∀ x, registered w x →
      registered ( ecs_world_component_define w name stride).1 x ∧
      ( ecs_world_component_define w name stride).1.stride x = w.stride x := by
    intro x hx
    unfold registered ecs_world_component_define ecs_world.stride darray_push at *
    simp only [List.length_append, List.length_singleton]
    refine ⟨⟨by omega, hx.2⟩, ?_⟩
    rw [List.getD_eq_getElem?_getD, List.getD_eq_getElem?_getD, List.getElem?_append_left hx.1]
  exact
    { rec_len := hwf.rec_len
      arch_pos := hwf.arch_pos
      arch0 := hwf.arch0
      arch_ok := fun a ha => archetype_ok_mono hmono _ _ (hwf.arch_ok a ha)
      rec_arch := hwf.rec_arch
      rec_row := hwf.rec_row
      edge_ok := hwf.edge_ok }

theorem create_archetype (w : ecs_world) (k : Nat) :
    (entity_create w).1.archetype k =
      if 0 = k ∧ 0 < w.archetypes.length then
        { w.archetype k with entities := darray_push (w.archetype k).entities w.entity_count }
      else w.archetype k := by
  unfold entity_create ecs_world.archetype
  exact getD_updAt _ _ _ _ _

theorem create_record_old (w : ecs_world) (e : Nat) (he : e < w.records.length) :
    (entity_create w).1.record e = w.record e := by
  unfold entity_create ecs_world.record
  exact getD_darray_push_lt _ _ _ _ he

theorem create_record_new (w : ecs_world) :
    (entity_create w).1.record w.records.length =
      { index := (w.archetype 0).columns.length, archetype_index := 0 } := by
  unfold entity_create ecs_world.record
  exact getD_darray_push_length _ _ _

theorem create_archetype_core (w : ecs_world) (k : Nat) :
    ((entity_create w).1.archetype k).component_set = (w.archetype k).component_set ∧
    ((entity_create w).1.archetype k).columns = (w.archetype k).columns ∧
    ((entity_create w).1.archetype k).edges = (w.archetype k).edges ∧
    ((entity_create w).1.archetype k).archetype_id = (w.archetype k).archetype_id := by
  rw [create_archetype]
  split <;> exact ⟨rfl, rfl, rfl, rfl⟩

theorem wf_create (w : ecs_world) (hwf : WF w) : WF (entity_create w).1 := by
  have hl : (entity_create w).1.archetypes.length = w.archetypes.length := by
    simp [entity_create, updAt_length]
  have hcount : (entity_create w).1.entity_count = w.entity_count + 1 := rfl
  have hcore := create_archetype_core w
  have hcols0 : (w.archetype 0).columns = [] := by
    have := (hwf.arch_ok 0 hwf.arch_pos).2.2.2.1
    rw [hwf.arch0] at this
    exact List.length_eq_zero.1 this
  refine
    { rec_len := by simp [entity_create, darray_push, hwf.rec_len]
      arch_pos := by rw [hl]; exact hwf.arch_pos
      arch0 := by rw [(hcore 0).1]; exact hwf.arch0
      arch_ok := ?_
      rec_arch := ?_
      rec_row := ?_
      edge_ok := ?_ }
  · intro k hk
    rw [hl] at hk
    have hok := hwf.arch_ok k hk
    have hok2 : archetype_ok w ((entity_create w).1.archetype k) k := by
      rw [create_archetype]
      split
      · rename_i h0
        obtain ⟨h1, h2, h3, h4, h5⟩ := hok
        refine ⟨h1, h2, h3, h4, ?_⟩
        intro i hi
        rw [← h0.1, hcols0] at hi
        exact absurd hi (Nat.not_lt_zero i)
      · exact hok
    exact archetype_ok_congr rfl _ _ hok2
  · intro e he
    rw [hcount] at he
    rw [hl]
    by_cases hlt : e < w.records.length
    · rw [create_record_old w e hlt]
      exact hwf.rec_arch e (by rw [← hwf.rec_len]; exact hlt)
    · have : e = w.records.length := by rw [hwf.rec_len] at hlt ⊢; omega
      rw [this, create_record_new]
      exact hwf.arch_pos
  · intro e he col hcol
    rw [hcount] at he
    by_cases hlt : e < w.records.length
    · rw [create_record_old w e hlt] at hcol ⊢
      rw [(hcore _).2.1] at hcol
      exact hwf.rec_row e (by rw [← hwf.rec_len]; exact hlt) col hcol
    · have : e = w.records.length := by rw [hwf.rec_len] at hlt ⊢; omega
      rw [this, create_record_new] at hcol
      simp only [] at hcol
      rw [(hcore 0).2.1, hcols0] at hcol
      exact absurd hcol (List.not_mem_nil col)
  · intro k hk x y hxy
    rw [hl] at hk ⊢
    rw [(hcore k).2.2.1] at hxy
    rw [(hcore y).1, (hcore k).1]
    exact hwf.edge_ok k hk x y hxy
theorem modify_column_archetype (w : ecs_world) (a i k : Nat) (f : ecs_column → ecs_column) :
    (modify_column w a i f).archetype k =
      if a = k ∧ a < w.archetypes.length then
        { w.archetype k with columns := updAt (w.archetype k).columns i f }
      else w.archetype k := by
  unfold modify_column
  rw [archetype_modify]

theorem modify_column_core (w : ecs_world) (a i k : Nat) (f : ecs_column → ecs_column) :
    ((modify_column w a i f).archetype k).component_set = (w.archetype k).component_set ∧
    ((modify_column w a i f).archetype k).entities = (w.archetype k).entities ∧
    ((modify_column w a i f).archetype k).edges = (w.archetype k).edges ∧
    ((modify_column w a i f).archetype k).archetype_id = (w.archetype k).archetype_id ∧
    ((modify_column w a i f).archetype k).columns.length = (w.archetype k).columns.length := by
  rw [modify_column_archetype]
  split
  · exact ⟨rfl, rfl, rfl, rfl, updAt_length _ _ _⟩
  · exact ⟨rfl, rfl, rfl, rfl, rfl⟩

theorem modify_column_getD (w : ecs_world) (a i k j : Nat) (f : ecs_column → ecs_column) :
    ((modify_column w a i f).archetype k).columns.getD j default =
      (w.archetype k).columns.getD j default ∨
    ((modify_column w a i f).archetype k).columns.getD j default =
      f ((w.archetype k).columns.getD j default) := by
  rw [modify_column_archetype]
  split
  · simp only []
    rw [getD_updAt]
    split
    · exact Or.inr rfl
    · exact Or.inl rfl
  · exact Or.inl rfl

/-- Rewriting one column in place keeps the invariant when the rewrite keeps
columns sound and does not change their capacity. -/
theorem wf_modify_column (w : ecs_world) (a i : Nat) (f : ecs_column → ecs_column)
    (hf : ∀ col s n, column_ok col s n → column_ok (f col) s n)
    (hcap : ∀ col, (f col).capacity = col.capacity) (hwf : WF w) :
    WF (modify_column w a i f) := by
  have hl : (modify_column w a i f).archetypes.length = w.archetypes.length := by
    simp [modify_column]
  have hcore := modify_column_core w a i
  refine
    { rec_len := hwf.rec_len
      arch_pos := by rw [hl]; exact hwf.arch_pos
      arch0 := by rw [(hcore 0 f).1]; exact hwf.arch0
      arch_ok := ?_
      rec_arch := fun e he => by rw [hl]; exact hwf.rec_arch e he
      rec_row := ?_
      edge_ok := ?_ }
  · intro k hk
    rw [hl] at hk
    obtain ⟨h1, h2, h3, h4, h5⟩ := hwf.arch_ok k hk
    obtain ⟨c1, c2, c3, c4, c5⟩ := hcore k f
    refine ⟨by rw [c4]; exact h1, by rw [c1]; exact h2, ?_, by rw [c5, c1]; exact h4, ?_⟩
    · intro x hx; rw [c1] at hx; exact h3 x hx
    · intro j hj
      rw [c5] at hj
      rw [c1, c2]
      have hs : (modify_column w a i f).stride = w.stride := rfl
      rw [hs]
      rcases modify_column_getD w a i k j f with h | h
      · rw [h]; exact h5 j hj
      · rw [h]; exact hf _ _ _ (h5 j hj)
  · intro e he col hcol
    have hr : (modify_column w a i f).record e = w.record e := rfl
    rw [hr] at hcol ⊢
    obtain ⟨j, hj⟩ := List.mem_iff_getElem?.1 hcol
    have hjl : j < (w.archetype (w.record e).archetype_index).columns.length := by
      rw [← (hcore _ f).2.2.2.2]
      exact (List.getElem?_eq_some.1 hj).1
    have hmem : (w.archetype (w.record e).archetype_index).columns.getD j default ∈
        (w.archetype (w.record e).archetype_index).columns :=
      List.mem_iff_getElem?.2 ⟨j, getElem?_of_lt_getD _ j default hjl⟩
    have hold := hwf.rec_row e he _ hmem
    have hcj := getD_of_getElem? _ _ _ default hj
    rcases modify_column_getD w a i (w.record e).archetype_index j f with h | h
    · rw [hcj] at h; rw [h]; exact hold
    · rw [hcj] at h; rw [h, hcap]; exact hold
  · intro k hk x y hxy
    rw [hl] at hk ⊢
    rw [(hcore k f).2.2.1] at hxy
    rw [(hcore y f).1, (hcore k f).1]
    exact hwf.edge_ok k hk x y hxy

theorem set_wf (cap0 : Nat) (w : ecs_world) (e c : Nat) (data : List Nat) (stride : Nat)
    (hwf : WF w) (h0 : 0 < cap0) (he : e < w.entity_count) (hreg : registered w c) :
    WF (entity_set_component cap0 w e c data stride) := by
  unfold entity_set_component
  simp only []
  apply wf_modify_column
  · intro col s n h; exact write_ok col s n _ _ h
  · intro col; rfl
  · split
    · exact add_wf cap0 w e c hwf h0 he hreg
    · exact hwf

theorem reachable_wf (cap0 : Nat) (h0 : 0 < cap0) (w : ecs_world) (h : Reachable cap0 w) :
    WF w := by
  induction h with
  | init => exact wf_init cap0
  | define w name stride _ ih => exact wf_define w name stride ih
  | create w _ ih => exact wf_create w ih
  | add w e c _ he hc ih => exact add_wf cap0 w e c ih h0 he hc
  | set w e c data _ he hc _ ih => exact set_wf cap0 w e c data _ ih h0 he hc
/-! ## Membership after `entity_add_component` -/

theorem record_default (w : ecs_world) (e : Nat) (h : w.records.length ≤ e) :
    w.record e = default := by
  unfold ecs_world.record
  rw [List.getD_eq_getElem?_getD, List.getElem?_eq_none h]
  rfl

theorem record_arch_lt (w : ecs_world) (hwf : WF w) (e : Nat) :
    (w.record e).archetype_index < w.archetypes.length := by
  by_cases he : e < w.entity_count
  · exact hwf.rec_arch e he
  · rw [record_default w e (by rw [hwf.rec_len]; omega)]
    exact hwf.arch_pos

theorem has_eq (w : ecs_world) (e c : Nat) :
    entity_has_component w e c =
      ecs_component_set_contains (w.archetype (w.record e).archetype_index).component_set c :=
  rfl

theorem contains_congr (s1 s2 : ecs_component_set) (c : Nat)
    (h : c ∈ s1.data ↔ c ∈ s2.data) :
    ecs_component_set_contains s1 c = ecs_component_set_contains s2 c := by
  unfold ecs_component_set_contains
  congr 1
  rw [Bool.eq_iff_iff]
  simp only [List.contains_iff_exists_mem_beq, beq_iff_eq, exists_eq_right']
  simpa using h

/-- What `entity_add_component` does to membership when the entity lacks the
component: the entity gains `c` and nothing else changes. -/
theorem add_has_spec (cap0 : Nat) (w : ecs_world) (e c : Nat) (hwf : WF w) (h0 : 0 < cap0)
    (he : e < w.entity_count) (hreg : registered w c)
    (hhas : entity_has_component w e c = false) :
    entity_has_component (entity_add_component cap0 w e c) e c = true ∧
    (∀ c2, c2 ≠ c → entity_has_component (entity_add_component cap0 w e c) e c2 =
      entity_has_component w e c2) ∧
    (∀ e2, e2 ≠ e → ∀ c3, entity_has_component (entity_add_component cap0 w e c) e2 c3 =
      entity_has_component w e2 c3) := by
  obtain ⟨w1, b, hprep, hwf1, hb, hab, hset, hmv⟩ := add_spec cap0 w e c hwf h0 he hreg hhas
  have hel : e < w1.records.length := by rw [hprep.records, hwf.rec_len]; exact he
  have hrec := hmv.record_self hel
  refine ⟨?_, ?_, ?_⟩
  · rw [has_true_iff _ _ _ (registered_ne hreg), hrec]
    simp only []
    rw [hmv.dest_set]
    exact (hset c).2 (Or.inr rfl)
  · intro c2 hc2
    rw [has_eq, has_eq, hrec]
    simp only []
    rw [hmv.dest_set]
    apply contains_congr
    rw [hset c2]
    exact ⟨fun h => h.resolve_right hc2, fun h => Or.inl h⟩
  · intro e2 he2 c3
    rw [has_eq, has_eq, hmv.record_ne e2 he2, hprep.record, hmv.set_eq,
      hprep.old_set _ (record_arch_lt w hwf e2)]
/-! ## The bytes `entity_get_component` resolves to -/

theorem getD_indexOf (l : List Nat) (c : Nat) (h : c ∈ l) : l.getD (l.indexOf c) 0 = c :=
  getD_of_getElem? _ _ _ _ (List.getElem?_indexOf h)

/-- In a sound world the column of a component an entity has, and the bytes the
getter resolves to. -/
theorem get_bytes_eq (w : ecs_world) (e c : Nat) (hwf : WF w)
    (hc : c ∈ (w.archetype (w.record e).archetype_index).component_set.data) :
    column_ok
      ((w.archetype (w.record e).archetype_index).columns.getD
        ((w.archetype (w.record e).archetype_index).component_set.data.indexOf c) default)
      (w.stride c) (w.archetype (w.record e).archetype_index).entities.length ∧
    (w.archetype (w.record e).archetype_index).component_set.data.indexOf c <
      (w.archetype (w.record e).archetype_index).columns.length ∧
    entity_get_component_bytes w e c =
      some (read_bytes
        ((w.archetype (w.record e).archetype_index).columns.getD
          ((w.archetype (w.record e).archetype_index).component_set.data.indexOf c) default).data
        ((w.record e).index * w.stride c) (w.stride c)) := by
  have hok := hwf.arch_ok _ (record_arch_lt w hwf e)
  have hcI : c ≠ INVALID_ID := registered_ne (hok.2.2.1 c hc)
  have hidx : (w.archetype (w.record e).archetype_index).component_set.data.indexOf c <
      (w.archetype (w.record e).archetype_index).columns.length := by
    rw [hok.2.2.2.1]; exact List.indexOf_lt_length.2 hc
  have hcol := hok.2.2.2.2 _ hidx
  rw [getD_indexOf _ _ hc] at hcol
  refine ⟨hcol, hidx, ?_⟩
  have hcont : ecs_component_set_contains
      (w.archetype (w.record e).archetype_index).component_set c = true :=
    (contains_iff _ _).2 ⟨hcI, hc⟩
  unfold entity_get_component_bytes entity_get_component component_bytes
  simp only [hcont, Bool.not_true, Bool.false_eq_true, if_false, Option.map_some',
    get_index_of_mem _ _ hcI hc, hcol.1]
  rfl

/-- The bytes of a component an entity already has are the same before and
after `entity_add_component` gives it another component. -/
theorem add_keeps_bytes (cap0 : Nat) (w : ecs_world) (e c c2 : Nat) (hwf : WF w) (h0 : 0 < cap0)
    (he : e < w.entity_count) (hreg : registered w c)
    (hhas : entity_has_component w e c = false)
    (hhas2 : entity_has_component w e c2 = true) :
    entity_get_component_bytes (entity_add_component cap0 w e c) e c2 =
      entity_get_component_bytes w e c2 ∧
    ∃ v, entity_get_component_bytes w e c2 = some v ∧ v.length = w.stride c2 := by
  have hc2 : c2 ∈ (w.archetype (w.record e).archetype_index).component_set.data :=
    ((contains_iff _ _).1 hhas2).2
  have hc2I : c2 ≠ INVALID_ID := ((contains_iff _ _).1 hhas2).1
  have hcc : c2 ≠ c := by
    intro h; rw [h] at hhas2; rw [hhas] at hhas2; exact absurd hhas2 (by simp)
  obtain ⟨hcolA, hidxA, hbefore⟩ := get_bytes_eq w e c2 hwf hc2
  obtain ⟨w1, b, hprep, hwf1, hb, hab, hset, hmv⟩ := add_spec cap0 w e c hwf h0 he hreg hhas
  have he1 : e < w1.entity_count := by rw [hprep.entity_count]; exact he
  have hel : e < w1.records.length := by rw [hprep.records, hwf.rec_len]; exact he
  have hwf2 : WF (entity_add_component cap0 w e c) :=
    hmv.wf hwf1 he1 hb (by rw [hprep.record]; exact hab)
  have hrec := hmv.record_self hel
  have ha := hwf.rec_arch e he
  have hc2b : c2 ∈ (w1.archetype b).component_set.data := (hset c2).2 (Or.inl hc2)
  -- the source column is in bounds at the row of the record
  have hrow : (w.record e).index <
      ((w.archetype (w.record e).archetype_index).columns.getD
        ((w.archetype (w.record e).archetype_index).component_set.data.indexOf c2)
          default).capacity :=
    hwf.rec_row e he _ (List.mem_iff_getElem?.2 ⟨_, getElem?_of_lt_getD _ _ default hidxA⟩)
  have hsrc : (w.record e).index * w.stride c2 + w.stride c2 ≤
      ((w.archetype (w.record e).archetype_index).columns.getD
        ((w.archetype (w.record e).archetype_index).component_set.data.indexOf c2)
          default).data.length := by
    rw [hcolA.2.1, hcolA.1]
    have : ((w.record e).index + 1) * w.stride c2 ≤
        ((w.archetype (w.record e).archetype_index).columns.getD
          ((w.archetype (w.record e).archetype_index).component_set.data.indexOf c2)
            default).capacity * w.stride c2 := Nat.mul_le_mul_right _ hrow
    rw [Nat.add_mul] at this
    omega
  refine ⟨?_, _, hbefore, read_bytes_length _ _ _ hsrc⟩
  -- the destination column
  have hBok := hwf1.arch_ok b hb
  have hidxB : (w1.archetype b).component_set.data.indexOf c2 < (w1.archetype b).columns.length := by
    rw [hBok.2.2.2.1]; exact List.indexOf_lt_length.2 hc2b
  have hcolB := hBok.2.2.2.2 _ hidxB
  rw [getD_indexOf _ _ hc2b, hprep.stride] at hcolB
  have hdest := hmv.dest_old _ c2 (List.getElem?_indexOf hc2b) hcc
  rw [getElem?_of_lt_getD _ _ default hidxB, Option.map_some', hprep.record,
    hprep.old_columns _ ha, hprep.old_set _ ha, hcolA.1] at hdest
  have hafter := (get_bytes_eq (entity_add_component cap0 w e c) e c2 hwf2
    (by rw [hrec]; simp only []; rw [hmv.dest_set]; exact hc2b)).2.2
  rw [hafter, hbefore, hrec]
  simp only []
  rw [hmv.dest_set, getD_of_getElem? _ _ _ default hdest, hmv.stride_eq, hprep.stride]
  rw [push_read _ _ _ _ _ hcolB hsrc]
theorem add_stride (cap0 : Nat) (w : ecs_world) (e c : Nat) (hwf : WF w) (h0 : 0 < cap0)
    (he : e < w.entity_count) (hreg : registered w c) (x : Nat) :
    (entity_add_component cap0 w e c).stride x = w.stride x := by
  cases hhas : entity_has_component w e c with
  | true =>
    unfold entity_add_component
    rw [if_pos hhas]
  | false =>
    obtain ⟨w1, b, hprep, _, _, _, _, hmv⟩ := add_spec cap0 w e c hwf h0 he hreg hhas
    rw [hmv.stride_eq, hprep.stride]

theorem read_bytes_zero (data : List Nat) : read_bytes data 0 data.length = data := by
  unfold read_bytes
  simp

/-- Writing the bytes of a component an entity has and reading them back. -/
theorem write_get (w : ecs_world) (e c : Nat) (data : List Nat) (hwf : WF w)
    (he : e < w.entity_count) (hhas : entity_has_component w e c = true)
    (hlen : data.length = w.stride c) :
    entity_get_component_bytes
      (modify_column w (w.record e).archetype_index
        (ecs_component_set_get_index (w.archetype (w.record e).archetype_index).component_set c)
        (fun column =>
          { column with
            data := write_bytes column.data ((w.record e).index * w.stride c)
              (read_bytes data 0 (w.stride c)) })) e c = some data := by
  have hc : c ∈ (w.archetype (w.record e).archetype_index).component_set.data :=
    ((contains_iff _ _).1 hhas).2
  have hcI : c ≠ INVALID_ID := ((contains_iff _ _).1 hhas).1
  have ha := hwf.rec_arch e he
  obtain ⟨hcol, hidx, _⟩ := get_bytes_eq w e c hwf hc
  have hrow : (w.record e).index <
      ((w.archetype (w.record e).archetype_index).columns.getD
        ((w.archetype (w.record e).archetype_index).component_set.data.indexOf c)
          default).capacity :=
    hwf.rec_row e he _ (List.mem_iff_getElem?.2 ⟨_, getElem?_of_lt_getD _ _ default hidx⟩)
  have hin : (w.record e).index * w.stride c + data.length ≤
      ((w.archetype (w.record e).archetype_index).columns.getD
        ((w.archetype (w.record e).archetype_index).component_set.data.indexOf c)
          default).data.length := by
    rw [hcol.2.1, hcol.1, hlen]
    have : ((w.record e).index + 1) * w.stride c ≤
        ((w.archetype (w.record e).archetype_index).columns.getD
          ((w.archetype (w.record e).archetype_index).component_set.data.indexOf c)
            default).capacity * w.stride c := Nat.mul_le_mul_right _ hrow
    rw [Nat.add_mul] at this
    omega
  rw [get_index_of_mem _ _ hcI hc, ← hlen, read_bytes_zero]
  have hwf2 := wf_modify_column w (w.record e).archetype_index
    ((w.archetype (w.record e).archetype_index).component_set.data.indexOf c)
    (fun column =>
      { column with
        data := write_bytes column.data ((w.record e).index * data.length) data })
    (fun col s n h => write_ok col s n _ _ h) (fun _ => rfl) hwf
  have hcore := modify_column_core w (w.record e).archetype_index
    ((w.archetype (w.record e).archetype_index).component_set.data.indexOf c)
    (w.record e).archetype_index
    (fun column =>
      { column with
        data := write_bytes column.data ((w.record e).index * data.length) data })
  have hget := (get_bytes_eq _ e c hwf2 (by
    rw [show (modify_column w (w.record e).archetype_index
      ((w.archetype (w.record e).archetype_index).component_set.data.indexOf c)
      (fun column =>
        { column with
          data := write_bytes column.data ((w.record e).index * data.length) data })).record e =
        w.record e from rfl, hcore.1]
    exact hc)).2.2
  rw [hget]
  have hr : (modify_column w (w.record e).archetype_index
      ((w.archetype (w.record e).archetype_index).component_set.data.indexOf c)
      (fun column =>
        { column with
          data := write_bytes column.data ((w.record e).index * data.length) data })).record e =
      w.record e := rfl
  have hs : (modify_column w (w.record e).archetype_index
      ((w.archetype (w.record e).archetype_index).component_set.data.indexOf c)
      (fun column =>
        { column with
          data := write_bytes column.data ((w.record e).index * data.length) data })).stride c =
      w.stride c := rfl
  rw [hr, hs, hcore.1, modify_column_archetype, if_pos ⟨rfl, ha⟩]
  simp only []
  rw [getD_updAt_self _ _ _ _ hidx, ← hlen]
  simp only []
  rw [← hlen] at hin
  rw [read_write_bytes _ _ _ hin]

theorem set_get_spec (cap0 : Nat) (w : ecs_world) (e c : Nat) (data : List Nat) (hwf : WF w)
    (h0 : 0 < cap0) (he : e < w.entity_count) (hreg : registered w c)
    (hlen : data.length = w.stride c) :
    entity_get_component_bytes (entity_set_component cap0 w e c data (w.stride c)) e c =
      some data := by
  unfold entity_set_component
  simp only []
  cases hhas : entity_has_component w e c with
  | true =>
    simp only [Bool.not_true, Bool.false_eq_true, if_false]
    exact write_get w e c data hwf he hhas hlen
  | false =>
    simp only [Bool.not_false, if_true]
    have hwf1 := add_wf cap0 w e c hwf h0 he hreg
    have hs := add_stride cap0 w e c hwf h0 he hreg c
    have hcount : (entity_add_component cap0 w e c).entity_count = w.entity_count := by
      obtain ⟨w1, b, hprep, _, _, _, _, hmv⟩ := add_spec cap0 w e c hwf h0 he hreg hhas
      rw [hmv.entity_count, hprep.entity_count]
    have := write_get (entity_add_component cap0 w e c) e c data hwf1
      (by rw [hcount]; exact he) (add_has_spec cap0 w e c hwf h0 he hreg hhas).1
      (by rw [hs]; exact hlen)
    rw [hs] at this
    exact this
/-! ## Membership along a sequence of calls -/

theorem set_has (cap0 : Nat) (w : ecs_world) (e2 c2 : Nat) (data : List Nat) (stride : Nat)
    (e c : Nat) :
    entity_has_component (entity_set_component cap0 w e2 c2 data stride) e c =
      entity_has_component (entity_add_component cap0 w e2 c2) e c := by
  have hadd : (if (!entity_has_component w e2 c2) = true then entity_add_component cap0 w e2 c2
      else w) = entity_add_component cap0 w e2 c2 := by
    cases hh : entity_has_component w e2 c2 with
    | true =>
      simp only [Bool.not_true, Bool.false_eq_true, if_false]
      unfold entity_add_component
      rw [if_pos hh]
    | false => simp
  unfold entity_set_component
  simp only [hadd]
  rw [has_eq, has_eq]
  rw [show ∀ a i f, (modify_column (entity_add_component cap0 w e2 c2) a i f).record e =
    (entity_add_component cap0 w e2 c2).record e from fun _ _ _ => rfl]
  rw [(modify_column_core _ _ _ _ _).1]

theorem add_has_all (cap0 : Nat) (w : ecs_world) (e2 c2 : Nat) (hwf : WF w) (h0 : 0 < cap0)
    (he2 : e2 < w.entity_count) (hreg : registered w c2) (e c : Nat) :
    entity_has_component (entity_add_component cap0 w e2 c2) e c =
      (entity_has_component w e c || (e2 == e && c2 == c)) := by
  cases hhas : entity_has_component w e2 c2 with
  | true =>
    have : entity_add_component cap0 w e2 c2 = w := by
      unfold entity_add_component; rw [if_pos hhas]
    rw [this]
    by_cases h : e2 = e ∧ c2 = c
    · rw [← h.1, ← h.2, hhas]; simp
    · have : (e2 == e && c2 == c) = false := by
        simpa using h
      rw [this, Bool.or_false]
  | false =>
    obtain ⟨h1, h2, h3⟩ := add_has_spec cap0 w e2 c2 hwf h0 he2 hreg hhas
    by_cases hee : e = e2
    · subst hee
      by_cases hcc : c = c2
      · subst hcc
        rw [h1]; simp
      · rw [h2 c hcc]
        have : (e == e && c2 == c) = false := by
          simp; exact fun h => hcc h.symm
        rw [this, Bool.or_false]
    · rw [h3 e hee c]
      have : (e2 == e && c2 == c) = false := by
        simp; exact fun h => absurd h.symm hee
      rw [this, Bool.or_false]

theorem add_entity_count (cap0 : Nat) (w : ecs_world) (e c : Nat) (hwf : WF w) (h0 : 0 < cap0)
    (he : e < w.entity_count) (hreg : registered w c) :
    (entity_add_component cap0 w e c).entity_count = w.entity_count := by
  cases hhas : entity_has_component w e c with
  | true => unfold entity_add_component; rw [if_pos hhas]
  | false =>
    obtain ⟨w1, b, hprep, _, _, _, _, hmv⟩ := add_spec cap0 w e c hwf h0 he hreg hhas
    rw [hmv.entity_count, hprep.entity_count]

theorem create_has (w : ecs_world) (e c : Nat) (hwf : WF w) (he : e < w.entity_count) :
    entity_has_component (entity_create w).1 e c = entity_has_component w e c := by
  rw [has_eq, has_eq, create_record_old w e (by rw [hwf.rec_len]; exact he),
    (create_archetype_core w _).1]

/-- One valid call keeps the invariant, keeps created entities created, and
changes membership only by what it touches. -/
theorem call_step (cap0 : Nat) (w : ecs_world) (call : ecs_call) (hwf : WF w) (h0 : 0 < cap0)
    (hok : call.ok w) (e c : Nat) (he : e < w.entity_count) :
    WF (call.apply cap0 w) ∧ e < (call.apply cap0 w).entity_count ∧
    entity_has_component (call.apply cap0 w) e c =
      (entity_has_component w e c || call.touches e c) := by
  cases call with
  | component_define name stride =>
    exact ⟨wf_define w name stride hwf, he, by simp [ecs_call.touches]; rfl⟩
  | create =>
    refine ⟨wf_create w hwf, Nat.lt_succ_of_lt he, ?_⟩
    simp only [ecs_call.apply, ecs_call.touches, Bool.or_false]
    exact create_has w e c hwf he
  | add e2 c2 =>
    obtain ⟨he2, hreg⟩ := hok
    refine ⟨add_wf cap0 w e2 c2 hwf h0 he2 hreg, ?_, ?_⟩
    · simp only [ecs_call.apply]
      rw [add_entity_count cap0 w e2 c2 hwf h0 he2 hreg]; exact he
    · exact add_has_all cap0 w e2 c2 hwf h0 he2 hreg e c
  | set e2 c2 data stride =>
    obtain ⟨he2, hreg, hs, hl⟩ := hok
    refine ⟨set_wf cap0 w e2 c2 data stride hwf h0 he2 hreg, ?_, ?_⟩
    · simp only [ecs_call.apply]
      have : (entity_set_component cap0 w e2 c2 data stride).entity_count =
          (if (!entity_has_component w e2 c2) = true then entity_add_component cap0 w e2 c2
            else w).entity_count := rfl
      rw [this]
      split
      · rw [add_entity_count cap0 w e2 c2 hwf h0 he2 hreg]; exact he
      · exact he
    · simp only [ecs_call.apply, ecs_call.touches]
      rw [set_has]
      exact add_has_all cap0 w e2 c2 hwf h0 he2 hreg e c

theorem run_calls_has (cap0 : Nat) (h0 : 0 < cap0) (e c : Nat) (calls : List ecs_call) :
    ∀ w : ecs_world, WF w → calls_ok cap0 w calls → e < w.entity_count →
      WF (run_calls cap0 w calls) ∧
      (entity_has_component (run_calls cap0 w calls) e c = true ↔
        (entity_has_component w e c = true ∨ ∃ call ∈ calls, call.touches e c = true)) := by
  induction calls with
  | nil =>
    intro w hwf _ _
    exact ⟨hwf, by simp [run_calls]⟩
  | cons call rest ih =>
    intro w hwf hok he
    obtain ⟨hwf1, he1, hhas1⟩ := call_step cap0 w call hwf h0 hok.1 e c he
    obtain ⟨hwf2, hiff⟩ := ih (call.apply cap0 w) hwf1 hok.2 he1
    refine ⟨hwf2, ?_⟩
    have : run_calls cap0 w (call :: rest) = run_calls cap0 (call.apply cap0 w) rest := rfl
    rw [this, hiff, hhas1]
    simp only [Bool.or_eq_true, List.mem_cons, exists_eq_or_imp]
    tauto
/-! ## The concrete worlds are reachable -/

theorem demo3_reachable : Reachable 4 demo3 :=
  Reachable.define _ "flag" 1
    (Reachable.define _ "marker" 1 (Reachable.define _ "counter" 4 Reachable.init))

theorem demo4_reachable : Reachable 4 demo4 := Reachable.create _ demo3_reachable

theorem demo5_reachable : Reachable 4 demo5 :=
  Reachable.set demo4 0 1 [2, 0, 0, 0] demo4_reachable (by decide) (by decide) (by decide)

theorem two_created_reachable : Reachable 4 two_created := Reachable.create _ demo4_reachable

theorem pair_in_marker_reachable : Reachable 4 pair_in_marker :=
  Reachable.set _ 1 2 [11]
    (Reachable.create _
      (Reachable.set demo4 0 2 [10] demo4_reachable (by decide) (by decide) (by decide)))
    (by decide) (by decide) (by decide)

theorem three_before_reachable : Reachable 4 three_before :=
  Reachable.set _ 2 2 [12]
    (Reachable.create _
      (Reachable.add _ 0 1
        (Reachable.add _ 1 3
          (Reachable.set _ 1 2 [11]
            (Reachable.create _
              (Reachable.set _ 0 3 [20]
                (Reachable.set demo4 0 2 [10] demo4_reachable (by decide) (by decide)
                  (by decide))
                (by decide) (by decide) (by decide)))
            (by decide) (by decide) (by decide))
          (by decide) (by decide))
        (by decide) (by decide)))
    (by decide) (by decide) (by decide)

/-! ## Every archetype lists as many entities as records name it

The swap-removes of a transition therefore never meet an empty array. -/

theorem updAt_cons_zero {α : Type} (x : α) (xs : List α) (f : α → α) :
    updAt (x :: xs) 0 f = f x :: xs := by
  unfold updAt; simp

theorem updAt_cons_succ {α : Type} (x : α) (xs : List α) (i : Nat) (f : α → α) :
    updAt (x :: xs) (i + 1) f = x :: updAt xs i f := by
  unfold updAt
  simp only [List.getElem?_cons_succ]
  cases xs[i]? <;> rfl

theorem countP_updAt {α : Type} (p : α → Bool) (f : α → α) (d : α) (l : List α) :
    ∀ i, i < l.length →
      (updAt l i f).countP p + (if p (l.getD i d) then 1 else 0) =
        l.countP p + (if p (f (l.getD i d)) then 1 else 0) := by
  induction l with
  | nil => intro i hi; exact absurd hi (Nat.not_lt_zero i)
  | cons x xs ih =>
    intro i hi
    cases i with
    | zero =>
      rw [updAt_cons_zero]
      simp only [List.getD_cons_zero, List.countP_cons]
      omega
    | succ j =>
      rw [updAt_cons_succ]
      simp only [List.getD_cons_succ, List.countP_cons]
      have := ih j (Nat.lt_of_succ_lt_succ hi)
      omega

theorem counted_init (cap0 a : Nat) :
    records_naming ( ecs_world_initialize cap0) a =
      (( ecs_world_initialize cap0).archetype a).entities.length := by
  have hrec : ( ecs_world_initialize cap0).records = [] := rfl
  have harch : ( ecs_world_initialize cap0).archetypes =
      [{ component_set := { data := [] }, columns := [], entities := []
         edges := { add_edges := [], remove_edges := [] }, archetype_id := 0 }] := rfl
  unfold records_naming
  rw [hrec, archetype_eq, harch]
  cases a with
  | zero => rfl
  | succ n => rfl

theorem counted_create (w : ecs_world) (a : Nat) (hwf : WF w)
    (h : records_naming w a = (w.archetype a).entities.length) :
    records_naming (entity_create w).1 a = ((entity_create w).1.archetype a).entities.length := by
  have hrec : (entity_create w).1.records =
      w.records ++ [{ index := (w.archetype 0).columns.length, archetype_index := 0 }] := rfl
  unfold records_naming at *
  rw [hrec, List.countP_append, create_archetype]
  by_cases h0 : 0 = a
  · subst h0
    rw [if_pos ⟨rfl, hwf.arch_pos⟩]
    simp only [darray_push_length]
    rw [h]
    rfl
  · rw [if_neg (fun hh => h0 hh.1), h]
    have : (0 == a) = false := by simpa using h0
    simp [List.countP_cons, this]

theorem counted_prepared {w w1 : ecs_world} (hprep : Prepared w w1) (a : Nat)
    (h : records_naming w a = (w.archetype a).entities.length) :
    records_naming w1 a = (w1.archetype a).entities.length := by
  have hr : records_naming w1 a = records_naming w a := by
    unfold records_naming; rw [hprep.records]
  rw [hr, h]
  by_cases ha : a < w.archetypes.length
  · rw [hprep.old_entities a ha]
  · rw [archetype_default w a (Nat.le_of_not_lt ha)]
    by_cases ha1 : a < w1.archetypes.length
    · rw [hprep.fresh a (Nat.le_of_not_lt ha) ha1]; rfl
    · rw [archetype_default w1 a (Nat.le_of_not_lt ha1)]

theorem counted_moved {w w2 : ecs_world} {e b c : Nat} (hmv : Moved w w2 e b c)
    (hel : e < w.records.length) (hab : (w.record e).archetype_index ≠ b) (a : Nat)
    (h : records_naming w a = (w.archetype a).entities.length) :
    records_naming w2 a = (w2.archetype a).entities.length := by
  have hcount := countP_updAt (fun r : entity_record => r.archetype_index == a)
    (fun _ => { index := (w.archetype b).entities.length, archetype_index := b }) default
    w.records e hel
  have hrn : records_naming w2 a = (updAt w.records e
      (fun _ => { index := (w.archetype b).entities.length, archetype_index := b })).countP
      (fun r => r.archetype_index == a) := by
    unfold records_naming; rw [hmv.records]
  have hold : w.records.getD e default = w.record e := rfl
  rw [hold] at hcount
  simp only [beq_iff_eq] at hcount
  unfold records_naming at h
  by_cases hb : a = b
  · subst hb
    rw [hrn, hmv.dest_entities, darray_push_length]
    rw [if_neg hab, if_pos rfl] at hcount
    omega
  · by_cases ha : a = (w.record e).archetype_index
    · subst ha
      rw [hrn, hmv.source]
      simp only [darray_pop_length]
      rw [if_pos rfl, if_neg (fun hh => hb hh.symm)] at hcount
      omega
    · rw [hrn, hmv.other a ha hb]
      rw [if_neg (fun hh => ha hh.symm), if_neg (fun hh => hb hh.symm)] at hcount
      omega

theorem counted_add (cap0 : Nat) (w : ecs_world) (e c : Nat) (hwf : WF w) (h0 : 0 < cap0)
    (he : e < w.entity_count) (hreg : registered w c)
    (h : ∀ a, records_naming w a = (w.archetype a).entities.length) (a : Nat) :
    records_naming (entity_add_component cap0 w e c) a =
      ((entity_add_component cap0 w e c).archetype a).entities.length := by
  cases hhas : entity_has_component w e c with
  | true =>
    have : entity_add_component cap0 w e c = w := by
      unfold entity_add_component; rw [if_pos hhas]
    rw [this]; exact h a
  | false =>
    obtain ⟨w1, b, hprep, _, _, hab, _, hmv⟩ := add_spec cap0 w e c hwf h0 he hreg hhas
    exact counted_moved hmv (by rw [hprep.records, hwf.rec_len]; exact he)
      (by rw [hprep.record]; exact hab) a (counted_prepared hprep a (h a))

theorem counted_modify_column (w : ecs_world) (k i : Nat) (f : ecs_column → ecs_column) (a : Nat)
    (h : records_naming w a = (w.archetype a).entities.length) :
    records_naming (modify_column w k i f) a =
      ((modify_column w k i f).archetype a).entities.length := by
  rw [(modify_column_core w k i a f).2.1, ← h]
  rfl

/-- In every reachable world each archetype lists as many entities as there are
records naming it. -/
theorem reachable_counted (cap0 : Nat) (h0 : 0 < cap0) (w : ecs_world) (hr : Reachable cap0 w) :
    ∀ a, records_naming w a = (w.archetype a).entities.length := by
  induction hr with
  | init => exact counted_init cap0
  | define w name stride _ ih => exact ih
  | create w hr ih => exact fun a => counted_create w a (reachable_wf cap0 h0 w hr) (ih a)
  | add w e c hr he hc ih =>
    exact counted_add cap0 w e c (reachable_wf cap0 h0 w hr) h0 he hc ih
  | set w e c data hr he hc _ ih =>
    intro a
    unfold entity_set_component
    simp only []
    apply counted_modify_column
    split
    · exact counted_add cap0 w e c (reachable_wf cap0 h0 w hr) h0 he hc ih a
    · exact ih a

/-- In every reachable world the archetype a created entity's record names lists at
least one entity, and each of its columns holds at least one row: the swap-removes
of a transition never decrement a zero count. -/
theorem source_nonempty (cap0 : Nat) (h0 : 0 < cap0) (w : ecs_world) (hr : Reachable cap0 w)
    (e : Nat) (he : e < w.entity_count) :
    0 < (w.archetype (w.record e).archetype_index).entities.length ∧
    ∀ col ∈ (w.archetype (w.record e).archetype_index).columns, 0 < col.count := by
  have hwf := reachable_wf cap0 h0 w hr
  have hpos : 0 < (w.archetype (w.record e).archetype_index).entities.length := by
    rw [← reachable_counted cap0 h0 w hr]
    unfold records_naming
    rw [List.countP_pos_iff]
    refine ⟨w.record e, ?_, by simp⟩
    unfold ecs_world.record
    rw [List.getD_eq_getElem?_getD,
      List.getElem?_eq_getElem (by rw [hwf.rec_len]; exact he)]
    exact List.getElem_mem _
  refine ⟨hpos, ?_⟩
  intro col hcol
  obtain ⟨i, hi⟩ := List.mem_iff_getElem?.1 hcol
  have hok := hwf.arch_ok _ (hwf.rec_arch e he)
  have := hok.2.2.2.2 i (List.getElem?_eq_some.1 hi).1
  rw [getD_of_getElem? _ _ _ default hi] at this
  rw [this.2.2.2]
  exact hpos
/-! ## What no call but `entity_create` and `ecs_world_component_define` changes -/

theorem transition_fold_frame (a b row : Nat) (xs : List Nat) :
    ∀ w : ecs_world,
      (xs.foldl (entity_transition_step a b row) w).entity_count = w.entity_count ∧
      (xs.foldl (entity_transition_step a b row) w).components = w.components ∧
      (xs.foldl (entity_transition_step a b row) w).queries = w.queries ∧
      (xs.foldl (entity_transition_step a b row) w).systems = w.systems ∧
      (xs.foldl (entity_transition_step a b row) w).records = w.records := by
  induction xs with
  | nil => intro w; exact ⟨rfl, rfl, rfl, rfl, rfl⟩
  | cons x rest ih =>
    intro w
    rw [List.foldl_cons]
    obtain ⟨h1, h2, h3, h4, h5⟩ := ih (entity_transition_step a b row w x)
    rw [h1, h2, h3, h4, h5]
    unfold entity_transition_step
    split <;> exact ⟨rfl, rfl, rfl, rfl, rfl⟩

theorem transition_frame (w : ecs_world) (e b : Nat) :
    (entity_transition_archetype w e b).entity_count = w.entity_count ∧
    (entity_transition_archetype w e b).components = w.components ∧
    (entity_transition_archetype w e b).queries = w.queries ∧
    (entity_transition_archetype w e b).systems = w.systems := by
  unfold entity_transition_archetype
  simp only []
  obtain ⟨h1, h2, h3, h4, _⟩ := transition_fold_frame (w.record e).archetype_index b
    (w.record e).index
    ((modify_archetype
      (modify_archetype w (w.record e).archetype_index
        (fun a => { a with entities := darray_pop a.entities (w.record e).index }))
      b (fun a => { a with entities := darray_push a.entities e })).archetype
        (w.record e).archetype_index).component_set.data
    (modify_archetype
      (modify_archetype w (w.record e).archetype_index
        (fun a => { a with entities := darray_pop a.entities (w.record e).index }))
      b (fun a => { a with entities := darray_push a.entities e }))
  exact ⟨h1, h2, h3, h4⟩

theorem registry_updAt (cs : List ecs_component) (c : Nat) (l : List Nat → List Nat) :
    (updAt cs c (fun m => { m with archetypes := l m.archetypes })).map
      (fun m => (m.name, m.stride)) = cs.map (fun m => (m.name, m.stride)) := by
  apply List.ext_getElem?
  intro k
  rw [List.getElem?_map, List.getElem?_map, getElem?_updAt]
  split
  · cases cs[k]? <;> rfl
  · rfl

theorem registry_fold (id : Nat) (l : List Nat) :
    ∀ cs : List ecs_component,
      (l.foldl (fun cs c => updAt cs c
        (fun m => { m with archetypes := darray_push m.archetypes id })) cs).map
        (fun m => (m.name, m.stride)) = cs.map (fun m => (m.name, m.stride)) := by
  induction l with
  | nil => intro cs; rfl
  | cons x rest ih =>
    intro cs
    rw [List.foldl_cons, ih]
    exact registry_updAt cs x (fun a => darray_push a id)

theorem select_frame (cap0 : Nat) (w : ecs_world) (a c : Nat) :
    (select_archetype cap0 w a c).1.entity_count = w.entity_count ∧
    (select_archetype cap0 w a c).1.registry = w.registry ∧
    (select_archetype cap0 w a c).1.systems = w.systems := by
  unfold select_archetype
  split
  · exact ⟨rfl, rfl, rfl⟩
  · refine ⟨rfl, ?_, rfl⟩
    unfold ecs_world.registry entity_archetype_match_queryies entity_archetype_create_from_base
      entity_archetype_create
    exact registry_fold _ _ _

theorem reserve_frame (w : ecs_world) (b c : Nat) :
    (entity_add_component_reserve w b c).entity_count = w.entity_count ∧
    (entity_add_component_reserve w b c).components = w.components ∧
    (entity_add_component_reserve w b c).queries = w.queries ∧
    (entity_add_component_reserve w b c).systems = w.systems ∧
    (entity_add_component_reserve w b c).records = w.records :=
  ⟨rfl, rfl, rfl, rfl, rfl⟩

theorem install_frame (w : ecs_world) (a c b : Nat) :
    (install_edges w a c b).entity_count = w.entity_count ∧
    (install_edges w a c b).components = w.components ∧
    (install_edges w a c b).queries = w.queries ∧
    (install_edges w a c b).systems = w.systems ∧
    (install_edges w a c b).records = w.records :=
  ⟨rfl, rfl, rfl, rfl, rfl⟩

theorem move_frame (w : ecs_world) (e b c : Nat) :
    (entity_add_component_reserve (entity_transition_archetype w e b) b c).entity_count =
      w.entity_count ∧
    (entity_add_component_reserve (entity_transition_archetype w e b) b c).registry =
      w.registry ∧
    (entity_add_component_reserve (entity_transition_archetype w e b) b c).systems =
      w.systems := by
  obtain ⟨r1, r2, _, r4, _⟩ := reserve_frame (entity_transition_archetype w e b) b c
  obtain ⟨h1, h2, _, h4⟩ := transition_frame w e b
  refine ⟨r1.trans h1, ?_, r4.trans h4⟩
  unfold ecs_world.registry
  rw [r2, h2]

theorem add_frame (cap0 : Nat) (w : ecs_world) (e c : Nat) :
    (entity_add_component cap0 w e c).entity_count = w.entity_count ∧
    (entity_add_component cap0 w e c).registry = w.registry ∧
    (entity_add_component cap0 w e c).systems = w.systems := by
  cases hhas : entity_has_component w e c with
  | true =>
    have : entity_add_component cap0 w e c = w := by
      unfold entity_add_component; rw [if_pos hhas]
    rw [this]; exact ⟨rfl, rfl, rfl⟩
  | false =>
    cases hedge : entity_archetype_ptr_map_try_get
        (w.archetype (w.record e).archetype_index).edges.add_edges c with
    | some b =>
      rw [add_fast_eq cap0 w e c b hhas hedge]
      exact move_frame w e b c
    | none =>
      rw [add_slow_eq cap0 w e c hhas hedge]
      obtain ⟨s1, s2, s3⟩ := select_frame cap0 w (w.record e).archetype_index c
      generalize select_archetype cap0 w (w.record e).archetype_index c = s at s1 s2 s3
      obtain ⟨m1, m2, m3⟩ := move_frame
        (install_edges s.1 (w.record e).archetype_index c s.2) e s.2 c
      obtain ⟨i1, i2, _, i4, _⟩ := install_frame s.1 (w.record e).archetype_index c s.2
      rw [m1, m2, m3, i1, i4]
      refine ⟨s1, ?_, s3⟩
      rw [← s2]
      unfold ecs_world.registry
      rw [i2]

theorem set_frame (cap0 : Nat) (w : ecs_world) (e c : Nat) (data : List Nat) (stride : Nat) :
    (entity_set_component cap0 w e c data stride).entity_count = w.entity_count ∧
    (entity_set_component cap0 w e c data stride).registry = w.registry ∧
    (entity_set_component cap0 w e c data stride).systems = w.systems := by
  have h : ∀ w1 : ecs_world, ∀ a i f,
      (modify_column w1 a i f).entity_count = w1.entity_count ∧
      (modify_column w1 a i f).registry = w1.registry ∧
      (modify_column w1 a i f).systems = w1.systems := fun _ _ _ _ => ⟨rfl, rfl, rfl⟩
  unfold entity_set_component
  simp only []
  split
  · obtain ⟨a1, a2, a3⟩ := add_frame cap0 w e c
    obtain ⟨m1, m2, m3⟩ := h (entity_add_component cap0 w e c)
      ((entity_add_component cap0 w e c).record e).archetype_index
      (ecs_component_set_get_index ((entity_add_component cap0 w e c).archetype
        ((entity_add_component cap0 w e c).record e).archetype_index).component_set c)
      (fun column =>
        { column with
          data := write_bytes column.data (((entity_add_component cap0 w e c).record e).index *
            stride) (read_bytes data 0 stride) })
    exact ⟨m1.trans a1, m2.trans a2, m3.trans a3⟩
  · exact ⟨rfl, rfl, rfl⟩

/-- The entity count and the registry after a sequence of calls: one entity per
`entity_create`, one component per `ecs_world_component_define`, in order. -/
theorem run_calls_frame (cap0 : Nat) (calls : List ecs_call) :
    ∀ w : ecs_world,
      (run_calls cap0 w calls).entity_count = w.entity_count + calls.countP ecs_call.creates ∧
      (run_calls cap0 w calls).registry = w.registry ++ calls.filterMap ecs_call.defined ∧
      (run_calls cap0 w calls).systems = w.systems := by
  induction calls with
  | nil => intro w; simp [run_calls]
  | cons call rest ih =>
    intro w
    have hrun : run_calls cap0 w (call :: rest) = run_calls cap0 (call.apply cap0 w) rest := rfl
    obtain ⟨h1, h2, h3⟩ := ih (call.apply cap0 w)
    rw [hrun, h1, h2, h3]
    cases call with
    | component_define name stride =>
      refine ⟨by simp [ecs_call.apply, ecs_call.creates, ecs_world_component_define], ?_, rfl⟩
      simp [ecs_call.apply, ecs_call.defined, ecs_world_component_define, ecs_world.registry,
        darray_push]
    | create =>
      refine ⟨?_, by simp [ecs_call.apply, ecs_call.defined, entity_create, ecs_world.registry],
        rfl⟩
      simp [ecs_call.apply, ecs_call.creates, entity_create]
      omega
    | add e c =>
      obtain ⟨a1, a2, a3⟩ := add_frame cap0 w e c
      simp only [ecs_call.apply, ecs_call.creates, ecs_call.defined, a1, a2, a3,
        List.countP_cons, List.filterMap_cons]
      simp
    | set e c data stride =>
      obtain ⟨a1, a2, a3⟩ := set_frame cap0 w e c data stride
      simp only [ecs_call.apply, ecs_call.creates, ecs_call.defined, a1, a2, a3,
        List.countP_cons, List.filterMap_cons]
      simp
/-! ## Archetypes are unique per component set -/

theorem unique_transfer {w w2 : ecs_world} (hlen : w2.archetypes.length = w.archetypes.length)
    (hset : ∀ k, (w2.archetype k).component_set = (w.archetype k).component_set)
    (h : archetypes_unique w) : archetypes_unique w2 := by
  intro a b ha hb hab
  rw [hlen] at ha hb
  rw [hset a, hset b] at hab
  exact h a b ha hb hab

theorem complete_transfer {w w2 : ecs_world} (hlen : w2.archetypes.length = w.archetypes.length)
    (hset : ∀ k, (w2.archetype k).component_set = (w.archetype k).component_set)
    (hcomp : w2.components = w.components)
    (h : registry_complete w) : registry_complete w2 := by
  intro a ha c hc
  rw [hlen] at ha
  rw [hset a] at hc
  rw [hcomp]
  exact h a ha c hc

theorem register_fold_mem (id : Nat) (l : List Nat) :
    ∀ cs : List ecs_component,
      (∀ c a, a ∈ (cs.getD c default).archetypes →
        a ∈ ((l.foldl (fun cs c => updAt cs c
          (fun m => { m with archetypes := darray_push m.archetypes id })) cs).getD c
            default).archetypes) ∧
      (∀ x ∈ l, x < cs.length →
        id ∈ ((l.foldl (fun cs c => updAt cs c
          (fun m => { m with archetypes := darray_push m.archetypes id })) cs).getD x
            default).archetypes) := by
  induction l with
  | nil =>
    intro cs
    exact ⟨fun _ _ h => h, fun x hx => absurd hx (List.not_mem_nil x)⟩
  | cons y rest ih =>
    intro cs
    rw [List.foldl_cons]
    obtain ⟨h1, h2⟩ := ih (updAt cs y
      (fun m => { m with archetypes := darray_push m.archetypes id }))
    have hstep : ∀ c a, a ∈ (cs.getD c default).archetypes →
        a ∈ ((updAt cs y (fun m => { m with archetypes := darray_push m.archetypes id })).getD c
          default).archetypes := by
      intro c a ha
      rw [getD_updAt]
      split
      · rename_i hy
        simp only [darray_push, List.mem_append]
        exact Or.inl ha
      · exact ha
    refine ⟨fun c a ha => h1 c a (hstep c a ha), ?_⟩
    intro x hx hxl
    rcases List.mem_cons.1 hx with hxy | hxr
    · subst hxy
      apply h1
      rw [getD_updAt_self _ _ _ _ hxl]
      simp [darray_push]
    · exact h2 x hxr (by rw [updAt_length]; exact hxl)

theorem wf_registered (w : ecs_world) (hwf : WF w) (a : Nat) (ha : a < w.archetypes.length)
    (c : Nat) (hc : c ∈ (w.archetype a).component_set.data) : registered w c :=
  (hwf.arch_ok a ha).2.2.1 c hc

theorem unique_init (cap0 : Nat) :
    archetypes_unique ( ecs_world_initialize cap0) ∧
    registry_complete ( ecs_world_initialize cap0) := by
  have harch : ( ecs_world_initialize cap0).archetypes =
      [{ component_set := { data := [] }, columns := [], entities := []
         edges := { add_edges := [], remove_edges := [] }, archetype_id := 0 }] := rfl
  have h0 : ( ecs_world_initialize cap0).archetype 0 =
      { component_set := { data := [] }, columns := [], entities := []
        edges := { add_edges := [], remove_edges := [] }, archetype_id := 0 } := rfl
  constructor
  · intro a b ha hb _
    rw [harch] at ha hb
    simp only [List.length_singleton, Nat.lt_one_iff] at ha hb
    rw [ha, hb]
  · intro a ha c hc
    rw [harch] at ha
    simp only [List.length_singleton, Nat.lt_one_iff] at ha
    subst ha
    rw [h0] at hc
    exact absurd hc (List.not_mem_nil c)

theorem unique_define (w : ecs_world) (name : String) (stride : Nat) (hwf : WF w)
    (hU : archetypes_unique w) (hR : registry_complete w) :
    archetypes_unique ( ecs_world_component_define w name stride).1 ∧
    registry_complete ( ecs_world_component_define w name stride).1 := by
  constructor
  · exact hU
  · intro a ha c hc
    have hreg := wf_registered w hwf a ha c hc
    have : (( ecs_world_component_define w name stride).1.components.getD c default) =
        w.components.getD c default := by
      unfold ecs_world_component_define darray_push
      simp only []
      rw [List.getD_eq_getElem?_getD, List.getD_eq_getElem?_getD,
        List.getElem?_append_left hreg.1]
    rw [this]
    exact hR a ha c hc

theorem unique_create (w : ecs_world) (hU : archetypes_unique w) (hR : registry_complete w) :
    archetypes_unique (entity_create w).1 ∧ registry_complete (entity_create w).1 := by
  have hl : (entity_create w).1.archetypes.length = w.archetypes.length := by
    simp [entity_create, updAt_length]
  exact ⟨unique_transfer hl (fun k => (create_archetype_core w k).1) hU,
    complete_transfer hl (fun k => (create_archetype_core w k).1) rfl hR⟩

theorem unique_modify_column (w : ecs_world) (a i : Nat) (f : ecs_column → ecs_column)
    (hU : archetypes_unique w) (hR : registry_complete w) :
    archetypes_unique (modify_column w a i f) ∧ registry_complete (modify_column w a i f) := by
  have hl : (modify_column w a i f).archetypes.length = w.archetypes.length := by
    simp [modify_column]
  exact ⟨unique_transfer hl (fun k => (modify_column_core w a i k f).1) hU,
    complete_transfer hl (fun k => (modify_column_core w a i k f).1) rfl hR⟩

theorem unique_install (w : ecs_world) (a c b : Nat)
    (hU : archetypes_unique w) (hR : registry_complete w) :
    archetypes_unique (install_edges w a c b) ∧ registry_complete (install_edges w a c b) := by
  have hl : (install_edges w a c b).archetypes.length = w.archetypes.length := by
    simp [install_edges]
  exact ⟨unique_transfer hl (fun k => (install_archetype w a c b k).1) hU,
    complete_transfer hl (fun k => (install_archetype w a c b k).1) rfl hR⟩

theorem unique_moved {w w2 : ecs_world} {e b c : Nat} (hmv : Moved w w2 e b c)
    (hU : archetypes_unique w) (hR : registry_complete w) :
    archetypes_unique w2 ∧ registry_complete w2 :=
  ⟨unique_transfer hmv.length hmv.set_eq hU,
    complete_transfer hmv.length hmv.set_eq hmv.components hR⟩
theorem create_components (cap0 : Nat) (w : ecs_world) (a c : Nat) (hwf : WF w)
    (ha : a < w.archetypes.length) (hc : c ∉ (w.archetype a).component_set.data)
    (hcI : c ≠ INVALID_ID) :
    (entity_archetype_match_queryies (entity_archetype_create_from_base cap0 w a [c]).2
      (entity_archetype_create_from_base cap0 w a [c]).1).components =
      ((w.archetype a).component_set.data ++ [c]).foldl
        (fun cs x => updAt cs x
          (fun m => { m with archetypes := darray_push m.archetypes w.archetypes.length }))
        w.components := by
  have hAok := hwf.arch_ok a ha
  have hfilter : (w.archetype a).component_set.data.filter (fun x => x != INVALID_ID) =
      (w.archetype a).component_set.data := by
    rw [List.filter_eq_self]
    intro x hx
    simpa using registered_ne (hAok.2.2.1 x hx)
  have hset : (((w.archetype a).component_set.data.filter (fun x => x != INVALID_ID)) ++ [c]).foldl
      ecs_component_set_insert { data := [] } =
      { data := (w.archetype a).component_set.data ++ [c] } := by
    rw [hfilter]
    have := foldl_insert_eq ((w.archetype a).component_set.data ++ [c]) []
      (by
        simp only [List.nil_append]
        exact List.nodup_append.2 ⟨hAok.2.1, List.nodup_singleton c, by
          intro x hx hx2
          rw [List.mem_singleton] at hx2
          subst hx2
          exact hc hx⟩)
      (by
        intro x hx
        rcases List.mem_append.1 hx with h | h
        · exact registered_ne (hAok.2.2.1 x h)
        · rw [List.mem_singleton] at h; rw [h]; exact hcI)
    simpa using this
  unfold entity_archetype_match_queryies entity_archetype_create_from_base entity_archetype_create
  simp only [hset]

/-- An archetype that holds exactly the components of `a` and `c` passes the test
of the search. -/
theorem candidate_complete (w : ecs_world) (a c k : Nat) (hwf : WF w)
    (ha : a < w.archetypes.length) (hk : k < w.archetypes.length)
    (hc : c ∉ (w.archetype a).component_set.data) (hcI : c ≠ INVALID_ID)
    (hset : ∀ x, x ∈ (w.archetype k).component_set.data ↔
      (x ∈ (w.archetype a).component_set.data ∨ x = c)) :
    entity_add_component_candidate w a c k = true := by
  have hAok := hwf.arch_ok a ha
  have hKok := hwf.arch_ok k hk
  have hperm : (w.archetype k).component_set.data.Perm (c :: (w.archetype a).component_set.data) := by
    rw [List.perm_ext_iff_of_nodup hKok.2.1 (List.nodup_cons.2 ⟨hc, hAok.2.1⟩)]
    intro x
    rw [hset x, List.mem_cons]
    tauto
  have hlen := hperm.length_eq
  have hck : ecs_component_set_contains (w.archetype k).component_set c = true :=
    (contains_iff _ _).2 ⟨hcI, (hset c).2 (Or.inr rfl)⟩
  unfold entity_add_component_candidate
  simp only []
  rw [archetype_ok_count hAok, archetype_ok_count hKok, hlen, hck]
  simp only [List.length_cons, bne_self_eq_false, Bool.not_true, Bool.or_self,
    Bool.false_eq_true, if_false]
  split
  · rfl
  · rw [List.all_eq_true]
    intro x hx
    simp only [Bool.or_eq_true, beq_iff_eq]
    exact Or.inr ((contains_iff _ _).2
      ⟨registered_ne (hAok.2.2.1 x hx), (hset x).2 (Or.inl hx)⟩)

theorem select_unique (cap0 : Nat) (w : ecs_world) (a c : Nat) (hwf : WF w)
    (ha : a < w.archetypes.length) (hc : c ∉ (w.archetype a).component_set.data)
    (hreg : registered w c) (hU : archetypes_unique w) (hR : registry_complete w) :
    archetypes_unique (select_archetype cap0 w a c).1 ∧
    registry_complete (select_archetype cap0 w a c).1 := by
  unfold select_archetype
  cases hf : (w.components.getD c default).archetypes.find?
      (entity_add_component_candidate w a c) with
  | some b => exact ⟨hU, hR⟩
  | none =>
    simp only []
    have hAok := hwf.arch_ok a ha
    have hcI := registered_ne hreg
    obtain ⟨_, h2, _, _, _, _⟩ := create_spec cap0 w a c hwf ha hc hcI
    have hcomp := create_components cap0 w a c hwf ha hc hcI
    generalize entity_archetype_match_queryies (entity_archetype_create_from_base cap0 w a [c]).2
      (entity_archetype_create_from_base cap0 w a [c]).1 = w1 at h2 hcomp
    have hold : ∀ k, k < w.archetypes.length → w1.archetype k = w.archetype k := by
      intro k hk
      rw [archetype_eq, archetype_eq, h2, List.getElem?_append_left hk]
    have hnew : (w1.archetype w.archetypes.length).component_set.data =
        (w.archetype a).component_set.data ++ [c] := by
      rw [archetype_eq, h2]
      simp
    have hl : w1.archetypes.length = w.archetypes.length + 1 := by rw [h2]; simp
    have hnone := List.find?_eq_none.1 hf
    -- no archetype of `w` holds the components of the new one
    have hno : ∀ k, k < w.archetypes.length →
        ¬ (∀ x, x ∈ (w.archetype k).component_set.data ↔
          x ∈ (w.archetype a).component_set.data ++ [c]) := by
      intro k hk hsame
      have hset : ∀ x, x ∈ (w.archetype k).component_set.data ↔
          (x ∈ (w.archetype a).component_set.data ∨ x = c) := by
        intro x
        rw [hsame x, List.mem_append, List.mem_singleton]
      have hkc : k ∈ (w.components.getD c default).archetypes :=
        hR k hk c ((hset c).2 (Or.inr rfl))
      exact hnone k hkc (candidate_complete w a c k hwf ha hk hc hcI hset)
    constructor
    · intro x y hx hy hxy
      rw [hl] at hx hy
      by_cases hx1 : x < w.archetypes.length
      · by_cases hy1 : y < w.archetypes.length
        · rw [hold x hx1, hold y hy1] at hxy
          exact hU x y hx1 hy1 hxy
        · have hy2 : y = w.archetypes.length := by omega
          subst hy2
          rw [hold x hx1, hnew] at hxy
          exact absurd hxy (hno x hx1)
      · have hx2 : x = w.archetypes.length := by omega
        subst hx2
        by_cases hy1 : y < w.archetypes.length
        · rw [hold y hy1, hnew] at hxy
          exact absurd (fun z => (hxy z).symm) (hno y hy1)
        · omega
    · intro k hk x hx
      rw [hl] at hk
      rw [hcomp]
      have hfold := register_fold_mem w.archetypes.length
        ((w.archetype a).component_set.data ++ [c]) w.components
      by_cases hk1 : k < w.archetypes.length
      · rw [hold k hk1] at hx
        exact hfold.1 x k (hR k hk1 x hx)
      · have hk2 : k = w.archetypes.length := by omega
        subst hk2
        rw [hnew] at hx
        apply hfold.2 x hx
        rcases List.mem_append.1 hx with h | h
        · exact (hAok.2.2.1 x h).1
        · rw [List.mem_singleton] at h; rw [h]; exact hreg.1

theorem select_fresh (cap0 : Nat) (w : ecs_world) (a c : Nat) (hwf : WF w)
    (ha : a < w.archetypes.length) (hc : c ∉ (w.archetype a).component_set.data)
    (hreg : registered w c) :
    (select_archetype cap0 w a c).1.archetypes.length = w.archetypes.length ∨
    ((select_archetype cap0 w a c).1.archetypes.length = w.archetypes.length + 1 ∧
      (select_archetype cap0 w a c).2 = w.archetypes.length) := by
  unfold select_archetype
  cases hf : (w.components.getD c default).archetypes.find?
      (entity_add_component_candidate w a c) with
  | some b => exact Or.inl rfl
  | none =>
    simp only []
    obtain ⟨h1, h2, _, _, _, _⟩ := create_spec cap0 w a c hwf ha hc (registered_ne hreg)
    exact Or.inr ⟨by rw [h2]; simp, h1⟩

/-- The decomposition of `entity_add_component` of `add_spec`, with what the
preparation does to the archetype graph: it keeps archetypes unique and the
registry complete, and it creates at most one archetype, the destination. -/
theorem add_spec_full (cap0 : Nat) (w : ecs_world) (e c : Nat) (hwf : WF w) (h0 : 0 < cap0)
    (he : e < w.entity_count) (hreg : registered w c)
    (hhas : entity_has_component w e c = false) :
    ∃ w1 b, Prepared w w1 ∧ WF w1 ∧ b < w1.archetypes.length ∧
      (w.record e).archetype_index ≠ b ∧
      (∀ x, x ∈ (w1.archetype b).component_set.data ↔
        (x ∈ (w.archetype (w.record e).archetype_index).component_set.data ∨ x = c)) ∧
      Moved w1 (entity_add_component cap0 w e c) e b c ∧
      (archetypes_unique w → registry_complete w →
        archetypes_unique w1 ∧ registry_complete w1) ∧
      (w1.archetypes.length = w.archetypes.length ∨
        (w1.archetypes.length = w.archetypes.length + 1 ∧ b = w.archetypes.length)) := by
  have hcI := registered_ne hreg
  have hc := (has_false_iff w e c hcI).1 hhas
  have ha := hwf.rec_arch e he
  cases hedge : entity_archetype_ptr_map_try_get
      (w.archetype (w.record e).archetype_index).edges.add_edges c with
  | some b =>
    obtain ⟨hb, hset⟩ := hwf.edge_ok _ ha c b hedge
    have hab : (w.record e).archetype_index ≠ b := by
      intro h
      exact hc (by rw [h]; exact (hset c).2 (Or.inr rfl))
    refine ⟨w, b, Prepared.refl w, hwf, hb, hab, hset, ?_, fun hU hR => ⟨hU, hR⟩, Or.inl rfl⟩
    rw [add_fast_eq cap0 w e c b hhas hedge]
    exact move_spec w e b c hwf he hb hset hc
  | none =>
    obtain ⟨hwf1, hprep1, hb1, hset1⟩ :=
      select_spec cap0 w (w.record e).archetype_index c hwf h0 ha hc hreg
    have hsu := select_unique cap0 w (w.record e).archetype_index c hwf ha hc hreg
    have hsf := select_fresh cap0 w (w.record e).archetype_index c hwf ha hc hreg
    generalize hs : select_archetype cap0 w (w.record e).archetype_index c = s
      at hwf1 hprep1 hb1 hset1 hsu hsf
    have hseta : (s.1.archetype (w.record e).archetype_index).component_set =
        (w.archetype (w.record e).archetype_index).component_set := hprep1.old_set _ ha
    obtain ⟨hwf2, hprep2⟩ := install_spec s.1 (w.record e).archetype_index c s.2 hwf1 hb1
      (by rw [hseta]; exact hset1)
    have hI := install_archetype s.1 (w.record e).archetype_index c s.2
    have hl : (install_edges s.1 (w.record e).archetype_index c s.2).archetypes.length =
        s.1.archetypes.length := by simp [install_edges]
    have hrec : (install_edges s.1 (w.record e).archetype_index c s.2).record e = w.record e := by
      rw [hprep2.record, hprep1.record]
    have hset2 : ∀ x,
        x ∈ ((install_edges s.1 (w.record e).archetype_index c s.2).archetype s.2).component_set.data ↔
        (x ∈ (w.archetype (w.record e).archetype_index).component_set.data ∨ x = c) := by
      intro x
      rw [(hI s.2).1]
      exact hset1 x
    have hab : (w.record e).archetype_index ≠ s.2 := by
      intro h
      exact hc (by rw [← hseta, h]; exact (hset1 c).2 (Or.inr rfl))
    refine ⟨install_edges s.1 (w.record e).archetype_index c s.2, s.2,
      hprep1.trans hprep2, hwf2, by rw [hl]; exact hb1, hab, hset2, ?_, ?_, ?_⟩
    · rw [add_slow_eq cap0 w e c hhas hedge, hs]
      apply move_spec _ e s.2 c hwf2 (by rw [hprep2.entity_count, hprep1.entity_count]; exact he)
        (by rw [hl]; exact hb1)
      · intro x
        rw [hrec, (hI (w.record e).archetype_index).1, hseta]
        exact hset2 x
      · rw [hrec, (hI (w.record e).archetype_index).1, hseta]
        exact hc
    · intro hU hR
      obtain ⟨hU1, hR1⟩ := hsu hU hR
      exact unique_install s.1 _ c s.2 hU1 hR1
    · rw [hl]
      exact hsf

theorem add_unique (cap0 : Nat) (w : ecs_world) (e c : Nat) (hwf : WF w) (h0 : 0 < cap0)
    (he : e < w.entity_count) (hreg : registered w c)
    (hU : archetypes_unique w) (hR : registry_complete w) :
    archetypes_unique (entity_add_component cap0 w e c) ∧
    registry_complete (entity_add_component cap0 w e c) := by
  cases hhas : entity_has_component w e c with
  | true =>
    have : entity_add_component cap0 w e c = w := by
      unfold entity_add_component; rw [if_pos hhas]
    rw [this]; exact ⟨hU, hR⟩
  | false =>
    obtain ⟨w1, b, _, _, _, _, _, hmv, hu, _⟩ := add_spec_full cap0 w e c hwf h0 he hreg hhas
    obtain ⟨hU1, hR1⟩ := hu hU hR
    exact unique_moved hmv hU1 hR1

/-- In every reachable world no two archetypes hold the same components, and every
archetype is listed by each of its components. -/
theorem reachable_unique (cap0 : Nat) (h0 : 0 < cap0) (w : ecs_world) (hr : Reachable cap0 w) :
    archetypes_unique w ∧ registry_complete w := by
  induction hr with
  | init => exact unique_init cap0
  | define w name stride hr ih =>
    exact unique_define w name stride (reachable_wf cap0 h0 w hr) ih.1 ih.2
  | create w _ ih => exact unique_create w ih.1 ih.2
  | add w e c hr he hc ih =>
    exact add_unique cap0 w e c (reachable_wf cap0 h0 w hr) h0 he hc ih.1 ih.2
  | set w e c data hr he hc _ ih =>
    unfold entity_set_component
    simp only []
    apply unique_modify_column
    · split
      · exact (add_unique cap0 w e c (reachable_wf cap0 h0 w hr) h0 he hc ih.1 ih.2).1
      · exact ih.1
    · split
      · exact (add_unique cap0 w e c (reachable_wf cap0 h0 w hr) h0 he hc ih.1 ih.2).2
      · exact ih.2

/-- In a sound world with unique archetypes, two entities with the same components
are in the same archetype. -/
theorem same_components_same_archetype (w : ecs_world) (hwf : WF w) (hU : archetypes_unique w)
    (a b : Nat) (h : ∀ c, entity_has_component w a c = entity_has_component w b c) :
    (w.record a).archetype_index = (w.record b).archetype_index := by
  apply hU _ _ (record_arch_lt w hwf a) (record_arch_lt w hwf b)
  intro x
  have hA := hwf.arch_ok _ (record_arch_lt w hwf a)
  have hB := hwf.arch_ok _ (record_arch_lt w hwf b)
  constructor
  · intro hx
    have hxI := registered_ne (hA.2.2.1 x hx)
    have := (has_true_iff w a x hxI).2 hx
    rw [h x] at this
    exact (has_true_iff w b x hxI).1 this
  · intro hx
    have hxI := registered_ne (hB.2.2.1 x hx)
    have := (has_true_iff w b x hxI).2 hx
    rw [← h x] at this
    exact (has_true_iff w a x hxI).1 this
/-! ## Sequences of valid calls stay reachable; fresh entities; the tick -/

theorem run_calls_reachable (cap0 : Nat) (calls : List ecs_call) :
    ∀ w : ecs_world, Reachable cap0 w → calls_ok cap0 w calls →
      Reachable cap0 (run_calls cap0 w calls) := by
  induction calls with
  | nil => intro w hr _; exact hr
  | cons call rest ih =>
    intro w hr hok
    have hrun : run_calls cap0 w (call :: rest) = run_calls cap0 (call.apply cap0 w) rest := rfl
    rw [hrun]
    apply ih _ _ hok.2
    cases call with
    | component_define name stride => exact Reachable.define w name stride hr
    | create => exact Reachable.create w hr
    | add e c => exact Reachable.add w e c hr hok.1.1 hok.1.2
    | set e c data stride =>
      obtain ⟨he, hc, hs, hl⟩ := hok.1
      subst hs
      exact Reachable.set w e c data hr he hc hl

theorem create_fresh (w : ecs_world) (hwf : WF w) :
    ((entity_create w).1.record (entity_create w).2).archetype_index = 0 ∧
    ∀ c, entity_has_component (entity_create w).1 (entity_create w).2 c = false := by
  have hrec : (entity_create w).1.record (entity_create w).2 =
      { index := (w.archetype 0).columns.length, archetype_index := 0 } := by
    have : (entity_create w).2 = w.records.length := hwf.rec_len.symm
    rw [this]; exact create_record_new w
  refine ⟨by rw [hrec], ?_⟩
  intro c
  rw [has_eq, hrec]
  simp only []
  rw [(create_archetype_core w 0).1]
  unfold ecs_component_set_contains
  rw [hwf.arch0]
  simp

theorem progress_phase_run (iterate : ecs_world → Nat → Nat → ecs_world) (phase : Nat)
    (hiter : ∀ w q cb, (iterate w q cb).systems = w.systems) (fuel : Nat) :
    ∀ (i : Nat) (w : ecs_world) (trace : List ecs_system),
      (w.systems.getD phase []).length ≤ i + fuel →
      ∃ w2, ecs_world_progress_phase iterate phase fuel i w trace =
          some (w2, trace ++ (w.systems.getD phase []).drop i) ∧
        w2.systems = w.systems := by
  induction fuel with
  | zero =>
    intro i w trace h
    refine ⟨w, ?_, rfl⟩
    unfold ecs_world_progress_phase
    rw [if_neg (by omega), List.drop_of_length_le (by omega), List.append_nil]
  | succ n ih =>
    intro i w trace h
    unfold ecs_world_progress_phase
    by_cases hi : i < (w.systems.getD phase []).length
    · rw [if_pos hi]
      simp only []
      obtain ⟨w2, h2, h3⟩ := ih (i + 1)
        (iterate w ((w.systems.getD phase []).getD i default).query
          ((w.systems.getD phase []).getD i default).callback)
        (trace ++ [(w.systems.getD phase []).getD i default])
        (by rw [hiter]; omega)
      refine ⟨w2, ?_, by rw [h3, hiter]⟩
      rw [h2, hiter, List.append_assoc]
      rw [List.singleton_append, List.getD_eq_getElem?_getD, List.getElem?_eq_getElem hi,
        Option.getD_some, ← List.drop_eq_getElem_cons hi]
    · rw [if_neg hi]
      refine ⟨w, ?_, rfl⟩
      rw [List.drop_of_length_le (by omega), List.append_nil]

theorem progress_fold_run (iterate : ecs_world → Nat → Nat → ecs_world)
    (hiter : ∀ w q cb, (iterate w q cb).systems = w.systems) (fuel : Nat)
    (phases : List Nat) :
    ∀ (w : ecs_world) (trace : List ecs_system),
      (∀ p ∈ phases, (w.systems.getD p []).length ≤ fuel) →
      ∃ w2, phases.foldl
          (fun state phase =>
            state.bind (fun p => ecs_world_progress_phase iterate phase fuel 0 p.1 p.2))
          (some (w, trace)) =
          some (w2, trace ++ phases.flatMap (fun p => w.systems.getD p [])) ∧
        w2.systems = w.systems := by
  induction phases with
  | nil => intro w trace _; exact ⟨w, by simp, rfl⟩
  | cons p rest ih =>
    intro w trace h
    obtain ⟨w1, h1, hs1⟩ := progress_phase_run iterate p hiter fuel 0 w trace
      (by have := h p (List.mem_cons_self p rest); omega)
    obtain ⟨w2, h2, hs2⟩ := ih w1 (trace ++ (w.systems.getD p []).drop 0)
      (fun q hq => by rw [hs1]; exact h q (List.mem_cons_of_mem p hq))
    refine ⟨w2, ?_, by rw [hs2, hs1]⟩
    rw [List.foldl_cons]
    have hb : ((some (w, trace)).bind
        (fun q => ecs_world_progress_phase iterate p fuel 0 q.1 q.2)) =
        ecs_world_progress_phase iterate p fuel 0 w trace := rfl
    rw [hb, h1, h2, hs1]
    simp [List.flatMap_cons]

theorem progress_phase_idle (iterate : ecs_world → Nat → Nat → ecs_world) (phase fuel : Nat)
    (w : ecs_world) (trace : List ecs_system) (h : w.systems.getD phase [] = []) :
    ecs_world_progress_phase iterate phase fuel 0 w trace = some (w, trace) := by
  cases fuel with
  | zero => unfold ecs_world_progress_phase; rw [h]; rfl
  | succ n => unfold ecs_world_progress_phase; rw [h]; rfl

theorem progress_fold_idle (iterate : ecs_world → Nat → Nat → ecs_world) (fuel : Nat)
    (w : ecs_world) (trace : List ecs_system) (phases : List Nat)
    (h : ∀ p ∈ phases, w.systems.getD p [] = []) :
    phases.foldl
      (fun state phase =>
        state.bind (fun p => ecs_world_progress_phase iterate phase fuel 0 p.1 p.2))
      (some (w, trace)) = some (w, trace) := by
  induction phases with
  | nil => rfl
  | cons p rest ih =>
    rw [List.foldl_cons]
    have hb : ((some (w, trace)).bind
        (fun q => ecs_world_progress_phase iterate p fuel 0 q.1 q.2)) =
        ecs_world_progress_phase iterate p fuel 0 w trace := rfl
    rw [hb, progress_phase_idle iterate p fuel w trace (h p (List.mem_cons_self p rest))]
    exact ih (fun q hq => h q (List.mem_cons_of_mem p hq))

theorem insert_of_try_get (m : entity_archetype_ptr_map) (k v : Nat)
    (h : entity_archetype_ptr_map_try_get m k = some v) :
    entity_archetype_ptr_map_insert m k v = m := by
  induction m with
  | nil => simp [entity_archetype_ptr_map_try_get] at h
  | cons p rest ih =>
    obtain ⟨k1, v1⟩ := p
    by_cases hk : k1 = k
    · subst hk
      simp [entity_archetype_ptr_map_try_get] at h
      simp [entity_archetype_ptr_map_insert, h]
    · simp [entity_archetype_ptr_map_try_get, hk] at h
      simp [entity_archetype_ptr_map_insert, hk, ih h]

theorem install_remove_edges (w : ecs_world) (a c b k : Nat) :
    ((install_edges w a c b).archetype k).edges.remove_edges =
      if b = k ∧ b < w.archetypes.length then
        entity_archetype_ptr_map_insert (w.archetype k).edges.remove_edges c a
      else (w.archetype k).edges.remove_edges := by
  unfold install_edges
  rw [archetype_modify, archetype_modify, modify_archetype_length]
  by_cases h1 : b = k ∧ b < w.archetypes.length
  · by_cases h2 : a = k ∧ a < w.archetypes.length
    · simp only [if_pos h1, if_pos h2]
    · simp only [if_pos h1, if_neg h2]
  · by_cases h2 : a = k ∧ a < w.archetypes.length
    · simp only [if_neg h1, if_pos h2]
    · simp only [if_neg h1, if_neg h2]

theorem paired_install (w : ecs_world) (a c b : Nat) (hwf : WF w) (hU : archetypes_unique w)
    (hP : edges_paired w) (ha : a < w.archetypes.length) (hb : b < w.archetypes.length)
    (hc : c ∉ (w.archetype a).component_set.data)
    (hset : ∀ x, x ∈ (w.archetype b).component_set.data ↔
      (x ∈ (w.archetype a).component_set.data ∨ x = c)) :
    edges_paired (install_edges w a c b) := by
  have hl : (install_edges w a c b).archetypes.length = w.archetypes.length := by
    simp [install_edges]
  have hI := install_archetype w a c b
  have hR := install_remove_edges w a c b
  intro k hk c2 b2 hedge
  rw [hl] at hk
  rw [(hI k).1, hR b2]
  rw [(hI k).2.2.2.2] at hedge
  by_cases hka : a = k
  · subst hka
    rw [if_pos ⟨rfl, ha⟩] at hedge
    by_cases hcc : c2 = c
    · subst hcc
      rw [try_get_insert_self] at hedge
      have hbb : b = b2 := Option.some.inj hedge
      subst hbb
      rw [if_pos ⟨rfl, hb⟩, try_get_insert_self]
      exact ⟨hc, rfl⟩
    · rw [try_get_insert_ne _ _ _ _ hcc] at hedge
      obtain ⟨h1, h2⟩ := hP a ha c2 b2 hedge
      refine ⟨h1, ?_⟩
      by_cases hbb : b = b2 ∧ b < w.archetypes.length
      · rw [if_pos hbb, try_get_insert_ne _ _ _ _ hcc]; exact h2
      · rw [if_neg hbb]; exact h2
  · rw [if_neg (fun h => hka h.1)] at hedge
    obtain ⟨h1, h2⟩ := hP k hk c2 b2 hedge
    refine ⟨h1, ?_⟩
    by_cases hbb : b = b2 ∧ b < w.archetypes.length
    · rw [if_pos hbb]
      by_cases hcc : c2 = c
      · exfalso
        subst hcc
        obtain ⟨hbb1, _⟩ := hbb
        subst hbb1
        have hsetk := (hwf.edge_ok k hk c2 b hedge).2
        apply hka
        apply hU a k ha hk
        intro x
        have e1 := hset x
        have e2 := hsetk x
        constructor
        · intro hx
          rcases e2.1 (e1.2 (Or.inl hx)) with h | h
          · exact h
          · subst h; exact absurd hx hc
        · intro hx
          rcases e1.1 (e2.2 (Or.inl hx)) with h | h
          · exact h
          · subst h; exact absurd hx h1
      · rw [try_get_insert_ne _ _ _ _ hcc]; exact h2
    · rw [if_neg hbb]; exact h2

theorem paired_transfer {w w2 : ecs_world} (hlen : w2.archetypes.length = w.archetypes.length)
    (hset : ∀ k, (w2.archetype k).component_set = (w.archetype k).component_set)
    (hedges : ∀ k, (w2.archetype k).edges = (w.archetype k).edges)
    (h : edges_paired w) : edges_paired w2 := by
  intro a ha c b hedge
  rw [hlen] at ha
  rw [hedges a] at hedge
  rw [hset a, hedges b]
  exact h a ha c b hedge

/-- What `select_archetype` returns: either the archetype the search finds, the
world untouched, or a new archetype appended to the world and matched against
the queries. -/
theorem select_cases (cap0 : Nat) (w : ecs_world) (a c : Nat) (hwf : WF w)
    (ha : a < w.archetypes.length) (hc : c ∉ (w.archetype a).component_set.data)
    (hcI : c ≠ INVALID_ID) :
    (∃ b, (w.components.getD c default).archetypes.find?
        (entity_add_component_candidate w a c) = some b ∧
      select_archetype cap0 w a c = (w, b)) ∨
    ((w.components.getD c default).archetypes.find?
        (entity_add_component_candidate w a c) = none ∧
      (select_archetype cap0 w a c).2 = w.archetypes.length ∧
      (select_archetype cap0 w a c).1.archetypes =
        w.archetypes ++
          [{ component_set := { data := (w.archetype a).component_set.data ++ [c] }
             columns := ((w.archetype a).component_set.data ++ [c]).map
               (fun x => ecs_component_column_create cap0 (w.stride x))
             entities := []
             edges := { add_edges := [], remove_edges := [] }
             archetype_id := w.archetypes.length }] ∧
      (select_archetype cap0 w a c).1.queries =
        w.queries.map (fun q =>
          if ecs_query_matches_archetype q
              { component_set := { data := (w.archetype a).component_set.data ++ [c] }
                columns := ((w.archetype a).component_set.data ++ [c]).map
                  (fun x => ecs_component_column_create cap0 (w.stride x))
                entities := []
                edges := { add_edges := [], remove_edges := [] }
                archetype_id := w.archetypes.length } then
            { q with
              archetype_indices := darray_push q.archetype_indices w.archetypes.length }
          else q)) := by
  unfold select_archetype
  cases hf : (w.components.getD c default).archetypes.find?
      (entity_add_component_candidate w a c) with
  | some b => exact Or.inl ⟨b, rfl, rfl⟩
  | none =>
    right
    simp only []
    obtain ⟨h1, h2, _⟩ := create_spec cap0 w a c hwf ha hc hcI
    refine ⟨trivial, h1, h2, ?_⟩
    have harch : (entity_archetype_create_from_base cap0 w a [c]).1.archetype
        (entity_archetype_create_from_base cap0 w a [c]).2 =
        { component_set := { data := (w.archetype a).component_set.data ++ [c] }
          columns := ((w.archetype a).component_set.data ++ [c]).map
            (fun x => ecs_component_column_create cap0 (w.stride x))
          entities := []
          edges := { add_edges := [], remove_edges := [] }
          archetype_id := w.archetypes.length } := by
      have h3 : (entity_archetype_create_from_base cap0 w a [c]).1.archetypes =
          (entity_archetype_match_queryies (entity_archetype_create_from_base cap0 w a [c]).2
            (entity_archetype_create_from_base cap0 w a [c]).1).archetypes := rfl
      rw [archetype_eq, h3, h2, h1]
      simp
    have hq : (entity_archetype_create_from_base cap0 w a [c]).1.queries = w.queries := rfl
    unfold entity_archetype_match_queryies
    simp only []
    rw [harch, hq, h1]

theorem paired_append (w w1 : ecs_world) (n : entity_archetype) (hwf : WF w)
    (harch : w1.archetypes = w.archetypes ++ [n]) (hedges : n.edges.add_edges = [])
    (hP : edges_paired w) : edges_paired w1 := by
  have hold : ∀ k, k < w.archetypes.length → w1.archetype k = w.archetype k := by
    intro k hk
    rw [archetype_eq, archetype_eq, harch, List.getElem?_append_left hk]
  have hnew : w1.archetype w.archetypes.length = n := by
    rw [archetype_eq, harch]
    simp
  have hl : w1.archetypes.length = w.archetypes.length + 1 := by rw [harch]; simp
  intro a ha c b hedge
  rw [hl] at ha
  by_cases ha1 : a < w.archetypes.length
  · rw [hold a ha1] at hedge ⊢
    rw [hold b (hwf.edge_ok a ha1 c b hedge).1]
    exact hP a ha1 c b hedge
  · have : a = w.archetypes.length := by omega
    subst this
    rw [hnew, hedges] at hedge
    simp [entity_archetype_ptr_map_try_get] at hedge

theorem paired_select (cap0 : Nat) (w : ecs_world) (a c : Nat) (hwf : WF w)
    (ha : a < w.archetypes.length) (hc : c ∉ (w.archetype a).component_set.data)
    (hcI : c ≠ INVALID_ID) (hP : edges_paired w) :
    edges_paired (select_archetype cap0 w a c).1 := by
  rcases select_cases cap0 w a c hwf ha hc hcI with ⟨b, _, h⟩ | ⟨_, _, h, _⟩
  · rw [h]; exact hP
  · exact paired_append w _ _ hwf h rfl hP

/-- The two paths of `entity_add_component` on an entity that lacks the
component: the move along the cached edge, or the move after the destination was
selected and the edges were installed. -/
theorem add_cases (cap0 : Nat) (w : ecs_world) (e c : Nat) (hwf : WF w) (h0 : 0 < cap0)
    (he : e < w.entity_count) (hreg : registered w c)
    (hhas : entity_has_component w e c = false) :
    (∃ b, entity_archetype_ptr_map_try_get
        (w.archetype (w.record e).archetype_index).edges.add_edges c = some b ∧
      b < w.archetypes.length ∧
      (∀ x, x ∈ (w.archetype b).component_set.data ↔
        (x ∈ (w.archetype (w.record e).archetype_index).component_set.data ∨ x = c)) ∧
      Moved w (entity_add_component cap0 w e c) e b c) ∨
    (entity_archetype_ptr_map_try_get
        (w.archetype (w.record e).archetype_index).edges.add_edges c = none ∧
      ∃ s : ecs_world × Nat, s = select_archetype cap0 w (w.record e).archetype_index c ∧
        WF s.1 ∧ Prepared w s.1 ∧ s.2 < s.1.archetypes.length ∧
        (w.record e).archetype_index ≠ s.2 ∧
        (∀ x, x ∈ (s.1.archetype s.2).component_set.data ↔
          (x ∈ (w.archetype (w.record e).archetype_index).component_set.data ∨ x = c)) ∧
        WF (install_edges s.1 (w.record e).archetype_index c s.2) ∧
        Moved (install_edges s.1 (w.record e).archetype_index c s.2)
          (entity_add_component cap0 w e c) e s.2 c) := by
  have hcI := registered_ne hreg
  have hc := (has_false_iff w e c hcI).1 hhas
  have ha := hwf.rec_arch e he
  cases hedge : entity_archetype_ptr_map_try_get
      (w.archetype (w.record e).archetype_index).edges.add_edges c with
  | some b =>
    left
    obtain ⟨hb, hset⟩ := hwf.edge_ok _ ha c b hedge
    refine ⟨b, rfl, hb, hset, ?_⟩
    rw [add_fast_eq cap0 w e c b hhas hedge]
    exact move_spec w e b c hwf he hb hset hc
  | none =>
    right
    obtain ⟨hwf1, hprep1, hb1, hset1⟩ :=
      select_spec cap0 w (w.record e).archetype_index c hwf h0 ha hc hreg
    refine ⟨rfl, select_archetype cap0 w (w.record e).archetype_index c, rfl, ?_⟩
    rw [add_slow_eq cap0 w e c hhas hedge]
    generalize select_archetype cap0 w (w.record e).archetype_index c = s
      at hwf1 hprep1 hb1 hset1
    have hseta : (s.1.archetype (w.record e).archetype_index).component_set =
        (w.archetype (w.record e).archetype_index).component_set := hprep1.old_set _ ha
    obtain ⟨hwf2, hprep2⟩ := install_spec s.1 (w.record e).archetype_index c s.2 hwf1 hb1
      (by rw [hseta]; exact hset1)
    have hI := install_archetype s.1 (w.record e).archetype_index c s.2
    have hl : (install_edges s.1 (w.record e).archetype_index c s.2).archetypes.length =
        s.1.archetypes.length := by simp [install_edges]
    have hrec : (install_edges s.1 (w.record e).archetype_index c s.2).record e = w.record e := by
      rw [hprep2.record, hprep1.record]
    have hab : (w.record e).archetype_index ≠ s.2 := by
      intro h
      exact hc (by rw [← hseta, h]; exact (hset1 c).2 (Or.inr rfl))
    refine ⟨hwf1, hprep1, hb1, hab, hset1, hwf2, ?_⟩
    apply move_spec _ e s.2 c hwf2 (by rw [hprep2.entity_count, hprep1.entity_count]; exact he)
      (by rw [hl]; exact hb1)
    · intro x
      rw [hrec, (hI (w.record e).archetype_index).1, hseta, (hI s.2).1]
      exact hset1 x
    · rw [hrec, (hI (w.record e).archetype_index).1, hseta]
      exact hc

theorem paired_moved {w w2 : ecs_world} {e b c : Nat} (hmv : Moved w w2 e b c)
    (hP : edges_paired w) : edges_paired w2 :=
  paired_transfer hmv.length (fun k => hmv.set_eq k) (fun k => hmv.edges_eq k) hP

theorem paired_add (cap0 : Nat) (w : ecs_world) (e c : Nat) (hwf : WF w) (h0 : 0 < cap0)
    (he : e < w.entity_count) (hreg : registered w c)
    (hU : archetypes_unique w) (hR : registry_complete w) (hP : edges_paired w) :
    edges_paired (entity_add_component cap0 w e c) := by
  cases hhas : entity_has_component w e c with
  | true =>
    have : entity_add_component cap0 w e c = w := by
      unfold entity_add_component; rw [if_pos hhas]
    rw [this]; exact hP
  | false =>
    have hcI := registered_ne hreg
    have hc := (has_false_iff w e c hcI).1 hhas
    have ha := hwf.rec_arch e he
    rcases add_cases cap0 w e c hwf h0 he hreg hhas with
      ⟨b, _, _, _, hmv⟩ | ⟨_, s, hs, hwf1, hprep1, hb1, _, hset1, _, hmv⟩
    · exact paired_moved hmv hP
    · apply paired_moved hmv
      have hP1 : edges_paired s.1 := by
        rw [hs]
        exact paired_select cap0 w _ c hwf ha hc hcI hP
      have hU1 : archetypes_unique s.1 := by
        rw [hs]
        exact (select_unique cap0 w _ c hwf ha hc hreg hU hR).1
      have hseta : (s.1.archetype (w.record e).archetype_index).component_set =
          (w.archetype (w.record e).archetype_index).component_set := hprep1.old_set _ ha
      exact paired_install s.1 _ c s.2 hwf1 hU1 hP1 (Nat.lt_of_lt_of_le ha hprep1.len_le) hb1
        (by rw [hseta]; exact hc) (by rw [hseta]; exact hset1)

theorem paired_modify_column (w : ecs_world) (a i : Nat) (f : ecs_column → ecs_column)
    (hP : edges_paired w) : edges_paired (modify_column w a i f) :=
  paired_transfer (by simp [modify_column])
    (fun k => (modify_column_core w a i k f).1)
    (fun k => (modify_column_core w a i k f).2.2.1) hP

/-- In every reachable world the add edges have their inverse remove edges. -/
theorem reachable_paired (cap0 : Nat) (h0 : 0 < cap0) (w : ecs_world) (hr : Reachable cap0 w) :
    edges_paired w := by
  induction hr with
  | init =>
    intro a ha c b hedge
    have h1 : ( ecs_world_initialize cap0).archetypes.length = 1 := rfl
    rw [h1] at ha
    have : a = 0 := by omega
    subst this
    have h2 : (( ecs_world_initialize cap0).archetype 0).edges.add_edges = [] := rfl
    rw [h2] at hedge
    simp [entity_archetype_ptr_map_try_get] at hedge
  | define w name stride _ ih => exact ih
  | create w _ ih =>
    exact paired_transfer (by simp [entity_create, updAt_length])
      (fun k => (create_archetype_core w k).1) (fun k => (create_archetype_core w k).2.2.1) ih
  | add w e c hr he hc ih =>
    have hu := reachable_unique cap0 h0 w hr
    exact paired_add cap0 w e c (reachable_wf cap0 h0 w hr) h0 he hc hu.1 hu.2 ih
  | set w e c data hr he hc _ ih =>
    have hu := reachable_unique cap0 h0 w hr
    unfold entity_set_component
    simp only []
    apply paired_modify_column
    split
    · exact paired_add cap0 w e c (reachable_wf cap0 h0 w hr) h0 he hc hu.1 hu.2 ih
    · exact ih
/-! ## The edge installed, the search and the number of archetypes -/

/-- After `entity_add_component` moved an entity, the add edge of the archetype
it left leads to the archetype its record names. -/
theorem add_edge_installed (cap0 : Nat) (w : ecs_world) (e c : Nat) (hwf : WF w) (h0 : 0 < cap0)
    (he : e < w.entity_count) (hreg : registered w c)
    (hhas : entity_has_component w e c = false) :
    entity_archetype_ptr_map_try_get
        ((entity_add_component cap0 w e c).archetype (w.record e).archetype_index).edges.add_edges
        c = some ((entity_add_component cap0 w e c).record e).archetype_index ∧
    (w.record e).archetype_index ≠ ((entity_add_component cap0 w e c).record e).archetype_index := by
  have ha := hwf.rec_arch e he
  have hel : e < w.records.length := by rw [hwf.rec_len]; exact he
  rcases add_cases cap0 w e c hwf h0 he hreg hhas with
    ⟨b, hedge, _, hset, hmv⟩ | ⟨_, s, _, _, hprep1, _, hab, _, _, hmv⟩
  · rw [hmv.record_self hel, hmv.edges_eq]
    refine ⟨hedge, ?_⟩
    intro h
    have hc := (has_false_iff w e c (registered_ne hreg)).1 hhas
    simp only [] at h
    exact hc (by rw [h]; exact (hset c).2 (Or.inr rfl))
  · have hel1 : e < (install_edges s.1 (w.record e).archetype_index c s.2).records.length := by
      have : (install_edges s.1 (w.record e).archetype_index c s.2).records = s.1.records := rfl
      rw [this, hprep1.records]; exact hel
    rw [hmv.record_self hel1, hmv.edges_eq,
      (install_archetype s.1 (w.record e).archetype_index c s.2 _).2.2.2.2,
      if_pos ⟨rfl, Nat.lt_of_lt_of_le ha hprep1.len_le⟩, try_get_insert_self]
    exact ⟨rfl, hab⟩

theorem candidate_count (w : ecs_world) (a c b : Nat)
    (h : entity_add_component_candidate w a c b = true) :
    (w.archetype b).component_set.count = (w.archetype a).component_set.count + 1 := by
  unfold entity_add_component_candidate at h
  simp only [] at h
  split at h
  · exact absurd h (by simp)
  · rename_i hn
    simp only [Bool.or_eq_true, bne_iff_ne, ne_eq, not_or, Decidable.not_not] at hn
    exact hn.1

/-- When an archetype with the components of the current one and `c` exists, the
search of `entity_add_component` finds it. -/
theorem search_finds (w : ecs_world) (a c k : Nat) (hwf : WF w) (hU : archetypes_unique w)
    (hR : registry_complete w) (ha : a < w.archetypes.length) (hk : k < w.archetypes.length)
    (hc : c ∉ (w.archetype a).component_set.data) (hcI : c ≠ INVALID_ID)
    (hset : ∀ x, x ∈ (w.archetype k).component_set.data ↔
      (x ∈ (w.archetype a).component_set.data ∨ x = c)) :
    (w.components.getD c default).archetypes.find?
      (entity_add_component_candidate w a c) = some k := by
  have hkc : k ∈ (w.components.getD c default).archetypes :=
    hR k hk c ((hset c).2 (Or.inr rfl))
  have hcand := candidate_complete w a c k hwf ha hk hc hcI hset
  cases hf : (w.components.getD c default).archetypes.find?
      (entity_add_component_candidate w a c) with
  | none => exact absurd hcand (by simpa using List.find?_eq_none.1 hf k hkc)
  | some d =>
    obtain ⟨hd, hsetd⟩ := candidate_spec w a c d hwf ha hc (List.find?_some hf)
    congr 1
    apply hU d k hd hk
    intro x
    rw [hsetd x, hset x]

/-- The number of archetypes after `entity_add_component`: the same or one more,
and the same when an archetype with the wanted components exists. -/
theorem add_length (cap0 : Nat) (w : ecs_world) (e c : Nat) (hwf : WF w) (h0 : 0 < cap0)
    (he : e < w.entity_count) (hreg : registered w c)
    (hU : archetypes_unique w) (hR : registry_complete w) :
    w.archetypes.length ≤ (entity_add_component cap0 w e c).archetypes.length ∧
    (entity_add_component cap0 w e c).archetypes.length ≤ w.archetypes.length + 1 ∧
    ((∃ k, k < w.archetypes.length ∧
        ∀ x, x ∈ (w.archetype k).component_set.data ↔
          (x ∈ (w.archetype (w.record e).archetype_index).component_set.data ∨ x = c)) →
      (entity_add_component cap0 w e c).archetypes.length = w.archetypes.length) := by
  cases hhas : entity_has_component w e c with
  | true =>
    have : entity_add_component cap0 w e c = w := by
      unfold entity_add_component; rw [if_pos hhas]
    rw [this]
    exact ⟨Nat.le_refl _, Nat.le_succ _, fun _ => rfl⟩
  | false =>
    have hcI := registered_ne hreg
    have hc := (has_false_iff w e c hcI).1 hhas
    have ha := hwf.rec_arch e he
    rcases add_cases cap0 w e c hwf h0 he hreg hhas with
      ⟨b, _, _, _, hmv⟩ | ⟨_, s, hs, _, _, _, _, _, _, hmv⟩
    · rw [hmv.length]
      exact ⟨Nat.le_refl _, Nat.le_succ _, fun _ => rfl⟩
    · have hl : (install_edges s.1 (w.record e).archetype_index c s.2).archetypes.length =
          s.1.archetypes.length := by simp [install_edges]
      rw [hmv.length, hl]
      rcases select_cases cap0 w _ c hwf ha hc hcI with ⟨b, _, h⟩ | ⟨hnone, _, h, _⟩
      · rw [hs, h]
        exact ⟨Nat.le_refl _, Nat.le_succ _, fun _ => rfl⟩
      · rw [hs, h]
        simp only [List.length_append, List.length_singleton]
        refine ⟨Nat.le_succ _, Nat.le_refl _, ?_⟩
        rintro ⟨k, hk, hset⟩
        rw [search_finds w _ c k hwf hU hR ha hk hc hcI hset] at hnone
        exact absurd hnone (by simp)

/-! ## The reserved slot, the two paths compared, and the queries -/

theorem reserve_column_spec (col : ecs_column) (h : col.count < col.capacity) :
    (reserve_column col).capacity =
      (if col.count ≥ u64_pred col.capacity then col.capacity * ECS_COLUMN_RESIZE_FACTOR
        else col.capacity) ∧
    (reserve_column col).count = col.count + 1 := by
  unfold reserve_column ecs_column_grow
  split
  · unfold ecs_component_column_resize ECS_COLUMN_RESIZE_FACTOR
    simp only []
    refine ⟨trivial, ?_⟩
    rw [Nat.min_eq_left (by omega)]
  · exact ⟨rfl, rfl⟩

/-- The column of the new component after `entity_add_component`: the reservation
applied to the column the destination archetype held for it before the call, or
to a fresh column when the call created the archetype. -/
theorem add_reserved_column (cap0 : Nat) (w : ecs_world) (e c : Nat) (hwf : WF w)
    (h0 : 0 < cap0) (he : e < w.entity_count) (hreg : registered w c)
    (hhas : entity_has_component w e c = false) :
    ∃ column : ecs_column,
      (((entity_add_component cap0 w e c).record e).archetype_index < w.archetypes.length →
        column = (w.archetype ((entity_add_component cap0 w e c).record e).archetype_index).columns.getD
          ( ecs_component_set_get_index
            (w.archetype ((entity_add_component cap0 w e c).record e).archetype_index).component_set
            c) default) ∧
      (w.archetypes.length ≤ ((entity_add_component cap0 w e c).record e).archetype_index →
        column = ecs_component_column_create cap0 (w.stride c)) ∧
      column.count < column.capacity ∧
      ((entity_add_component cap0 w e c).archetype
        ((entity_add_component cap0 w e c).record e).archetype_index).columns.getD
          ( ecs_component_set_get_index
            ((entity_add_component cap0 w e c).archetype
              ((entity_add_component cap0 w e c).record e).archetype_index).component_set c)
          default = reserve_column column := by
  have hcI := registered_ne hreg
  have hc := (has_false_iff w e c hcI).1 hhas
  have ha := hwf.rec_arch e he
  have hel : e < w.records.length := by rw [hwf.rec_len]; exact he
  -- the common part: a sound world `w1` from which the entity is moved to `b`
  have key : ∀ (w1 : ecs_world) (b : Nat), WF w1 → b < w1.archetypes.length →
      e < w1.records.length →
      (∀ x, x ∈ (w1.archetype b).component_set.data ↔
        (x ∈ (w.archetype (w.record e).archetype_index).component_set.data ∨ x = c)) →
      Moved w1 (entity_add_component cap0 w e c) e b c →
      ((entity_add_component cap0 w e c).record e).archetype_index = b ∧
      ((w1.archetype b).columns.getD
        ( ecs_component_set_get_index (w1.archetype b).component_set c) default).count <
        ((w1.archetype b).columns.getD
          ( ecs_component_set_get_index (w1.archetype b).component_set c) default).capacity ∧
      ((entity_add_component cap0 w e c).archetype b).columns.getD
          ( ecs_component_set_get_index
            ((entity_add_component cap0 w e c).archetype b).component_set c) default =
        reserve_column ((w1.archetype b).columns.getD
          ( ecs_component_set_get_index (w1.archetype b).component_set c) default) := by
    intro w1 b hwf1 hb hel1 hset hmv
    have hcb : c ∈ (w1.archetype b).component_set.data := (hset c).2 (Or.inr rfl)
    have hBok := hwf1.arch_ok b hb
    have hidx : (w1.archetype b).component_set.data.indexOf c < (w1.archetype b).columns.length := by
      rw [hBok.2.2.2.1]; exact List.indexOf_lt_length.2 hcb
    have hdest := hmv.dest_new _ (List.getElem?_indexOf hcb)
    rw [getElem?_of_lt_getD _ _ default hidx, Option.map_some'] at hdest
    refine ⟨by rw [hmv.record_self hel1], ?_, ?_⟩
    · rw [get_index_of_mem _ c hcI hcb]
      exact (hBok.2.2.2.2 _ hidx).2.2.1
    · rw [hmv.dest_set, get_index_of_mem _ c hcI hcb]
      exact getD_of_getElem? _ _ _ default hdest
  rcases add_cases cap0 w e c hwf h0 he hreg hhas with
    ⟨b, _, hb, hset, hmv⟩ | ⟨_, s, hs, hwf1, hprep1, hb1, _, hset1, hwf2, hmv⟩
  · obtain ⟨k1, k2, k3⟩ := key w b hwf hb hel hset hmv
    rw [k1]
    exact ⟨_, fun _ => rfl, fun h => absurd hb (by omega), k2, k3⟩
  · have hI := install_archetype s.1 (w.record e).archetype_index c s.2
    have hl : (install_edges s.1 (w.record e).archetype_index c s.2).archetypes.length =
        s.1.archetypes.length := by simp [install_edges]
    have hel1 : e < (install_edges s.1 (w.record e).archetype_index c s.2).records.length := by
      have : (install_edges s.1 (w.record e).archetype_index c s.2).records = s.1.records := rfl
      rw [this, hprep1.records]; exact hel
    obtain ⟨k1, k2, k3⟩ := key _ s.2 hwf2 (by rw [hl]; exact hb1) hel1
      (by intro x; rw [(hI s.2).1]; exact hset1 x) hmv
    rw [(hI s.2).1, (hI s.2).2.1] at k2 k3
    rw [k1]
    refine ⟨_, ?_, ?_, k2, k3⟩
    · intro hlt
      rw [hprep1.old_set _ hlt, hprep1.old_columns _ hlt]
    · intro hge
      rcases select_cases cap0 w _ c hwf ha hc hcI with ⟨b, _, h⟩ | ⟨_, h1, h2, _⟩
      · rw [← hs] at h
        rw [h] at hb1
        rw [h] at hge
        exact absurd hb1 (by simp only [] at hge ⊢; omega)
      · rw [← hs] at h1 h2
        have hnew : s.1.archetype s.2 =
            { component_set := { data := (w.archetype (w.record e).archetype_index).component_set.data ++ [c] }
              columns := ((w.archetype (w.record e).archetype_index).component_set.data ++ [c]).map
                (fun x => ecs_component_column_create cap0 (w.stride x))
              entities := []
              edges := { add_edges := [], remove_edges := [] }
              archetype_id := w.archetypes.length } := by
          rw [archetype_eq, h2, h1]
          simp
        rw [hnew]
        simp only []
        have hmem : c ∈ (w.archetype (w.record e).archetype_index).component_set.data ++ [c] := by
          simp
        rw [get_index_of_mem _ c hcI hmem]
        simp only []
        apply getD_of_getElem?
        rw [List.getElem?_map, List.getElem?_indexOf hmem]
        rfl

theorem search_eq (cap0 : Nat) (w : ecs_world) (e c : Nat) :
    entity_add_component_search cap0 w e c =
      entity_add_component_reserve
        (entity_transition_archetype
          (install_edges (select_archetype cap0 w (w.record e).archetype_index c).1
            (w.record e).archetype_index c
            (select_archetype cap0 w (w.record e).archetype_index c).2) e
          (select_archetype cap0 w (w.record e).archetype_index c).2)
        (select_archetype cap0 w (w.record e).archetype_index c).2 c := rfl

/-- Installing an edge pair that is already there changes nothing. -/
theorem install_idle (w : ecs_world) (a c b : Nat)
    (h1 : entity_archetype_ptr_map_try_get (w.archetype a).edges.add_edges c = some b)
    (h2 : entity_archetype_ptr_map_try_get (w.archetype b).edges.remove_edges c = some a) :
    install_edges w a c b = w := by
  unfold install_edges
  have hfirst : modify_archetype w a (fun x =>
      { x with edges := { x.edges with
          add_edges := entity_archetype_ptr_map_insert x.edges.add_edges c b } }) = w := by
    apply modify_archetype_id
    simp only []
    rw [insert_of_try_get _ _ _ h1]
  rw [hfirst]
  apply modify_archetype_id
  simp only []
  rw [insert_of_try_get _ _ _ h2]

/-- With a cached edge in a sound world with unique archetypes and paired edges,
the search selects the archetype of the edge and the search path gives the world
the cached path gives. -/
theorem search_refines (cap0 : Nat) (w : ecs_world) (e c b : Nat) (hwf : WF w)
    (hU : archetypes_unique w) (hR : registry_complete w) (hP : edges_paired w)
    (he : e < w.entity_count) (hreg : registered w c)
    (hhas : entity_has_component w e c = false)
    (hedge : entity_archetype_ptr_map_try_get
      (w.archetype (w.record e).archetype_index).edges.add_edges c = some b) :
    (w.components.getD c default).archetypes.find?
        (entity_add_component_candidate w (w.record e).archetype_index c) = some b ∧
    entity_add_component_search cap0 w e c = entity_add_component_cached w e c b := by
  have hcI := registered_ne hreg
  have hc := (has_false_iff w e c hcI).1 hhas
  have ha := hwf.rec_arch e he
  obtain ⟨hb, hset⟩ := hwf.edge_ok _ ha c b hedge
  have hfind := search_finds w _ c b hwf hU hR ha hb hc hcI hset
  refine ⟨hfind, ?_⟩
  have hsel : select_archetype cap0 w (w.record e).archetype_index c = (w, b) := by
    unfold select_archetype
    rw [hfind]
  rw [search_eq, hsel]
  simp only []
  rw [install_idle w _ c b hedge (hP _ ha c b hedge).2]
  rfl

theorem matches_congr (q : ecs_query) (a b : entity_archetype)
    (h : a.component_set = b.component_set) :
    ecs_query_matches_archetype q a = ecs_query_matches_archetype q b := by
  unfold ecs_query_matches_archetype
  rw [h]

/-- The queries after an `entity_add_component` that created an archetype: the
new index is appended to the match list of the queries the archetype matches. -/
theorem add_queries (cap0 : Nat) (w : ecs_world) (e c : Nat) (hwf : WF w) (h0 : 0 < cap0)
    (he : e < w.entity_count) (hreg : registered w c)
    (hhas : entity_has_component w e c = false)
    (hnew : (entity_add_component cap0 w e c).archetypes.length = w.archetypes.length + 1) :
    (entity_add_component cap0 w e c).queries =
      w.queries.map (fun q =>
        if ecs_query_matches_archetype q
            ((entity_add_component cap0 w e c).archetype w.archetypes.length) then
          { q with archetype_indices := darray_push q.archetype_indices w.archetypes.length }
        else q) ∧
    ((entity_add_component cap0 w e c).archetype w.archetypes.length).component_set.data =
      (w.archetype (w.record e).archetype_index).component_set.data ++ [c] ∧
    ((entity_add_component cap0 w e c).record e).archetype_index = w.archetypes.length := by
  have hcI := registered_ne hreg
  have hc := (has_false_iff w e c hcI).1 hhas
  have ha := hwf.rec_arch e he
  have hel : e < w.records.length := by rw [hwf.rec_len]; exact he
  rcases add_cases cap0 w e c hwf h0 he hreg hhas with
    ⟨b, _, _, _, hmv⟩ | ⟨_, s, hs, _, hprep1, _, _, _, _, hmv⟩
  · rw [hmv.length] at hnew; omega
  · have hl : (install_edges s.1 (w.record e).archetype_index c s.2).archetypes.length =
        s.1.archetypes.length := by simp [install_edges]
    have hel1 : e < (install_edges s.1 (w.record e).archetype_index c s.2).records.length := by
      have : (install_edges s.1 (w.record e).archetype_index c s.2).records = s.1.records := rfl
      rw [this, hprep1.records]; exact hel
    have hqi : (install_edges s.1 (w.record e).archetype_index c s.2).queries = s.1.queries := rfl
    rw [hmv.length, hl] at hnew
    rcases select_cases cap0 w _ c hwf ha hc hcI with ⟨b, _, h⟩ | ⟨_, h1, h2, h3⟩
    · rw [← hs] at h
      rw [h] at hnew
      simp only [] at hnew
      omega
    · rw [← hs] at h1 h2 h3
      have hset : ((entity_add_component cap0 w e c).archetype
          w.archetypes.length).component_set =
          { data := (w.archetype (w.record e).archetype_index).component_set.data ++ [c] } := by
        rw [hmv.set_eq, (install_archetype s.1 _ c s.2 _).1, archetype_eq, h2]
        simp
      refine ⟨?_, by rw [hset], by rw [hmv.record_self hel1, h1]⟩
      rw [hmv.queries, hqi, h3]
      apply List.map_congr_left
      intro q _
      rw [matches_congr q _ ((entity_add_component cap0 w e c).archetype w.archetypes.length)
        (by rw [hset])]

theorem wf_with_queries (w : ecs_world) (qs : List ecs_query) (hwf : WF w) :
    WF { w with queries := qs } :=
  { rec_len := hwf.rec_len
    arch_pos := hwf.arch_pos
    arch0 := hwf.arch0
    arch_ok := hwf.arch_ok
    rec_arch := hwf.rec_arch
    rec_row := hwf.rec_row
    edge_ok := hwf.edge_ok }

theorem edge_cached_reachable : Reachable 4 edge_cached :=
  Reachable.add two_created 0 1 two_created_reachable (by decide) (by decide)

theorem searching_reachable : Reachable 4 searching :=
  Reachable.add _ 1 2
    (Reachable.add _ 0 2 edge_cached_reachable (by decide) (by decide)) (by decide) (by decide)

theorem queried_wf : WF queried :=
  wf_with_queries demo4 _ (reachable_wf 4 (by decide) demo4 demo4_reachable)

/-- C1. Set then get: in every world reachable from `ecs_world_initialize`, for a
created entity `e`, a registered component `c` and bytes `v` whose length is the
registered stride of `c`, after `entity_set_component` the bytes that
`entity_get_component` resolves to are `v`, whether or not `e` had `c` before. -/
theorem C1_set_get_round_trip (cap0 : Nat) (h0 : 0 < cap0) (w : ecs_world)
    (hr : Reachable cap0 w) (e c : Nat) (v : List Nat) (he : e < w.entity_count)
    (hc : registered w c) (hv : v.length = w.stride c) :
    entity_get_component_bytes (entity_set_component cap0 w e c v (w.stride c)) e c = some v :=
  set_get_spec cap0 w e c v (reachable_wf cap0 h0 w hr) h0 he hc hv

/-- C1 at a concrete input: entity 0 of `demo4` has no component, `counter` is set to
the bytes `2 0 0 0` and read back. -/
theorem C1_set_get_round_trip_witness :
    0 < 4 ∧ Reachable 4 demo4 ∧ 0 < demo4.entity_count ∧ registered demo4 1 ∧
    [2, 0, 0, 0].length = demo4.stride 1 ∧
    entity_get_component_bytes (entity_set_component 4 demo4 0 1 [2, 0, 0, 0] (demo4.stride 1))
      0 1 = some [2, 0, 0, 0] :=
  ⟨by decide, demo4_reachable, by decide, by decide, by decide,
    C1_set_get_round_trip 4 (by decide) demo4 demo4_reachable 0 1 [2, 0, 0, 0] (by decide)
      (by decide) (by decide)⟩

/-- C2, evaluated at a failing input.  Entities 0 and 1 share the archetype of
`marker` and `flag`; entity 0 left it, and the record of entity 1 still names row 1.
Entity 2, with `marker = 12`, is then given `flag` by `entity_add_component`: the
bytes of `marker` that `entity_get_component` resolves to for entity 1 change from
11 to 12. -/
theorem C2_other_entity_bytes_change :
    Reachable 4 three_before ∧ 2 < three_before.entity_count ∧ registered three_before 3 ∧
    entity_has_component three_before 1 2 = true ∧
    entity_get_component_bytes three_before 1 2 = some [11] ∧
    entity_get_component_bytes (entity_add_component 4 three_before 2 3) 1 2 = some [12] :=
  ⟨three_before_reachable, by decide, by decide, by decide, by decide, by decide⟩

/-- C3, evaluated at a failing input.  Entities 0 and 1 occupy rows 0 and 1 of the
archetype of `marker`; `entity_add_component` moves entity 0 out.  Afterwards entity 1
is at row 0 of that archetype, but its record still holds index 1. -/
theorem C3_displaced_record_not_patched :
    Reachable 4 pair_in_marker ∧
    pair_in_marker.record 0 = { index := 0, archetype_index := 1 } ∧
    (pair_in_marker.archetype 1).entities = [0, 1] ∧
    entity_has_component pair_in_marker 0 1 = false ∧
    ((entity_add_component 4 pair_in_marker 0 1).archetype 1).entities = [1] ∧
    (entity_add_component 4 pair_in_marker 0 1).record 1 =
      { index := 1, archetype_index := 1 } :=
  ⟨pair_in_marker_reachable, by decide, by decide, by decide, by decide, by decide⟩

/-- C4, evaluated at a failing input.  After two calls of `entity_create` entity 1 is
created and its record is (archetype 0, row 0), but row 0 of archetype 0 holds
entity 0. -/
theorem C4_record_names_wrong_row :
    Reachable 4 two_created ∧ 1 < two_created.entity_count ∧
    two_created.record 1 = { index := 0, archetype_index := 0 } ∧
    (two_created.archetype 0).entities.getD 0 0 = 0 :=
  ⟨two_created_reachable, by decide, by decide, by decide⟩

/-- C5, evaluated at a failing input.  In a world whose archetype 0 already holds
entity 0, `entity_create` returns entity 1 and appends it at row 1, but the record it
stores holds row 0, the number of columns of archetype 0. -/
theorem C5_create_stores_column_count :
    (demo4.archetype 0).entities = [0] ∧ (entity_create demo4).2 = 1 ∧
    ((entity_create demo4).1.archetype 0).entities = [0, 1] ∧
    (entity_create demo4).1.record 1 = { index := 0, archetype_index := 0 } ∧
    (demo4.archetype 0).columns.length = 0 :=
  ⟨by decide, by decide, by decide, by decide, by decide⟩

/-- C6, evaluated at a failing input.  Entities 0 and 1 are created and entity 1 is
given `marker`.  Afterwards entity 1 is listed by archetype 0 and by the archetype of
`marker`, and entity 0 is listed by no archetype. -/
theorem C6_entity_in_two_archetypes :
    Reachable 4 two_created ∧ 1 < two_created.entity_count ∧ registered two_created 2 ∧
    (entity_add_component 4 two_created 1 2).archetypes.length = 2 ∧
    ((entity_add_component 4 two_created 1 2).archetype 0).entities = [1] ∧
    ((entity_add_component 4 two_created 1 2).archetype 1).entities = [1] ∧
    (entity_add_component 4 two_created 1 2).record 0 = { index := 0, archetype_index := 0 } ∧
    (entity_add_component 4 two_created 1 2).record 1 = { index := 0, archetype_index := 1 } :=
  ⟨two_created_reachable, by decide, by decide, by decide, by decide, by decide, by decide,
    by decide⟩

/-- C7. Column/entity length: in every reachable world, every column of every
archetype has as many rows as the archetype has entities. -/
theorem C7_column_count_eq_entities_count (cap0 : Nat) (h0 : 0 < cap0) (w : ecs_world)
    (hr : Reachable cap0 w) (a : Nat) (ha : a < w.archetypes.length) (col : ecs_column)
    (hcol : col ∈ (w.archetype a).columns) :
    col.count = (w.archetype a).entities.length := by
  obtain ⟨i, hi⟩ := List.mem_iff_getElem?.1 hcol
  have hok := (reachable_wf cap0 h0 w hr).arch_ok a ha
  have := hok.2.2.2.2 i (List.getElem?_eq_some.1 hi).1
  rw [getD_of_getElem? _ _ _ default hi] at this
  exact this.2.2.2

/-- C7 at a concrete input: the column of `counter` in the archetype entity 0 of
`demo5` lives in. -/
theorem C7_column_count_eq_entities_count_witness :
    0 < 4 ∧ Reachable 4 demo5 ∧ 1 < demo5.archetypes.length ∧
    (demo5.archetype 1).columns.getD 0 default ∈ (demo5.archetype 1).columns ∧
    ((demo5.archetype 1).columns.getD 0 default).count = (demo5.archetype 1).entities.length :=
  ⟨by decide, demo5_reachable, by decide, by decide,
    C7_column_count_eq_entities_count 4 (by decide) demo5 demo5_reachable 1 (by decide) _
      (by decide)⟩

/-- C8. An entity's own values survive a transition: in a reachable world, for a
created entity `e` whose record points at its own row, a registered component `c`
that `e` lacks and a component `c2` that `e` has, the bytes `entity_get_component`
resolves to for `c2` are the same after `entity_add_component` of `c` as before, and
they are as many as the stride of `c2`. -/
theorem C8_add_keeps_own_bytes (cap0 : Nat) (h0 : 0 < cap0) (w : ecs_world)
    (hr : Reachable cap0 w) (e c c2 : Nat) (he : e < w.entity_count)
    (_hrow : (w.record e).index < (w.archetype (w.record e).archetype_index).entities.length ∧
      (w.archetype (w.record e).archetype_index).entities.getD (w.record e).index 0 = e)
    (hc : registered w c) (hlacks : entity_has_component w e c = false)
    (hhas : entity_has_component w e c2 = true) :
    entity_get_component_bytes (entity_add_component cap0 w e c) e c2 =
      entity_get_component_bytes w e c2 ∧
    ∃ v, entity_get_component_bytes w e c2 = some v ∧ v.length = w.stride c2 :=
  add_keeps_bytes cap0 w e c c2 (reachable_wf cap0 h0 w hr) h0 he hc hlacks hhas

/-- C8 at a concrete input: entity 0 of `demo5` has `counter = 2` and is given
`marker`. -/
theorem C8_add_keeps_own_bytes_witness :
    0 < 4 ∧ Reachable 4 demo5 ∧ 0 < demo5.entity_count ∧
    ((demo5.record 0).index < (demo5.archetype (demo5.record 0).archetype_index).entities.length ∧
      (demo5.archetype (demo5.record 0).archetype_index).entities.getD (demo5.record 0).index 0
        = 0) ∧
    registered demo5 2 ∧ entity_has_component demo5 0 2 = false ∧
    entity_has_component demo5 0 1 = true ∧
    (entity_get_component_bytes (entity_add_component 4 demo5 0 2) 0 1 =
      entity_get_component_bytes demo5 0 1 ∧
    ∃ v, entity_get_component_bytes demo5 0 1 = some v ∧ v.length = demo5.stride 1) :=
  ⟨by decide, demo5_reachable, by decide, by decide, by decide, by decide, by decide,
    C8_add_keeps_own_bytes 4 (by decide) demo5 demo5_reachable 0 2 1 (by decide) (by decide)
      (by decide) (by decide) (by decide)⟩

/-- C9. Postcondition of add: in a reachable world, for a created entity `e` and a
registered component `c` that `e` lacks, after `entity_add_component` the entity has
`c`, has every other component exactly when it had it before, and every other entity
has a component exactly when it had it before.  The other components of `e` are
ids of 32 bits: the source narrows the argument of `entity_has_component` to the
32-bit key of the set and the embedding does not, so an id of more bits that
narrows to `c` is not covered. -/
theorem C9_add_postcondition (cap0 : Nat) (h0 : 0 < cap0) (w : ecs_world)
    (hr : Reachable cap0 w) (e c : Nat) (he : e < w.entity_count) (hc : registered w c)
    (hlacks : entity_has_component w e c = false) :
    entity_has_component (entity_add_component cap0 w e c) e c = true ∧
    (∀ c2, c2 ≠ c → c2 < 4294967296 →
      entity_has_component (entity_add_component cap0 w e c) e c2 =
        entity_has_component w e c2) ∧
    (∀ e2, e2 ≠ e → ∀ c3, entity_has_component (entity_add_component cap0 w e c) e2 c3 =
      entity_has_component w e2 c3) := by
  obtain ⟨h1, h2, h3⟩ := add_has_spec cap0 w e c (reachable_wf cap0 h0 w hr) h0 he hc hlacks
  exact ⟨h1, fun c2 hne _ => h2 c2 hne, h3⟩

/-- C9 at a concrete input: entity 1 of `two_created` is given `marker`. -/
theorem C9_add_postcondition_witness :
    0 < 4 ∧ Reachable 4 two_created ∧ 1 < two_created.entity_count ∧ registered two_created 2 ∧
    entity_has_component two_created 1 2 = false ∧
    (entity_has_component (entity_add_component 4 two_created 1 2) 1 2 = true ∧
    (∀ c2, c2 ≠ 2 → c2 < 4294967296 →
      entity_has_component (entity_add_component 4 two_created 1 2) 1 c2 =
        entity_has_component two_created 1 c2) ∧
    (∀ e2, e2 ≠ 1 → ∀ c3, entity_has_component (entity_add_component 4 two_created 1 2) e2 c3 =
      entity_has_component two_created e2 c3)) :=
  ⟨by decide, two_created_reachable, by decide, by decide, by decide,
    C9_add_postcondition 4 (by decide) two_created two_created_reachable 1 2 (by decide)
      (by decide) (by decide)⟩

/-- C10. Union law: let `e` be the entity `entity_create` returns in a reachable
world, followed by any sequence of valid calls (defines, creates, adds and sets
on any entities).  At the end `e` has component `c`, an id of 32 bits, iff one of
the calls added or set `c` on `e`, and the component set of the archetype its record
names holds exactly those components.  (The source narrows the argument of
`entity_has_component` to the 32-bit key of the set and the embedding does not,
hence the bound on `c` in the first part.) -/
theorem C10_union_law (cap0 : Nat) (h0 : 0 < cap0) (w : ecs_world) (hr : Reachable cap0 w)
    (calls : List ecs_call) (hok : calls_ok cap0 (entity_create w).1 calls) (c : Nat) :
    (c < 4294967296 →
      (entity_has_component (run_calls cap0 (entity_create w).1 calls) (entity_create w).2 c =
          true ↔
        ∃ call ∈ calls, call.touches (entity_create w).2 c = true)) ∧
    (c ∈ ((run_calls cap0 (entity_create w).1 calls).archetype
        ((run_calls cap0 (entity_create w).1 calls).record
          (entity_create w).2).archetype_index).component_set.data ↔
      ∃ call ∈ calls, call.touches (entity_create w).2 c = true) := by
  have hwf := reachable_wf cap0 h0 w hr
  have hwf1 := wf_create w hwf
  have he : (entity_create w).2 < (entity_create w).1.entity_count := Nat.lt_succ_self _
  have hfresh : entity_has_component (entity_create w).1 (entity_create w).2 c = false := by
    have hrec : (entity_create w).1.record (entity_create w).2 =
        { index := (w.archetype 0).columns.length, archetype_index := 0 } := by
      have : (entity_create w).2 = w.records.length := hwf.rec_len.symm
      rw [this]; exact create_record_new w
    rw [has_eq, hrec]
    simp only []
    rw [(create_archetype_core w 0).1]
    unfold ecs_component_set_contains
    rw [hwf.arch0]
    simp
  obtain ⟨hwf2, hiff⟩ := run_calls_has cap0 h0 (entity_create w).2 c calls (entity_create w).1
    hwf1 hok he
  rw [hfresh] at hiff
  simp only [Bool.false_eq_true, false_or] at hiff
  refine ⟨fun _ => hiff, ?_⟩
  rw [← hiff, has_eq, contains_iff]
  constructor
  · intro hmem
    exact ⟨registered_ne ((hwf2.arch_ok _ (record_arch_lt _ hwf2 _)).2.2.1 c hmem), hmem⟩
  · exact fun h => h.2

/-- C10 at a concrete input: entity 0 is created in `demo3`, is given `counter`, a
second entity is created and gets `marker = 7`, and entity 0 is given `flag`; the
component asked about is `flag`. -/
theorem C10_union_law_witness :
    0 < 4 ∧ Reachable 4 demo3 ∧
    calls_ok 4 (entity_create demo3).1
      [ecs_call.add 0 1, ecs_call.create, ecs_call.set 1 2 [7] 1, ecs_call.add 0 3] ∧
    ((3 < 4294967296 →
      (entity_has_component
          (run_calls 4 (entity_create demo3).1
            [ecs_call.add 0 1, ecs_call.create, ecs_call.set 1 2 [7] 1, ecs_call.add 0 3])
          (entity_create demo3).2 3 = true ↔
        ∃ call ∈ [ecs_call.add 0 1, ecs_call.create, ecs_call.set 1 2 [7] 1, ecs_call.add 0 3],
          call.touches (entity_create demo3).2 3 = true)) ∧
    (3 ∈ ((run_calls 4 (entity_create demo3).1
          [ecs_call.add 0 1, ecs_call.create, ecs_call.set 1 2 [7] 1,
            ecs_call.add 0 3]).archetype
        ((run_calls 4 (entity_create demo3).1
          [ecs_call.add 0 1, ecs_call.create, ecs_call.set 1 2 [7] 1, ecs_call.add 0 3]).record
          (entity_create demo3).2).archetype_index).component_set.data ↔
      ∃ call ∈ [ecs_call.add 0 1, ecs_call.create, ecs_call.set 1 2 [7] 1, ecs_call.add 0 3],
        call.touches (entity_create demo3).2 3 = true)) :=
  ⟨by decide, demo3_reachable, by decide,
    C10_union_law 4 (by decide) demo3 demo3_reachable
      [ecs_call.add 0 1, ecs_call.create, ecs_call.set 1 2 [7] 1, ecs_call.add 0 3]
      (by decide) 3⟩
/-! ## Claims C11 to C20 -/

/-- C11. Archetype sharing does not depend on the order of the calls: in a
reachable world let `a` and `b` be created entities with the same components, and
let any sequence of valid calls follow in which a component is added to (or set on)
`a` iff it is added to (or set on) `b`, in whatever order and however interleaved.
At the end the records of `a` and `b` name the same archetype.  The case of the
claim is two fresh entities and the calls `add(a, x)` for `x` in one ordering of `S`
followed by `add(b, x)` for `x` in another. -/
theorem C11_archetype_sharing (cap0 : Nat) (h0 : 0 < cap0) (w : ecs_world)
    (hr : Reachable cap0 w) (a b : Nat) (ha : a < w.entity_count) (hb : b < w.entity_count)
    (hsame : ∀ c, entity_has_component w a c = entity_has_component w b c)
    (calls : List ecs_call) (hok : calls_ok cap0 w calls)
    (htouch : ∀ c, (∃ call ∈ calls, call.touches a c = true) ↔
      (∃ call ∈ calls, call.touches b c = true)) :
    ((run_calls cap0 w calls).record a).archetype_index =
      ((run_calls cap0 w calls).record b).archetype_index := by
  have hwf := reachable_wf cap0 h0 w hr
  have hr2 := run_calls_reachable cap0 calls w hr hok
  have hwf2 := reachable_wf cap0 h0 _ hr2
  apply same_components_same_archetype _ hwf2 (reachable_unique cap0 h0 _ hr2).1
  intro c
  have hA := (run_calls_has cap0 h0 a c calls w hwf hok ha).2
  have hB := (run_calls_has cap0 h0 b c calls w hwf hok hb).2
  rw [Bool.eq_iff_iff, hA, hB, hsame c, htouch c]

/-- C11 at the input of the claim: entities 0 and 1 are fresh in `two_created`;
entity 0 gets `counter` then `marker`, entity 1 gets `marker` then `counter`. -/
theorem C11_archetype_sharing_witness :
    0 < 4 ∧ Reachable 4 two_created ∧ 0 < two_created.entity_count ∧
    1 < two_created.entity_count ∧
    (∀ c, entity_has_component two_created 0 c = entity_has_component two_created 1 c) ∧
    calls_ok 4 two_created
      [ecs_call.add 0 1, ecs_call.add 0 2, ecs_call.add 1 2, ecs_call.add 1 1] ∧
    ((run_calls 4 two_created
        [ecs_call.add 0 1, ecs_call.add 0 2, ecs_call.add 1 2, ecs_call.add 1 1]).record
        0).archetype_index =
      ((run_calls 4 two_created
        [ecs_call.add 0 1, ecs_call.add 0 2, ecs_call.add 1 2, ecs_call.add 1 1]).record
        1).archetype_index :=
  ⟨by decide, two_created_reachable, by decide, by decide, fun _ => rfl, by decide,
    C11_archetype_sharing 4 (by decide) two_created two_created_reachable 0 1 (by decide)
      (by decide) (fun _ => rfl)
      [ecs_call.add 0 1, ecs_call.add 0 2, ecs_call.add 1 2, ecs_call.add 1 1] (by decide)
      (fun c => by simp [ecs_call.touches, or_comm])⟩

/-- C12. Idempotent add: when the entity already has the component,
`entity_add_component` returns the world it was given, so records, entity lists,
columns, edge maps and the number of archetypes are all as before. -/
theorem C12_add_idempotent (cap0 : Nat) (w : ecs_world) (e c : Nat)
    (hhas : entity_has_component w e c = true) :
    entity_add_component cap0 w e c = w := by
  unfold entity_add_component
  rw [if_pos hhas]

/-- C12 at a concrete input: entity 0 of `demo5` has `counter`. -/
theorem C12_add_idempotent_witness :
    entity_has_component demo5 0 1 = true ∧ entity_add_component 4 demo5 0 1 = demo5 :=
  ⟨by decide, C12_add_idempotent 4 demo5 0 1 (by decide)⟩

/-- C14. Missing-component lookups return sentinels: for a component id `c` of 32
bits (the source narrows the argument to the 32-bit key of the set, the embedding
does not), when the component set of the archetype the record of `e` names does
not contain `c`, `entity_get_component` returns null, and
`entity_try_get_component` returns false and leaves `*out_data` as it was.  Both
functions only read the world: the embedding gives them no world to return. -/
theorem C14_missing_component_lookups (w : ecs_world) (e c : Nat) (_hc : c < 4294967296)
    (hmiss : ecs_component_set_contains
      (w.archetype (w.record e).archetype_index).component_set c = false) :
    entity_get_component w e c = none ∧
    ∀ out, entity_try_get_component w e c out = (false, out) := by
  unfold entity_get_component entity_try_get_component
  simp only [hmiss, Bool.not_false, if_true]
  exact ⟨trivial, fun _ => trivial⟩

/-- C14 at a concrete input: entity 0 of `demo4` is fresh and lacks `counter`. -/
theorem C14_missing_component_lookups_witness :
    1 < 4294967296 ∧
    ecs_component_set_contains
      (demo4.archetype (demo4.record 0).archetype_index).component_set 1 = false ∧
    entity_get_component demo4 0 1 = none ∧
    ∀ out, entity_try_get_component demo4 0 1 out = (false, out) :=
  ⟨by decide, by decide, C14_missing_component_lookups demo4 0 1 (by decide) (by decide)⟩

/-- C15. The checked and unchecked getters agree: `entity_try_get_component`
returns true iff `entity_has_component` does, and then the location it stores in
`*out_data` is the result of `entity_get_component`: the column at ordinal
`get_index(set, c)` of the archetype the record names, at offset
`record.index * column.component_stride`. -/
theorem C15_getters_agree (w : ecs_world) (e c : Nat) (out : Option component_ptr) :
    ((entity_try_get_component w e c out).1 = true ↔ entity_has_component w e c = true) ∧
    ((entity_try_get_component w e c out).1 = true →
      (entity_try_get_component w e c out).2 = entity_get_component w e c ∧
      entity_get_component w e c = some
        { archetype := (w.record e).archetype_index
          column := ecs_component_set_get_index
            (w.archetype (w.record e).archetype_index).component_set c
          offset := (w.record e).index *
            ((w.archetype (w.record e).archetype_index).columns.getD
              ( ecs_component_set_get_index
                (w.archetype (w.record e).archetype_index).component_set c)
              default).component_stride }) := by
  unfold entity_try_get_component entity_get_component entity_has_component
  cases h : ecs_component_set_contains
      (w.archetype (w.record e).archetype_index).component_set c <;> simp [h]

/-- C15 at a concrete input: entity 0 of `demo5` has `counter`, at column 0 of
archetype 1, offset 0; the out-parameter held null before. -/
theorem C15_getters_agree_witness :
    ((entity_try_get_component demo5 0 1 none).1 = true ↔
      entity_has_component demo5 0 1 = true) ∧
    ((entity_try_get_component demo5 0 1 none).1 = true →
      (entity_try_get_component demo5 0 1 none).2 = entity_get_component demo5 0 1 ∧
      entity_get_component demo5 0 1 = some
        { archetype := (demo5.record 0).archetype_index
          column := ecs_component_set_get_index
            (demo5.archetype (demo5.record 0).archetype_index).component_set 1
          offset := (demo5.record 0).index *
            ((demo5.archetype (demo5.record 0).archetype_index).columns.getD
              ( ecs_component_set_get_index
                (demo5.archetype (demo5.record 0).archetype_index).component_set 1)
              default).component_stride }) :=
  C15_getters_agree demo5 0 1 none

/-- C16. A fresh entity has no components: in a reachable world, the record of the
entity `entity_create` returns names archetype 0 and `entity_has_component` is false
for it and every component id. -/
theorem C16_fresh_entity_has_nothing (cap0 : Nat) (h0 : 0 < cap0) (w : ecs_world)
    (hr : Reachable cap0 w) :
    ((entity_create w).1.record (entity_create w).2).archetype_index = 0 ∧
    ∀ c, entity_has_component (entity_create w).1 (entity_create w).2 c = false :=
  create_fresh w (reachable_wf cap0 h0 w hr)

/-- C16 at a concrete input: an entity is created in `demo5`, where entity 0
already has `counter`. -/
theorem C16_fresh_entity_has_nothing_witness :
    0 < 4 ∧ Reachable 4 demo5 ∧
    ((entity_create demo5).1.record (entity_create demo5).2).archetype_index = 0 ∧
    ∀ c, entity_has_component (entity_create demo5).1 (entity_create demo5).2 c = false :=
  ⟨by decide, demo5_reachable, C16_fresh_entity_has_nothing 4 (by decide) demo5 demo5_reachable⟩

/-- C17. Entity handles are allocated monotonically: after `ecs_world_initialize`
and any calls, `entity_create` returns the number of `entity_create` calls made
before it and raises `entity_count` by exactly one; after any further calls a later
`entity_create` returns that handle plus one plus the number of creates in between,
which is strictly larger, so no handle repeats. -/
theorem C17_handles_monotonic (cap0 : Nat) (before between : List ecs_call) :
    (entity_create (run_calls cap0 ( ecs_world_initialize cap0) before)).2 =
      before.countP ecs_call.creates ∧
    (entity_create (run_calls cap0 ( ecs_world_initialize cap0) before)).1.entity_count =
      (run_calls cap0 ( ecs_world_initialize cap0) before).entity_count + 1 ∧
    (entity_create (run_calls cap0
        (entity_create (run_calls cap0 ( ecs_world_initialize cap0) before)).1 between)).2 =
      (entity_create (run_calls cap0 ( ecs_world_initialize cap0) before)).2 + 1 +
        between.countP ecs_call.creates ∧
    (entity_create (run_calls cap0 ( ecs_world_initialize cap0) before)).2 <
      (entity_create (run_calls cap0
        (entity_create (run_calls cap0 ( ecs_world_initialize cap0) before)).1 between)).2 := by
  have h1 := (run_calls_frame cap0 before ( ecs_world_initialize cap0)).1
  have h2 := (run_calls_frame cap0 between
    (entity_create (run_calls cap0 ( ecs_world_initialize cap0) before)).1).1
  have hc : ∀ w : ecs_world, (entity_create w).2 = w.entity_count := fun _ => rfl
  have hn : ∀ w : ecs_world, (entity_create w).1.entity_count = w.entity_count + 1 :=
    fun _ => rfl
  have h0 : ( ecs_world_initialize cap0).entity_count = 0 := rfl
  rw [hc, hc, hn, h2, hn, h1, h0]
  omega

/-- C18. Component ids are dense in registration order with 0 reserved: after
`ecs_world_initialize` and any calls, the names and strides registered are `Null`
with stride 0 at id 0 followed by those of the `ecs_world_component_define` calls in
order; a further define returns one plus the number of defines made before (so the
`k`-th returns `k`), stores its name and stride at that id, and leaves the names and
strides registered before as they were. -/
theorem C18_component_ids_dense (cap0 : Nat) (calls : List ecs_call) (name : String)
    (stride : Nat) :
    (run_calls cap0 ( ecs_world_initialize cap0) calls).registry =
      ("Null", 0) :: calls.filterMap ecs_call.defined ∧
    ( ecs_world_component_define
        (run_calls cap0 ( ecs_world_initialize cap0) calls) name stride).2 =
      (calls.filterMap ecs_call.defined).length + 1 ∧
    ( ecs_world_component_define
        (run_calls cap0 ( ecs_world_initialize cap0) calls) name stride).1.registry =
      (run_calls cap0 ( ecs_world_initialize cap0) calls).registry ++ [(name, stride)] ∧
    ( ecs_world_component_define
        (run_calls cap0 ( ecs_world_initialize cap0) calls) name stride).1.registry[
          ( ecs_world_component_define
            (run_calls cap0 ( ecs_world_initialize cap0) calls) name stride).2]? =
      some (name, stride) := by
  have h1 := (run_calls_frame cap0 calls ( ecs_world_initialize cap0)).2.1
  have h0 : ( ecs_world_initialize cap0).registry = [("Null", 0)] := rfl
  rw [h0] at h1
  have hid : ∀ w : ecs_world, ( ecs_world_component_define w name stride).2 =
      w.registry.length := by
    intro w
    unfold ecs_world_component_define ecs_world.registry
    simp
  have hreg : ∀ w : ecs_world, ( ecs_world_component_define w name stride).1.registry =
      w.registry ++ [(name, stride)] := by
    intro w
    unfold ecs_world_component_define ecs_world.registry darray_push
    simp
  refine ⟨by rw [h1]; rfl, by rw [hid, h1]; simp, hreg _, ?_⟩
  rw [hreg, hid]
  simp

/-- C19. Initial world state: `ecs_world_initialize` gives entity count 0 and no
records, one archetype (id 0, empty component set, no columns, no entities), one
registered component (`Null`, stride 0, at id 0), no queries, and
`ECS_PHASE_ENUM_MAX` system lists, each of them empty. -/
theorem C19_initial_world (cap0 : Nat) :
    ( ecs_world_initialize cap0).entity_count = 0 ∧
    ( ecs_world_initialize cap0).records = [] ∧
    ( ecs_world_initialize cap0).archetypes.length = 1 ∧
    (( ecs_world_initialize cap0).archetype 0).archetype_id = 0 ∧
    (( ecs_world_initialize cap0).archetype 0).component_set.data = [] ∧
    (( ecs_world_initialize cap0).archetype 0).columns = [] ∧
    (( ecs_world_initialize cap0).archetype 0).entities = [] ∧
    ( ecs_world_initialize cap0).registry = [("Null", 0)] ∧
    ( ecs_world_initialize cap0).queries = [] ∧
    ( ecs_world_initialize cap0).systems.length = ECS_PHASE_ENUM_MAX ∧
    ∀ phase, phase < ECS_PHASE_ENUM_MAX →
      ( ecs_world_initialize cap0).systems[phase]? = some [] := by
  refine ⟨rfl, rfl, rfl, rfl, rfl, rfl, rfl, rfl, rfl, rfl, ?_⟩
  intro phase h
  have : ( ecs_world_initialize cap0).systems = List.replicate ECS_PHASE_ENUM_MAX [] := rfl
  rw [this, List.getElem?_replicate, if_pos h]

/-- C20. Tick ordering: let the callbacks leave the system lists alone and let the
fuel cover the longest list.  Then `ecs_world_progress` returns, and the calls of
`ecs_query_iterate` it made are, in order, one per system of `systems[0]`, then of
`systems[1]`, up to `systems[ECS_PHASE_ENUM_MAX - 1]`, each list in insertion
order; and the phase indices 0 to 7 are PHYSICS, PRE_UPDATE, UPDATE, POST_UPDATE,
TRANSFORM, PRE_RENDER, RENDER, POST_RENDER. -/
theorem C20_tick_ordering (iterate : ecs_world → Nat → Nat → ecs_world)
    (hiter : ∀ w q cb, (iterate w q cb).systems = w.systems) (fuel : Nat) (w : ecs_world)
    (hfuel : ∀ phase, phase < ECS_PHASE_ENUM_MAX → (w.systems.getD phase []).length ≤ fuel) :
    (∃ w2, ecs_world_progress iterate fuel w =
      some (w2, (List.range ECS_PHASE_ENUM_MAX).flatMap (fun phase => w.systems.getD phase []))) ∧
    List.range ECS_PHASE_ENUM_MAX =
      [ECS_PHASE_PHYSICS, ECS_PHASE_PRE_UPDATE, ECS_PHASE_UPDATE, ECS_PHASE_POST_UPDATE,
        ECS_PHASE_TRANSFORM, ECS_PHASE_PRE_RENDER, ECS_PHASE_RENDER, ECS_PHASE_POST_RENDER] := by
  refine ⟨?_, by decide⟩
  obtain ⟨w2, h2, _⟩ := progress_fold_run iterate hiter fuel (List.range ECS_PHASE_ENUM_MAX) w []
    (fun p hp => hfuel p (List.mem_range.1 hp))
  exact ⟨w2, by unfold ecs_world_progress; rw [h2, List.nil_append]⟩

/-- C20 at a concrete input: `ticking` has one system in PHYSICS, two in UPDATE and
one in POST_RENDER; the callbacks change nothing.  The four calls are made in the
order of the callbacks 10, 11, 12, 13. -/
theorem C20_tick_ordering_witness :
    (∀ (w : ecs_world) (q cb : Nat), ((fun (v : ecs_world) (_ _ : Nat) => v) w q cb).systems =
      w.systems) ∧
    (∀ phase, phase < ECS_PHASE_ENUM_MAX → (ticking.systems.getD phase []).length ≤ 2) ∧
    (List.range ECS_PHASE_ENUM_MAX).flatMap (fun phase => ticking.systems.getD phase []) =
      [{ query := 0, callback := 10 }, { query := 1, callback := 11 },
        { query := 0, callback := 12 }, { query := 1, callback := 13 }] ∧
    ((∃ w2, ecs_world_progress (fun (v : ecs_world) (_ _ : Nat) => v) 2 ticking =
      some (w2, (List.range ECS_PHASE_ENUM_MAX).flatMap
        (fun phase => ticking.systems.getD phase []))) ∧
    List.range ECS_PHASE_ENUM_MAX =
      [ECS_PHASE_PHYSICS, ECS_PHASE_PRE_UPDATE, ECS_PHASE_UPDATE, ECS_PHASE_POST_UPDATE,
        ECS_PHASE_TRANSFORM, ECS_PHASE_PRE_RENDER, ECS_PHASE_RENDER, ECS_PHASE_POST_RENDER]) :=
  ⟨fun _ _ _ => rfl, by decide, by decide,
    C20_tick_ordering (fun (v : ecs_world) (_ _ : Nat) => v) (fun _ _ _ => rfl) 2 ticking
      (by decide)⟩
/-! ## Claims C21 to C30 -/

/-- C21. Progress on a world without systems is a no-op: when the system list of
every phase is empty, `ecs_world_progress` returns the world it was given and
the trace of its `ecs_query_iterate` calls is empty, whatever the callbacks would
do and with any fuel. -/
theorem C21_progress_without_systems (iterate : ecs_world → Nat → Nat → ecs_world)
    (fuel : Nat) (w : ecs_world)
    (h : ∀ phase, phase < ECS_PHASE_ENUM_MAX → w.systems.getD phase [] = []) :
    ecs_world_progress iterate fuel w = some (w, []) := by
  unfold ecs_world_progress
  exact progress_fold_idle iterate fuel w [] _ (fun p hp => h p (List.mem_range.1 hp))

/-- C21 at the world `ecs_world_initialize` returns, with callbacks that would
create an entity if they were called, and no fuel. -/
theorem C21_progress_without_systems_witness :
    (∀ phase, phase < ECS_PHASE_ENUM_MAX → demo0.systems.getD phase [] = []) ∧
    ecs_world_progress (fun v _ _ => (entity_create v).1) 0 demo0 = some (demo0, []) :=
  ⟨by decide, C21_progress_without_systems (fun v _ _ => (entity_create v).1) 0 demo0 (by decide)⟩

/-- C22. Edges are installed in inverse pairs: in a reachable world every add edge
`A.add_edges[c] = B` has the remove edge `B.remove_edges[c] = A`; and when
`entity_add_component` moves a created entity that lacks the registered component
`c` from archetype `A` to archetype `B`, afterwards `A.add_edges[c] = B` and
`B.remove_edges[c] = A`, with `B` other than `A`. -/
theorem C22_edges_inverse_pairs (cap0 : Nat) (h0 : 0 < cap0) (w : ecs_world)
    (hr : Reachable cap0 w) (e c : Nat) (he : e < w.entity_count) (hreg : registered w c)
    (hhas : entity_has_component w e c = false) :
    (∀ a x b, a < w.archetypes.length →
      entity_archetype_ptr_map_try_get (w.archetype a).edges.add_edges x = some b →
      entity_archetype_ptr_map_try_get (w.archetype b).edges.remove_edges x = some a) ∧
    entity_archetype_ptr_map_try_get
      ((entity_add_component cap0 w e c).archetype (w.record e).archetype_index).edges.add_edges
      c = some ((entity_add_component cap0 w e c).record e).archetype_index ∧
    entity_archetype_ptr_map_try_get
      ((entity_add_component cap0 w e c).archetype
        ((entity_add_component cap0 w e c).record e).archetype_index).edges.remove_edges
      c = some (w.record e).archetype_index ∧
    (w.record e).archetype_index ≠ ((entity_add_component cap0 w e c).record e).archetype_index := by
  have hwf := reachable_wf cap0 h0 w hr
  have hP := reachable_paired cap0 h0 w hr
  have hP2 := reachable_paired cap0 h0 _ (Reachable.add w e c hr he hreg)
  obtain ⟨h1, h2⟩ := add_edge_installed cap0 w e c hwf h0 he hreg hhas
  have hla : (w.record e).archetype_index < (entity_add_component cap0 w e c).archetypes.length :=
    Nat.lt_of_lt_of_le (hwf.rec_arch e he)
      (add_length cap0 w e c hwf h0 he hreg (reachable_unique cap0 h0 w hr).1
        (reachable_unique cap0 h0 w hr).2).1
  exact ⟨fun a x b ha hedge => (hP a ha x b hedge).2, h1, (hP2 _ hla c _ h1).2, h2⟩

/-- C22 at a concrete input: entity 1 of `edge_cached` is in the empty archetype,
which has the edge for `counter` only, and is given `marker`. -/
theorem C22_edges_inverse_pairs_witness :
    0 < 4 ∧ Reachable 4 edge_cached ∧ 1 < edge_cached.entity_count ∧ registered edge_cached 2 ∧
    entity_has_component edge_cached 1 2 = false ∧
    ((∀ a x b, a < edge_cached.archetypes.length →
      entity_archetype_ptr_map_try_get (edge_cached.archetype a).edges.add_edges x = some b →
      entity_archetype_ptr_map_try_get (edge_cached.archetype b).edges.remove_edges x = some a) ∧
    entity_archetype_ptr_map_try_get
      ((entity_add_component 4 edge_cached 1 2).archetype
        (edge_cached.record 1).archetype_index).edges.add_edges
      2 = some ((entity_add_component 4 edge_cached 1 2).record 1).archetype_index ∧
    entity_archetype_ptr_map_try_get
      ((entity_add_component 4 edge_cached 1 2).archetype
        ((entity_add_component 4 edge_cached 1 2).record 1).archetype_index).edges.remove_edges
      2 = some (edge_cached.record 1).archetype_index ∧
    (edge_cached.record 1).archetype_index ≠
      ((entity_add_component 4 edge_cached 1 2).record 1).archetype_index) :=
  ⟨by decide, edge_cached_reachable, by decide, by decide, by decide,
    C22_edges_inverse_pairs 4 (by decide) edge_cached edge_cached_reachable 1 2 (by decide)
      (by decide) (by decide)⟩

/-- C23. Queries stay sound and complete when an add creates an archetype: in a
sound world whose query match lists name existing archetypes, after an
`entity_add_component` that creates an archetype (at the index `N`, the old number
of archetypes), every query keeps its includes and excludes; a query the new
archetype matches has `N` appended to its match list and holds it exactly once, a
query it does not match keeps its list and does not hold `N`; so the entries for
the archetypes that existed are unchanged.  The archetype matches when its set
contains every include and no exclude. -/
theorem C23_queries_after_creation (cap0 : Nat) (h0 : 0 < cap0) (w : ecs_world) (hwf : WF w)
    (hq : queries_in_range w) (e c : Nat) (he : e < w.entity_count) (hreg : registered w c)
    (hhas : entity_has_component w e c = false)
    (hnew : (entity_add_component cap0 w e c).archetypes.length = w.archetypes.length + 1)
    (j : Nat) (hj : j < w.queries.length) :
    (entity_add_component cap0 w e c).queries.length = w.queries.length ∧
    ((entity_add_component cap0 w e c).queries.getD j default).components =
      (w.queries.getD j default).components ∧
    ((entity_add_component cap0 w e c).queries.getD j default).without_components =
      (w.queries.getD j default).without_components ∧
    (ecs_query_matches_archetype (w.queries.getD j default)
        ((entity_add_component cap0 w e c).archetype w.archetypes.length) = true ↔
      ((∀ x ∈ (w.queries.getD j default).components,
          ecs_component_set_contains
            ((entity_add_component cap0 w e c).archetype w.archetypes.length).component_set x =
              true) ∧
        ∀ x ∈ (w.queries.getD j default).without_components,
          ecs_component_set_contains
            ((entity_add_component cap0 w e c).archetype w.archetypes.length).component_set x =
              false)) ∧
    ((entity_add_component cap0 w e c).queries.getD j default).archetype_indices =
      (w.queries.getD j default).archetype_indices ++
        (if ecs_query_matches_archetype (w.queries.getD j default)
            ((entity_add_component cap0 w e c).archetype w.archetypes.length)
          then [w.archetypes.length] else []) ∧
    ((entity_add_component cap0 w e c).queries.getD j default).archetype_indices.count
        w.archetypes.length =
      (if ecs_query_matches_archetype (w.queries.getD j default)
          ((entity_add_component cap0 w e c).archetype w.archetypes.length)
        then 1 else 0) := by
  obtain ⟨hqs, _, _⟩ := add_queries cap0 w e c hwf h0 he hreg hhas hnew
  have hget : (entity_add_component cap0 w e c).queries.getD j default =
      (if ecs_query_matches_archetype (w.queries.getD j default)
          ((entity_add_component cap0 w e c).archetype w.archetypes.length) then
        { (w.queries.getD j default) with
          archetype_indices :=
            darray_push (w.queries.getD j default).archetype_indices w.archetypes.length }
      else w.queries.getD j default) := by
    apply getD_of_getElem?
    rw [hqs, List.getElem?_map, getElem?_of_lt_getD _ _ default hj]
    rfl
  have hnot : w.archetypes.length ∉ (w.queries.getD j default).archetype_indices := by
    intro hmem
    have hqm : w.queries.getD j default ∈ w.queries :=
      List.mem_iff_getElem?.2 ⟨j, getElem?_of_lt_getD _ _ default hj⟩
    exact absurd (hq _ hqm _ hmem) (Nat.lt_irrefl _)
  refine ⟨by rw [hqs, List.length_map], ?_, ?_, ?_, ?_, ?_⟩
  · rw [hget]; split <;> rfl
  · rw [hget]; split <;> rfl
  · unfold ecs_query_matches_archetype
    simp [Bool.and_eq_true, List.all_eq_true]
  · rw [hget]
    split
    · rfl
    · simp
  · rw [hget]
    split
    · simp only [darray_push]
      rw [List.count_append, List.count_eq_zero_of_not_mem hnot]
      simp
    · exact List.count_eq_zero_of_not_mem hnot

/-- C23 at a concrete input: in `queried` the first query includes `counter` and the
second excludes it; entity 0 is given `counter`, which creates archetype 1; the
query asked about is the first. -/
theorem C23_queries_after_creation_witness :
    0 < 4 ∧ WF queried ∧ queries_in_range queried ∧ 0 < queried.entity_count ∧
    registered queried 1 ∧ entity_has_component queried 0 1 = false ∧
    (entity_add_component 4 queried 0 1).archetypes.length = queried.archetypes.length + 1 ∧
    0 < queried.queries.length ∧
    ((entity_add_component 4 queried 0 1).queries.length = queried.queries.length ∧
    ((entity_add_component 4 queried 0 1).queries.getD 0 default).components =
      (queried.queries.getD 0 default).components ∧
    ((entity_add_component 4 queried 0 1).queries.getD 0 default).without_components =
      (queried.queries.getD 0 default).without_components ∧
    (ecs_query_matches_archetype (queried.queries.getD 0 default)
        ((entity_add_component 4 queried 0 1).archetype queried.archetypes.length) = true ↔
      ((∀ x ∈ (queried.queries.getD 0 default).components,
          ecs_component_set_contains
            ((entity_add_component 4 queried 0 1).archetype
              queried.archetypes.length).component_set x = true) ∧
        ∀ x ∈ (queried.queries.getD 0 default).without_components,
          ecs_component_set_contains
            ((entity_add_component 4 queried 0 1).archetype
              queried.archetypes.length).component_set x = false)) ∧
    ((entity_add_component 4 queried 0 1).queries.getD 0 default).archetype_indices =
      (queried.queries.getD 0 default).archetype_indices ++
        (if ecs_query_matches_archetype (queried.queries.getD 0 default)
            ((entity_add_component 4 queried 0 1).archetype queried.archetypes.length)
          then [queried.archetypes.length] else []) ∧
    ((entity_add_component 4 queried 0 1).queries.getD 0 default).archetype_indices.count
        queried.archetypes.length =
      (if ecs_query_matches_archetype (queried.queries.getD 0 default)
          ((entity_add_component 4 queried 0 1).archetype queried.archetypes.length)
        then 1 else 0)) :=
  ⟨by decide, queried_wf, by unfold queries_in_range; decide, by decide, by decide, by decide,
    by decide, by decide,
    C23_queries_after_creation 4 (by decide) queried queried_wf
      (by unfold queries_in_range; decide) 0 1 (by decide) (by decide) (by decide) (by decide)
      0 (by decide)⟩

/-- C24, the code against the claim.  Two worlds are initialized, at addresses 0
and 1, and `ecs_world_shutdown` is called on the first.  Every destroy call is made
on a structure of the second world, the one `pvt_ecs_world` points to; no structure
of the first world is destroyed. -/
theorem C24_shutdown_destroys_singleton :
    ( ecs_world_initialize_in 4 { worlds := [], pvt_ecs_world := 0 }).2 = 0 ∧
    ( ecs_world_initialize_in 4
      ( ecs_world_initialize_in 4 { worlds := [], pvt_ecs_world := 0 }).1).2 = 1 ∧
    twice_initialized.pvt_ecs_world = 1 ∧
    ecs_world_shutdown twice_initialized 0 =
      [ecs_destroyed.archetype 1 0, ecs_destroyed.component_archetypes 1 0,
        ecs_destroyed.systems 1 0, ecs_destroyed.systems 1 1, ecs_destroyed.systems 1 2,
        ecs_destroyed.systems 1 3, ecs_destroyed.systems 1 4, ecs_destroyed.systems 1 5,
        ecs_destroyed.systems 1 6, ecs_destroyed.systems 1 7, ecs_destroyed.queries_array 1,
        ecs_destroyed.records_array 1, ecs_destroyed.components_array 1,
        ecs_destroyed.archetypes_array 1] ∧
    (∀ d ∈ ecs_world_shutdown twice_initialized 0, d.owner ≠ 0) :=
  ⟨rfl, rfl, rfl, by decide, by decide⟩

/-- C26. The archetype search of `entity_add_component` is exact: in a reachable
world let the created entity `e`, in archetype `A`, lack the registered component
`c`, and let the search of `component.archetypes` select the archetype `D`.  Then
the set of `D` is the set of `A` with `c`: it holds `c` and every component of `A`,
nothing else, and one component more than `A` (so exactly one when `A` is the empty
archetype); and when no edge is cached the entity is moved to `D`. -/
theorem C26_search_exact (cap0 : Nat) (h0 : 0 < cap0) (w : ecs_world) (hr : Reachable cap0 w)
    (e c D : Nat) (he : e < w.entity_count) (hreg : registered w c)
    (hhas : entity_has_component w e c = false)
    (hfind : (w.components.getD c default).archetypes.find?
      (entity_add_component_candidate w (w.record e).archetype_index c) = some D) :
    D < w.archetypes.length ∧
    (∀ x, x ∈ (w.archetype D).component_set.data ↔
      (x ∈ (w.archetype (w.record e).archetype_index).component_set.data ∨ x = c)) ∧
    (w.archetype D).component_set.count =
      (w.archetype (w.record e).archetype_index).component_set.count + 1 ∧
    ((w.record e).archetype_index = 0 → (w.archetype D).component_set.data = [c]) ∧
    (entity_archetype_ptr_map_try_get
        (w.archetype (w.record e).archetype_index).edges.add_edges c = none →
      ((entity_add_component cap0 w e c).record e).archetype_index = D) := by
  have hwf := reachable_wf cap0 h0 w hr
  have hcI := registered_ne hreg
  have hc := (has_false_iff w e c hcI).1 hhas
  have ha := hwf.rec_arch e he
  have hcand := List.find?_some hfind
  obtain ⟨hD, hset⟩ := candidate_spec w _ c D hwf ha hc hcand
  refine ⟨hD, hset, candidate_count w _ c D hcand, ?_, ?_⟩
  · intro hzero
    have hnd := (hwf.arch_ok D hD).2.1
    have hmem : ∀ x, x ∈ (w.archetype D).component_set.data ↔ x ∈ [c] := by
      intro x
      rw [hset x, hzero, hwf.arch0]
      simp
    have hperm := (List.perm_ext_iff_of_nodup hnd (List.nodup_singleton c)).2 hmem
    exact List.perm_singleton.1 hperm
  · intro hedge
    rcases add_cases cap0 w e c hwf h0 he hreg hhas with
      ⟨b, hb, _⟩ | ⟨_, s, hs, _, hprep1, _, _, _, _, hmv⟩
    · rw [hedge] at hb; exact absurd hb (by simp)
    · have hel1 : e < (install_edges s.1 (w.record e).archetype_index c s.2).records.length := by
        have : (install_edges s.1 (w.record e).archetype_index c s.2).records = s.1.records := rfl
        rw [this, hprep1.records, hwf.rec_len]; exact he
      rw [hmv.record_self hel1, hs]
      unfold select_archetype
      rw [hfind]

/-- C26 at a concrete input: in `searching` entity 1 is in the archetype of `marker`
alone (index 3), which has no edge for `counter`; the search selects archetype 2,
of `counter` and `marker`. -/
theorem C26_search_exact_witness :
    0 < 4 ∧ Reachable 4 searching ∧ 1 < searching.entity_count ∧ registered searching 1 ∧
    entity_has_component searching 1 1 = false ∧
    (searching.components.getD 1 default).archetypes.find?
      (entity_add_component_candidate searching (searching.record 1).archetype_index 1) =
        some 2 ∧
    (2 < searching.archetypes.length ∧
    (∀ x, x ∈ (searching.archetype 2).component_set.data ↔
      (x ∈ (searching.archetype (searching.record 1).archetype_index).component_set.data ∨
        x = 1)) ∧
    (searching.archetype 2).component_set.count =
      (searching.archetype (searching.record 1).archetype_index).component_set.count + 1 ∧
    ((searching.record 1).archetype_index = 0 →
      (searching.archetype 2).component_set.data = [1]) ∧
    (entity_archetype_ptr_map_try_get
        (searching.archetype (searching.record 1).archetype_index).edges.add_edges 1 = none →
      ((entity_add_component 4 searching 1 1).record 1).archetype_index = 2)) :=
  ⟨by decide, searching_reachable, by decide, by decide, by decide, by decide,
    C26_search_exact 4 (by decide) searching searching_reachable 1 1 2 (by decide) (by decide)
      (by decide) (by decide)⟩

/-- C27. Archetypes are unique per component set: in a reachable world no two
archetypes hold the same components; and `entity_add_component` on a created
entity and a registered component leaves the number of archetypes as it is or
raises it by one, and leaves it as it is when an archetype with the components of
the current one and `c` exists already. -/
theorem C27_archetypes_unique (cap0 : Nat) (h0 : 0 < cap0) (w : ecs_world)
    (hr : Reachable cap0 w) (e c : Nat) (he : e < w.entity_count) (hreg : registered w c) :
    archetypes_unique w ∧
    w.archetypes.length ≤ (entity_add_component cap0 w e c).archetypes.length ∧
    (entity_add_component cap0 w e c).archetypes.length ≤ w.archetypes.length + 1 ∧
    ((∃ k, k < w.archetypes.length ∧
        ∀ x, x ∈ (w.archetype k).component_set.data ↔
          (x ∈ (w.archetype (w.record e).archetype_index).component_set.data ∨ x = c)) →
      (entity_add_component cap0 w e c).archetypes.length = w.archetypes.length) :=
  ⟨(reachable_unique cap0 h0 w hr).1,
    add_length cap0 w e c (reachable_wf cap0 h0 w hr) h0 he hreg
      (reachable_unique cap0 h0 w hr).1 (reachable_unique cap0 h0 w hr).2⟩

/-- C27 at a concrete input: entity 1 of `searching` is given `counter`, and the
archetype of `counter` and `marker` exists. -/
theorem C27_archetypes_unique_witness :
    0 < 4 ∧ Reachable 4 searching ∧ 1 < searching.entity_count ∧ registered searching 1 ∧
    (archetypes_unique searching ∧
    searching.archetypes.length ≤ (entity_add_component 4 searching 1 1).archetypes.length ∧
    (entity_add_component 4 searching 1 1).archetypes.length ≤ searching.archetypes.length + 1 ∧
    ((∃ k, k < searching.archetypes.length ∧
        ∀ x, x ∈ (searching.archetype k).component_set.data ↔
          (x ∈ (searching.archetype (searching.record 1).archetype_index).component_set.data ∨
            x = 1)) →
      (entity_add_component 4 searching 1 1).archetypes.length = searching.archetypes.length)) :=
  ⟨by decide, searching_reachable, by decide, by decide,
    C27_archetypes_unique 4 (by decide) searching searching_reachable 1 1 (by decide)
      (by decide)⟩

/-- C28. Slot reservation follows the growth rule: let `entity_add_component` move
a created entity of a reachable world that lacks the registered component `c`, by
either path.  Take the column of `c` in the destination archetype as it was before
the call (a fresh column when the call created the archetype).  After the call
that column has its capacity multiplied by `ECS_COLUMN_RESIZE_FACTOR` when
`count >= capacity - 1` held, the same capacity otherwise, and its count raised by
exactly one. -/
theorem C28_reservation_growth (cap0 : Nat) (h0 : 0 < cap0) (w : ecs_world)
    (hr : Reachable cap0 w) (e c : Nat) (he : e < w.entity_count) (hreg : registered w c)
    (hhas : entity_has_component w e c = false) :
    ∃ column : ecs_column,
      (((entity_add_component cap0 w e c).record e).archetype_index < w.archetypes.length →
        column = (w.archetype ((entity_add_component cap0 w e c).record e).archetype_index).columns.getD
          ( ecs_component_set_get_index
            (w.archetype ((entity_add_component cap0 w e c).record e).archetype_index).component_set
            c) default) ∧
      (w.archetypes.length ≤ ((entity_add_component cap0 w e c).record e).archetype_index →
        column = ecs_component_column_create cap0 (w.stride c)) ∧
      (((entity_add_component cap0 w e c).archetype
        ((entity_add_component cap0 w e c).record e).archetype_index).columns.getD
          ( ecs_component_set_get_index
            ((entity_add_component cap0 w e c).archetype
              ((entity_add_component cap0 w e c).record e).archetype_index).component_set c)
          default).capacity =
        (if column.count ≥ u64_pred column.capacity then
          column.capacity * ECS_COLUMN_RESIZE_FACTOR
        else column.capacity) ∧
      (((entity_add_component cap0 w e c).archetype
        ((entity_add_component cap0 w e c).record e).archetype_index).columns.getD
          ( ecs_component_set_get_index
            ((entity_add_component cap0 w e c).archetype
              ((entity_add_component cap0 w e c).record e).archetype_index).component_set c)
          default).count = column.count + 1 := by
  obtain ⟨column, h1, h2, h3, h4⟩ :=
    add_reserved_column cap0 w e c (reachable_wf cap0 h0 w hr) h0 he hreg hhas
  refine ⟨column, h1, h2, ?_, ?_⟩
  · rw [h4]; exact (reserve_column_spec column h3).1
  · rw [h4]; exact (reserve_column_spec column h3).2

/-- C28 at a concrete input: entity 1 of `edge_cached` is given `counter` along the
cached edge. -/
theorem C28_reservation_growth_witness :
    0 < 4 ∧ Reachable 4 edge_cached ∧ 1 < edge_cached.entity_count ∧ registered edge_cached 1 ∧
    entity_has_component edge_cached 1 1 = false ∧
    ∃ column : ecs_column,
      (((entity_add_component 4 edge_cached 1 1).record 1).archetype_index <
          edge_cached.archetypes.length →
        column = (edge_cached.archetype
            ((entity_add_component 4 edge_cached 1 1).record 1).archetype_index).columns.getD
          ( ecs_component_set_get_index
            (edge_cached.archetype
              ((entity_add_component 4 edge_cached 1 1).record 1).archetype_index).component_set
            1) default) ∧
      (edge_cached.archetypes.length ≤
          ((entity_add_component 4 edge_cached 1 1).record 1).archetype_index →
        column = ecs_component_column_create 4 (edge_cached.stride 1)) ∧
      (((entity_add_component 4 edge_cached 1 1).archetype
        ((entity_add_component 4 edge_cached 1 1).record 1).archetype_index).columns.getD
          ( ecs_component_set_get_index
            ((entity_add_component 4 edge_cached 1 1).archetype
              ((entity_add_component 4 edge_cached 1 1).record 1).archetype_index).component_set 1)
          default).capacity =
        (if column.count ≥ u64_pred column.capacity then
          column.capacity * ECS_COLUMN_RESIZE_FACTOR
        else column.capacity) ∧
      (((entity_add_component 4 edge_cached 1 1).archetype
        ((entity_add_component 4 edge_cached 1 1).record 1).archetype_index).columns.getD
          ( ecs_component_set_get_index
            ((entity_add_component 4 edge_cached 1 1).archetype
              ((entity_add_component 4 edge_cached 1 1).record 1).archetype_index).component_set 1)
          default).count = column.count + 1 :=
  ⟨by decide, edge_cached_reachable, by decide, by decide, by decide,
    C28_reservation_growth 4 (by decide) edge_cached edge_cached_reachable 1 1 (by decide)
      (by decide) (by decide)⟩

/-- C29. The reserved slot lies inside the capacity: let the column of component
`c` in archetype `b` have capacity at least 1 and `count <= capacity - 1`.  After
the reservation step of `entity_add_component` its count is one more, `count <=
capacity - 1` still holds, and the row reserved (the old count) is below the new
capacity. -/
theorem C29_reserved_slot_in_capacity (w : ecs_world) (b c : Nat)
    (hb : b < w.archetypes.length)
    (hj : ecs_component_set_get_index (w.archetype b).component_set c <
      (w.archetype b).columns.length)
    (hcap : 1 ≤ ((w.archetype b).columns.getD
      ( ecs_component_set_get_index (w.archetype b).component_set c) default).capacity)
    (hcount : ((w.archetype b).columns.getD
        ( ecs_component_set_get_index (w.archetype b).component_set c) default).count ≤
      ((w.archetype b).columns.getD
        ( ecs_component_set_get_index (w.archetype b).component_set c) default).capacity - 1) :
    (((entity_add_component_reserve w b c).archetype b).columns.getD
        ( ecs_component_set_get_index (w.archetype b).component_set c) default).count =
      ((w.archetype b).columns.getD
        ( ecs_component_set_get_index (w.archetype b).component_set c) default).count + 1 ∧
    (((entity_add_component_reserve w b c).archetype b).columns.getD
        ( ecs_component_set_get_index (w.archetype b).component_set c) default).count ≤
      (((entity_add_component_reserve w b c).archetype b).columns.getD
        ( ecs_component_set_get_index (w.archetype b).component_set c) default).capacity - 1 ∧
    ((w.archetype b).columns.getD
        ( ecs_component_set_get_index (w.archetype b).component_set c) default).count <
      (((entity_add_component_reserve w b c).archetype b).columns.getD
        ( ecs_component_set_get_index (w.archetype b).component_set c) default).capacity := by
  rw [reserve_archetype, if_pos ⟨rfl, hb⟩]
  simp only []
  rw [getD_updAt_self _ _ _ _ hj]
  generalize (w.archetype b).columns.getD
    ( ecs_component_set_get_index (w.archetype b).component_set c) default = col at hcap hcount
  obtain ⟨h1, h2⟩ := reserve_column_spec col (by omega)
  rw [h1, h2]
  refine ⟨rfl, ?_, ?_⟩
  · split
    · rename_i hge
      have := u64_pred_le col.capacity (by omega)
      unfold ECS_COLUMN_RESIZE_FACTOR
      omega
    · rename_i hlt
      unfold u64_pred at hlt
      rw [if_neg (by omega)] at hlt
      omega
  · split
    · unfold ECS_COLUMN_RESIZE_FACTOR; omega
    · omega

/-- C29 at a concrete input: in `demo5` the column of `counter` in archetype 1 holds
one row and has capacity 4. -/
theorem C29_reserved_slot_in_capacity_witness :
    1 < demo5.archetypes.length ∧
    ecs_component_set_get_index (demo5.archetype 1).component_set 1 <
      (demo5.archetype 1).columns.length ∧
    1 ≤ ((demo5.archetype 1).columns.getD
      ( ecs_component_set_get_index (demo5.archetype 1).component_set 1) default).capacity ∧
    ((demo5.archetype 1).columns.getD
        ( ecs_component_set_get_index (demo5.archetype 1).component_set 1) default).count ≤
      ((demo5.archetype 1).columns.getD
        ( ecs_component_set_get_index (demo5.archetype 1).component_set 1) default).capacity - 1 ∧
    ((((entity_add_component_reserve demo5 1 1).archetype 1).columns.getD
        ( ecs_component_set_get_index (demo5.archetype 1).component_set 1) default).count =
      ((demo5.archetype 1).columns.getD
        ( ecs_component_set_get_index (demo5.archetype 1).component_set 1) default).count + 1 ∧
    (((entity_add_component_reserve demo5 1 1).archetype 1).columns.getD
        ( ecs_component_set_get_index (demo5.archetype 1).component_set 1) default).count ≤
      (((entity_add_component_reserve demo5 1 1).archetype 1).columns.getD
        ( ecs_component_set_get_index (demo5.archetype 1).component_set 1) default).capacity - 1 ∧
    ((demo5.archetype 1).columns.getD
        ( ecs_component_set_get_index (demo5.archetype 1).component_set 1) default).count <
      (((entity_add_component_reserve demo5 1 1).archetype 1).columns.getD
        ( ecs_component_set_get_index (demo5.archetype 1).component_set 1) default).capacity) :=
  ⟨by decide, by decide, by decide, by decide,
    C29_reserved_slot_in_capacity demo5 1 1 (by decide) (by decide) (by decide) (by decide)⟩

/-- C30. The cached-edge path refines the search path: in a reachable world let the
created entity `e`, in archetype `A`, lack the registered component `c`, and let
`A.add_edges[c] = B`.  Then the search of the slow path selects `B`, and the search
path run from the same world gives the same world as the cached path, which is
what `entity_add_component` returns: records, entity lists, columns and edge
maps are all equal. -/
theorem C30_cached_refines_search (cap0 : Nat) (h0 : 0 < cap0) (w : ecs_world)
    (hr : Reachable cap0 w) (e c B : Nat) (he : e < w.entity_count) (hreg : registered w c)
    (hhas : entity_has_component w e c = false)
    (hedge : entity_archetype_ptr_map_try_get
      (w.archetype (w.record e).archetype_index).edges.add_edges c = some B) :
    (w.components.getD c default).archetypes.find?
        (entity_add_component_candidate w (w.record e).archetype_index c) = some B ∧
    entity_add_component_search cap0 w e c = entity_add_component_cached w e c B ∧
    entity_add_component cap0 w e c = entity_add_component_cached w e c B := by
  obtain ⟨h1, h2⟩ := search_refines cap0 w e c B (reachable_wf cap0 h0 w hr)
    (reachable_unique cap0 h0 w hr).1 (reachable_unique cap0 h0 w hr).2
    (reachable_paired cap0 h0 w hr) he hreg hhas hedge
  exact ⟨h1, h2, add_fast_eq cap0 w e c B hhas hedge⟩

/-- C30 at a concrete input: entity 1 of `edge_cached` is in the empty archetype,
whose edge for `counter` leads to archetype 1. -/
theorem C30_cached_refines_search_witness :
    0 < 4 ∧ Reachable 4 edge_cached ∧ 1 < edge_cached.entity_count ∧ registered edge_cached 1 ∧
    entity_has_component edge_cached 1 1 = false ∧
    entity_archetype_ptr_map_try_get
      (edge_cached.archetype (edge_cached.record 1).archetype_index).edges.add_edges 1 =
        some 1 ∧
    ((edge_cached.components.getD 1 default).archetypes.find?
        (entity_add_component_candidate edge_cached (edge_cached.record 1).archetype_index 1) =
          some 1 ∧
    entity_add_component_search 4 edge_cached 1 1 = entity_add_component_cached edge_cached 1 1 1 ∧
    entity_add_component 4 edge_cached 1 1 = entity_add_component_cached edge_cached 1 1 1) :=
  ⟨by decide, edge_cached_reachable, by decide, by decide, by decide, by decide,
    C30_cached_refines_search 4 (by decide) edge_cached edge_cached_reachable 1 1 1 (by decide)
      (by decide) (by decide) (by decide)⟩
/-! ## Support for the claims on set, the assertions and the records -/

theorem aliased_reachable : Reachable 4 aliased :=
  Reachable.set _ 2 2 [12]
    (Reachable.create _
      (Reachable.add pair_in_marker 0 1 pair_in_marker_reachable (by decide) (by decide)))
    (by decide) (by decide) (by decide)

/-- What `entity_set_component` does when the entity has the component: one write
into the column of the component, at offset `record.index * stride`. -/
theorem set_of_has (cap0 : Nat) (w : ecs_world) (e c : Nat) (data : List Nat) (stride : Nat)
    (hhas : entity_has_component w e c = true) :
    entity_set_component cap0 w e c data stride =
      modify_column w (w.record e).archetype_index
        ( ecs_component_set_get_index (w.archetype (w.record e).archetype_index).component_set c)
        (fun column =>
          { column with
            data := write_bytes column.data ((w.record e).index * stride)
              (read_bytes data 0 stride) }) := by
  unfold entity_set_component
  simp only [hhas, Bool.not_true, Bool.false_eq_true, if_false]

theorem get_of_has (w : ecs_world) (e c : Nat) (hhas : entity_has_component w e c = true) :
    entity_get_component w e c = some
      { archetype := (w.record e).archetype_index
        column := ecs_component_set_get_index
          (w.archetype (w.record e).archetype_index).component_set c
        offset := (w.record e).index *
          ((w.archetype (w.record e).archetype_index).columns.getD
            ( ecs_component_set_get_index
              (w.archetype (w.record e).archetype_index).component_set c)
            default).component_stride } := by
  unfold entity_get_component
  unfold entity_has_component at hhas
  simp only [hhas, Bool.not_true, Bool.false_eq_true, if_false]

/-- The column of a component an entity has carries the registered stride. -/
theorem column_stride_registered (w : ecs_world) (hwf : WF w) (e c : Nat)
    (hhas : entity_has_component w e c = true) :
    ((w.archetype (w.record e).archetype_index).columns.getD
      ( ecs_component_set_get_index (w.archetype (w.record e).archetype_index).component_set c)
      default).component_stride = w.stride c := by
  have hc := (contains_iff _ _).1 hhas
  rw [get_index_of_mem _ c hc.1 hc.2]
  exact (get_bytes_eq w e c hwf hc.2).1.1

theorem nodup_bounded_length (l : List Nat) (n : Nat) (hnd : l.Nodup) (hlt : ∀ x ∈ l, x < n) :
    l.length ≤ n := by
  have hsub : l ⊆ List.range n := fun x hx => List.mem_range.2 (hlt x hx)
  have := (List.subperm_of_subset hnd hsub).length_le
  rwa [List.length_range] at this

/-- In a sound world the ordinal of a component of an archetype is not the
sentinel. -/
theorem get_index_valid (w : ecs_world) (hwf : WF w) (a c : Nat) (ha : a < w.archetypes.length)
    (hc : c ∈ (w.archetype a).component_set.data) :
    ecs_component_set_get_index (w.archetype a).component_set c ≠ INVALID_ID := by
  have hok := hwf.arch_ok a ha
  have hcI := registered_ne (hok.2.2.1 c hc)
  rw [get_index_of_mem _ c hcI hc]
  have h1 : (w.archetype a).component_set.data.indexOf c <
      (w.archetype a).component_set.data.length := List.indexOf_lt_length.2 hc
  have h2 := nodup_bounded_length _ INVALID_ID hok.2.1 (fun x hx => (hok.2.2.1 x hx).2)
  omega

theorem reserve_set (w : ecs_world) (b c k : Nat) :
    ((entity_add_component_reserve w b c).archetype k).component_set =
      (w.archetype k).component_set := by
  rw [reserve_archetype]
  split <;> rfl

theorem add_sassert_slow (cap0 : Nat) (w : ecs_world) (e c : Nat)
    (h1 : entity_has_component w e c = false)
    (h2 : entity_archetype_ptr_map_try_get
      (w.archetype (w.record e).archetype_index).edges.add_edges c = none) :
    entity_add_component_sassert cap0 w e c =
      ( ecs_component_set_get_index
        ((entity_transition_archetype
          (install_edges (select_archetype cap0 w (w.record e).archetype_index c).1
            (w.record e).archetype_index c
            (select_archetype cap0 w (w.record e).archetype_index c).2) e
          (select_archetype cap0 w (w.record e).archetype_index c).2).archetype
          (select_archetype cap0 w (w.record e).archetype_index c).2).component_set c
        != INVALID_ID) := by
  unfold entity_add_component_sassert
  rw [if_neg (by rw [h1]; simp)]
  simp only [h2]
  rfl

/-- Neither assertion fails on a created entity and a registered component of a
sound world. -/
theorem sasserts_hold (cap0 : Nat) (w : ecs_world) (e c : Nat) (hwf : WF w) (h0 : 0 < cap0)
    (he : e < w.entity_count) (hreg : registered w c) :
    entity_add_component_sassert cap0 w e c = true ∧
    entity_set_component_sassert cap0 w e c = true := by
  have hcI := registered_ne hreg
  constructor
  · cases hhas : entity_has_component w e c with
    | true => unfold entity_add_component_sassert; rw [if_pos hhas]
    | false =>
      rcases add_cases cap0 w e c hwf h0 he hreg hhas with
        ⟨b, hedge, _⟩ | ⟨hedge, s, hs, _, _, hb1, _, hset1, hwf2, hmv⟩
      · unfold entity_add_component_sassert
        rw [if_neg (by rw [hhas]; simp)]
        simp only [hedge]
      · rw [add_sassert_slow cap0 w e c hhas hedge, ← hs]
        have hl : (install_edges s.1 (w.record e).archetype_index c s.2).archetypes.length =
            s.1.archetypes.length := by simp [install_edges]
        have hadd : entity_add_component cap0 w e c =
            entity_add_component_reserve
              (entity_transition_archetype
                (install_edges s.1 (w.record e).archetype_index c s.2) e s.2) s.2 c := by
          rw [hs]; exact add_slow_eq cap0 w e c hhas hedge
        have hsetT : ((entity_transition_archetype
            (install_edges s.1 (w.record e).archetype_index c s.2) e s.2).archetype
              s.2).component_set =
            ((install_edges s.1 (w.record e).archetype_index c s.2).archetype s.2).component_set := by
          rw [← reserve_set _ s.2 c s.2, ← hadd, hmv.set_eq]
        rw [hsetT]
        have hcb : c ∈ ((install_edges s.1 (w.record e).archetype_index c s.2).archetype
            s.2).component_set.data := by
          rw [(install_archetype s.1 _ c s.2 s.2).1]
          exact (hset1 c).2 (Or.inr rfl)
        have := get_index_valid _ hwf2 s.2 c (by rw [hl]; exact hb1) hcb
        simpa using this
  · have hwf1 : WF (if (!entity_has_component w e c) = true then entity_add_component cap0 w e c
        else w) := by
      split
      · exact add_wf cap0 w e c hwf h0 he hreg
      · exact hwf
    have hhas1 : entity_has_component
        (if (!entity_has_component w e c) = true then entity_add_component cap0 w e c else w)
        e c = true := by
      cases hhas : entity_has_component w e c with
      | true => simp [hhas]
      | false =>
        simp only [Bool.not_false, if_true]
        exact (add_has_spec cap0 w e c hwf h0 he hreg hhas).1
    unfold entity_set_component_sassert
    simp only []
    generalize (if (!entity_has_component w e c) = true then entity_add_component cap0 w e c
      else w) = w1 at hwf1 hhas1
    have := get_index_valid w1 hwf1 _ c (record_arch_lt w1 hwf1 e) ((contains_iff _ _).1 hhas1).2
    simpa using this

/-- When the entity has the component, `entity_set_component` keeps the records,
and in every archetype the entity list, the edge maps, the set, and the count and
capacity of every column. -/
theorem set_keeps_storage (cap0 : Nat) (w : ecs_world) (e c : Nat) (data : List Nat)
    (stride : Nat) (hhas : entity_has_component w e c = true) :
    (entity_set_component cap0 w e c data stride).records = w.records ∧
    (entity_set_component cap0 w e c data stride).archetypes.length = w.archetypes.length ∧
    ∀ k, ((entity_set_component cap0 w e c data stride).archetype k).entities =
        (w.archetype k).entities ∧
      ((entity_set_component cap0 w e c data stride).archetype k).edges = (w.archetype k).edges ∧
      ((entity_set_component cap0 w e c data stride).archetype k).component_set =
        (w.archetype k).component_set ∧
      ∀ j, (((entity_set_component cap0 w e c data stride).archetype k).columns.getD j
            default).count = ((w.archetype k).columns.getD j default).count ∧
        (((entity_set_component cap0 w e c data stride).archetype k).columns.getD j
            default).capacity = ((w.archetype k).columns.getD j default).capacity := by
  rw [set_of_has cap0 w e c data stride hhas]
  refine ⟨rfl, by simp [modify_column], ?_⟩
  intro k
  obtain ⟨h1, h2, h3, _, _⟩ := modify_column_core w (w.record e).archetype_index
    ( ecs_component_set_get_index (w.archetype (w.record e).archetype_index).component_set c) k
    (fun column =>
      { column with
        data := write_bytes column.data ((w.record e).index * stride)
          (read_bytes data 0 stride) })
  refine ⟨h2, h3, h1, ?_⟩
  intro j
  rcases modify_column_getD w (w.record e).archetype_index
    ( ecs_component_set_get_index (w.archetype (w.record e).archetype_index).component_set c) k j
    (fun column =>
      { column with
        data := write_bytes column.data ((w.record e).index * stride)
          (read_bytes data 0 stride) }) with h | h
  · rw [h]; exact ⟨rfl, rfl⟩
  · rw [h]; exact ⟨rfl, rfl⟩
/-! ## Claims C31 to C36 -/

/-- C31, evaluated at a failing input.  In `aliased` the records of entities 1 and 2
both name row 1 of the archetype of `marker` (entity 1 really sits at row 0, its
record was not patched when entity 0 left).  Entity 2 has `marker`, of stride 1, and
`entity_set_component` sets it to 99: the bytes of `marker` that
`entity_get_component` resolves to for entity 1 change from 12 to 99. -/
theorem C31_set_changes_other_entity :
    Reachable 4 aliased ∧ 2 < aliased.entity_count ∧ registered aliased 2 ∧
    aliased.stride 2 = 1 ∧ entity_has_component aliased 2 2 = true ∧
    entity_has_component aliased 1 2 = true ∧
    aliased.record 1 = { index := 1, archetype_index := 1 } ∧
    aliased.record 2 = { index := 1, archetype_index := 1 } ∧
    (aliased.archetype 1).entities = [1, 2] ∧
    entity_get_component_bytes aliased 1 2 = some [12] ∧
    entity_get_component_bytes (entity_set_component 4 aliased 2 2 [99] 1) 1 2 = some [99] :=
  ⟨aliased_reachable, by decide, by decide, by decide, by decide, by decide, by decide,
    by decide, by decide, by decide, by decide⟩

/-- C32. Set and get address the same bytes only when the strides agree: for an
entity that has component `c`, `entity_set_component` called with stride `t` is one
write of `t` bytes at offset `record.index * t` of the column of `c`, and
`entity_get_component` resolves to offset `record.index * s` of that column, `s`
being the stride of the column (the registered stride of `c` in a reachable
world).  The two offsets are equal iff `t = s` or the row is 0; they are equal for
every row iff `t = s`. -/
theorem C32_set_get_offsets (cap0 : Nat) (w : ecs_world) (e c : Nat) (data : List Nat) (t : Nat)
    (hhas : entity_has_component w e c = true) :
    entity_set_component cap0 w e c data t =
      modify_column w (w.record e).archetype_index
        ( ecs_component_set_get_index (w.archetype (w.record e).archetype_index).component_set c)
        (fun column =>
          { column with
            data := write_bytes column.data ((w.record e).index * t) (read_bytes data 0 t) }) ∧
    entity_get_component w e c = some
      { archetype := (w.record e).archetype_index
        column := ecs_component_set_get_index
          (w.archetype (w.record e).archetype_index).component_set c
        offset := (w.record e).index *
          ((w.archetype (w.record e).archetype_index).columns.getD
            ( ecs_component_set_get_index
              (w.archetype (w.record e).archetype_index).component_set c)
            default).component_stride } ∧
    ((w.record e).index * t =
        (w.record e).index *
          ((w.archetype (w.record e).archetype_index).columns.getD
            ( ecs_component_set_get_index
              (w.archetype (w.record e).archetype_index).component_set c)
            default).component_stride ↔
      (t = ((w.archetype (w.record e).archetype_index).columns.getD
            ( ecs_component_set_get_index
              (w.archetype (w.record e).archetype_index).component_set c)
            default).component_stride ∨ (w.record e).index = 0)) ∧
    ((∀ r : Nat, r * t =
        r * ((w.archetype (w.record e).archetype_index).columns.getD
            ( ecs_component_set_get_index
              (w.archetype (w.record e).archetype_index).component_set c)
            default).component_stride) ↔
      t = ((w.archetype (w.record e).archetype_index).columns.getD
            ( ecs_component_set_get_index
              (w.archetype (w.record e).archetype_index).component_set c)
            default).component_stride) ∧
    (0 < cap0 → Reachable cap0 w →
      ((w.archetype (w.record e).archetype_index).columns.getD
        ( ecs_component_set_get_index
          (w.archetype (w.record e).archetype_index).component_set c)
        default).component_stride = w.stride c) := by
  refine ⟨set_of_has cap0 w e c data t hhas, get_of_has w e c hhas, ?_, ?_,
    fun h0 hr => column_stride_registered w (reachable_wf cap0 h0 w hr) e c hhas⟩
  · generalize ((w.archetype (w.record e).archetype_index).columns.getD
      ( ecs_component_set_get_index (w.archetype (w.record e).archetype_index).component_set c)
      default).component_stride = s
    constructor
    · intro h
      by_cases hr : (w.record e).index = 0
      · exact Or.inr hr
      · exact Or.inl (Nat.eq_of_mul_eq_mul_left (Nat.pos_of_ne_zero hr) h)
    · rintro (h | h)
      · rw [h]
      · rw [h, Nat.zero_mul, Nat.zero_mul]
  · generalize ((w.archetype (w.record e).archetype_index).columns.getD
      ( ecs_component_set_get_index (w.archetype (w.record e).archetype_index).component_set c)
      default).component_stride = s
    constructor
    · intro h
      have := h 1
      simpa using this
    · intro h r
      rw [h]

/-- C32 at a concrete input: entity 1 of `pair_in_marker` is at row 1 and has
`marker`, of stride 1; it is set with two bytes and stride 2. -/
theorem C32_set_get_offsets_witness :
    entity_has_component pair_in_marker 1 2 = true ∧
    (entity_set_component 4 pair_in_marker 1 2 [7, 8] 2 =
      modify_column pair_in_marker (pair_in_marker.record 1).archetype_index
        ( ecs_component_set_get_index
          (pair_in_marker.archetype (pair_in_marker.record 1).archetype_index).component_set 2)
        (fun column =>
          { column with
            data := write_bytes column.data ((pair_in_marker.record 1).index * 2)
              (read_bytes [7, 8] 0 2) }) ∧
    entity_get_component pair_in_marker 1 2 = some
      { archetype := (pair_in_marker.record 1).archetype_index
        column := ecs_component_set_get_index
          (pair_in_marker.archetype (pair_in_marker.record 1).archetype_index).component_set 2
        offset := (pair_in_marker.record 1).index *
          ((pair_in_marker.archetype (pair_in_marker.record 1).archetype_index).columns.getD
            ( ecs_component_set_get_index
              (pair_in_marker.archetype (pair_in_marker.record 1).archetype_index).component_set 2)
            default).component_stride } ∧
    ((pair_in_marker.record 1).index * 2 =
        (pair_in_marker.record 1).index *
          ((pair_in_marker.archetype (pair_in_marker.record 1).archetype_index).columns.getD
            ( ecs_component_set_get_index
              (pair_in_marker.archetype (pair_in_marker.record 1).archetype_index).component_set 2)
            default).component_stride ↔
      (2 = ((pair_in_marker.archetype (pair_in_marker.record 1).archetype_index).columns.getD
            ( ecs_component_set_get_index
              (pair_in_marker.archetype (pair_in_marker.record 1).archetype_index).component_set 2)
            default).component_stride ∨ (pair_in_marker.record 1).index = 0)) ∧
    ((∀ r : Nat, r * 2 =
        r * ((pair_in_marker.archetype (pair_in_marker.record 1).archetype_index).columns.getD
            ( ecs_component_set_get_index
              (pair_in_marker.archetype (pair_in_marker.record 1).archetype_index).component_set 2)
            default).component_stride) ↔
      2 = ((pair_in_marker.archetype (pair_in_marker.record 1).archetype_index).columns.getD
            ( ecs_component_set_get_index
              (pair_in_marker.archetype (pair_in_marker.record 1).archetype_index).component_set 2)
            default).component_stride) ∧
    (0 < 4 → Reachable 4 pair_in_marker →
      ((pair_in_marker.archetype (pair_in_marker.record 1).archetype_index).columns.getD
        ( ecs_component_set_get_index
          (pair_in_marker.archetype (pair_in_marker.record 1).archetype_index).component_set 2)
        default).component_stride = pair_in_marker.stride 2)) :=
  ⟨by decide, C32_set_get_offsets 4 pair_in_marker 1 2 [7, 8] 2 (by decide)⟩

/-- C33. Iterator ordinal access is bounds-checked: `ECS_ITERATOR_GET_COMPONENTS`
fails its assertion exactly when the index is at least `component_count`, and
otherwise yields `component_data[index]`; for the iterator built for a query and an
archetype that is the base pointer of the column of the component at that position
of the includes of the query. -/
theorem C33_iterator_access (iterator : ecs_iterator) (index : Nat) (w : ecs_world)
    (q : ecs_query) (archetype : Nat) :
    ( ECS_ITERATOR_GET_COMPONENTS iterator index = none ↔ iterator.component_count ≤ index) ∧
    (index < iterator.component_count →
      ECS_ITERATOR_GET_COMPONENTS iterator index =
        some (iterator.component_data.getD index default)) ∧
    (ecs_query_iterator w q archetype).component_count = q.components.length ∧
    (index < q.components.length →
      ECS_ITERATOR_GET_COMPONENTS (ecs_query_iterator w q archetype) index =
        some { archetype := archetype
               column := ecs_component_set_get_index (w.archetype archetype).component_set
                 (q.components.getD index 0)
               offset := 0 }) := by
  refine ⟨?_, ?_, rfl, ?_⟩
  · unfold ECS_ITERATOR_GET_COMPONENTS
    simp only []
    split
    · simp; omega
    · simp; omega
  · intro h
    unfold ECS_ITERATOR_GET_COMPONENTS
    simp only []
    rw [if_pos h]
  · intro h
    unfold ECS_ITERATOR_GET_COMPONENTS ecs_query_iterator
    simp only []
    rw [if_pos h]
    congr 1
    apply getD_of_getElem?
    rw [List.getElem?_map, getElem?_of_lt_getD _ _ 0 h]
    rfl

/-- C33 at a concrete input: the iterator for a query that includes `counter`, over
archetype 1 of `demo5`, asked for index 1: the assertion fails, one component being
included. -/
theorem C33_iterator_access_witness :
    ( ECS_ITERATOR_GET_COMPONENTS
        (ecs_query_iterator demo5
          { archetype_indices := [1], components := [1], without_components := [], hash := 0 } 1)
        1 = none ↔
      (ecs_query_iterator demo5
        { archetype_indices := [1], components := [1], without_components := [], hash := 0 }
        1).component_count ≤ 1) ∧
    (1 < (ecs_query_iterator demo5
        { archetype_indices := [1], components := [1], without_components := [], hash := 0 }
        1).component_count →
      ECS_ITERATOR_GET_COMPONENTS
        (ecs_query_iterator demo5
          { archetype_indices := [1], components := [1], without_components := [], hash := 0 } 1)
        1 =
        some ((ecs_query_iterator demo5
          { archetype_indices := [1], components := [1], without_components := [], hash := 0 }
          1).component_data.getD 1 default)) ∧
    (ecs_query_iterator demo5
      { archetype_indices := [1], components := [1], without_components := [], hash := 0 }
      1).component_count =
      ({ archetype_indices := [1], components := [1], without_components := [],
         hash := 0 } : ecs_query).components.length ∧
    (1 < ({ archetype_indices := [1], components := [1], without_components := [],
            hash := 0 } : ecs_query).components.length →
      ECS_ITERATOR_GET_COMPONENTS
        (ecs_query_iterator demo5
          { archetype_indices := [1], components := [1], without_components := [], hash := 0 } 1)
        1 =
        some { archetype := 1
               column := ecs_component_set_get_index (demo5.archetype 1).component_set
                 (({ archetype_indices := [1], components := [1], without_components := [],
                     hash := 0 } : ecs_query).components.getD 1 0)
               offset := 0 }) :=
  C33_iterator_access
    (ecs_query_iterator demo5
      { archetype_indices := [1], components := [1], without_components := [], hash := 0 } 1)
    1 demo5
    { archetype_indices := [1], components := [1], without_components := [], hash := 0 } 1

/-- C34. The assertions of add and set never fire on valid input: in a reachable
world, for a created entity and a registered component, the condition asserted in
`entity_add_component` (the column index of the new component in the destination
set is not `INVALID_ID`) holds where it is evaluated, and so does the condition
asserted in `entity_set_component` (the column index of the component in the
current archetype of the entity is not `INVALID_ID`). -/
theorem C34_assertions_hold (cap0 : Nat) (h0 : 0 < cap0) (w : ecs_world) (hr : Reachable cap0 w)
    (e c : Nat) (he : e < w.entity_count) (hreg : registered w c) :
    entity_add_component_sassert cap0 w e c = true ∧
    entity_set_component_sassert cap0 w e c = true :=
  sasserts_hold cap0 w e c (reachable_wf cap0 h0 w hr) h0 he hreg

/-- C34 at a concrete input: entity 1 of `searching` and `counter`, which takes the
search path of `entity_add_component`. -/
theorem C34_assertions_hold_witness :
    0 < 4 ∧ Reachable 4 searching ∧ 1 < searching.entity_count ∧ registered searching 1 ∧
    entity_add_component_sassert 4 searching 1 1 = true ∧
    entity_set_component_sassert 4 searching 1 1 = true :=
  ⟨by decide, searching_reachable, by decide, by decide,
    C34_assertions_hold 4 (by decide) searching searching_reachable 1 1 (by decide) (by decide)⟩

/-- C35. Record lookups are in bounds: in a reachable world there are as many
records as `entity_count`, and for every handle below `entity_count` the record
names an archetype index below the number of archetypes, and the archetype stored
at that index has that index as its `archetype_id`. -/
theorem C35_record_lookups_in_bounds (cap0 : Nat) (h0 : 0 < cap0) (w : ecs_world)
    (hr : Reachable cap0 w) :
    w.records.length = w.entity_count ∧
    ∀ e, e < w.entity_count →
      e < w.records.length ∧
      (w.record e).archetype_index < w.archetypes.length ∧
      (w.archetype (w.record e).archetype_index).archetype_id = (w.record e).archetype_index := by
  have hwf := reachable_wf cap0 h0 w hr
  refine ⟨hwf.rec_len, ?_⟩
  intro e he
  exact ⟨by rw [hwf.rec_len]; exact he, hwf.rec_arch e he,
    (hwf.arch_ok _ (hwf.rec_arch e he)).1⟩

/-- C35 at a concrete input: the world `aliased`, with three entities in two
archetypes. -/
theorem C35_record_lookups_in_bounds_witness :
    0 < 4 ∧ Reachable 4 aliased ∧
    (aliased.records.length = aliased.entity_count ∧
    ∀ e, e < aliased.entity_count →
      e < aliased.records.length ∧
      (aliased.record e).archetype_index < aliased.archetypes.length ∧
      (aliased.archetype (aliased.record e).archetype_index).archetype_id =
        (aliased.record e).archetype_index) :=
  ⟨by decide, aliased_reachable,
    C35_record_lookups_in_bounds 4 (by decide) aliased aliased_reachable⟩

/-- C36. Unsigned wrap at capacity 0: for a column with capacity 0 the guard of the
reservation step of `entity_add_component` compares the count with `2^64 - 1`; when
the count is below that, no resize happens: the capacity stays 0 and the count
becomes `count + 1`, above the capacity. -/
theorem C36_wrap_at_capacity_zero (w : ecs_world) (b c : Nat)
    (hb : b < w.archetypes.length)
    (hj : ecs_component_set_get_index (w.archetype b).component_set c <
      (w.archetype b).columns.length)
    (hcap : ((w.archetype b).columns.getD
      ( ecs_component_set_get_index (w.archetype b).component_set c) default).capacity = 0)
    (hcount : ((w.archetype b).columns.getD
      ( ecs_component_set_get_index (w.archetype b).component_set c) default).count <
        18446744073709551615) :
    u64_pred ((w.archetype b).columns.getD
      ( ecs_component_set_get_index (w.archetype b).component_set c) default).capacity =
        18446744073709551615 ∧
    ecs_column_grow ((w.archetype b).columns.getD
      ( ecs_component_set_get_index (w.archetype b).component_set c) default) =
        (w.archetype b).columns.getD
          ( ecs_component_set_get_index (w.archetype b).component_set c) default ∧
    (((entity_add_component_reserve w b c).archetype b).columns.getD
        ( ecs_component_set_get_index (w.archetype b).component_set c) default).capacity = 0 ∧
    (((entity_add_component_reserve w b c).archetype b).columns.getD
        ( ecs_component_set_get_index (w.archetype b).component_set c) default).count =
      ((w.archetype b).columns.getD
        ( ecs_component_set_get_index (w.archetype b).component_set c) default).count + 1 ∧
    (((entity_add_component_reserve w b c).archetype b).columns.getD
        ( ecs_component_set_get_index (w.archetype b).component_set c) default).capacity <
      (((entity_add_component_reserve w b c).archetype b).columns.getD
        ( ecs_component_set_get_index (w.archetype b).component_set c) default).count := by
  rw [reserve_archetype, if_pos ⟨rfl, hb⟩]
  simp only []
  rw [getD_updAt_self _ _ _ _ hj]
  generalize (w.archetype b).columns.getD
    ( ecs_component_set_get_index (w.archetype b).component_set c) default = col at hcap hcount
  have hpred : u64_pred col.capacity = 18446744073709551615 := by
    unfold u64_pred; rw [if_pos hcap]
  have hgrow : ecs_column_grow col = col := by
    unfold ecs_column_grow
    rw [hpred, if_neg (Nat.not_le.2 hcount)]
  refine ⟨hpred, hgrow, ?_, ?_, ?_⟩
  · unfold reserve_column; rw [hgrow]; exact hcap
  · unfold reserve_column; rw [hgrow]
  · unfold reserve_column; rw [hgrow]
    simp only []
    rw [hcap]
    exact Nat.succ_pos _

/-- C36 at a concrete input: in `no_capacity` the column of `counter` in archetype 1
has capacity 0 and holds one row. -/
theorem C36_wrap_at_capacity_zero_witness :
    1 < no_capacity.archetypes.length ∧
    ecs_component_set_get_index (no_capacity.archetype 1).component_set 1 <
      (no_capacity.archetype 1).columns.length ∧
    ((no_capacity.archetype 1).columns.getD
      ( ecs_component_set_get_index (no_capacity.archetype 1).component_set 1) default).capacity =
        0 ∧
    ((no_capacity.archetype 1).columns.getD
      ( ecs_component_set_get_index (no_capacity.archetype 1).component_set 1) default).count <
        18446744073709551615 ∧
    (u64_pred ((no_capacity.archetype 1).columns.getD
      ( ecs_component_set_get_index (no_capacity.archetype 1).component_set 1) default).capacity =
        18446744073709551615 ∧
    ecs_column_grow ((no_capacity.archetype 1).columns.getD
      ( ecs_component_set_get_index (no_capacity.archetype 1).component_set 1) default) =
        (no_capacity.archetype 1).columns.getD
          ( ecs_component_set_get_index (no_capacity.archetype 1).component_set 1) default ∧
    (((entity_add_component_reserve no_capacity 1 1).archetype 1).columns.getD
        ( ecs_component_set_get_index (no_capacity.archetype 1).component_set 1)
        default).capacity = 0 ∧
    (((entity_add_component_reserve no_capacity 1 1).archetype 1).columns.getD
        ( ecs_component_set_get_index (no_capacity.archetype 1).component_set 1)
        default).count =
      ((no_capacity.archetype 1).columns.getD
        ( ecs_component_set_get_index (no_capacity.archetype 1).component_set 1)
        default).count + 1 ∧
    (((entity_add_component_reserve no_capacity 1 1).archetype 1).columns.getD
        ( ecs_component_set_get_index (no_capacity.archetype 1).component_set 1)
        default).capacity <
      (((entity_add_component_reserve no_capacity 1 1).archetype 1).columns.getD
        ( ecs_component_set_get_index (no_capacity.archetype 1).component_set 1)
        default).count) :=
  ⟨by decide, by decide, by decide, by decide,
    C36_wrap_at_capacity_zero no_capacity 1 1 (by decide) (by decide) (by decide) (by decide)⟩
end OECS
